import Mathlib

/-!
The mood journal stimmung-ding: the statistics aggregation of `server/src/db.js`.

A shallow embedding of `isoWeekKey`, `monthKey`, `statsSummary`, `listEntries`,
`getBounds` and `insertEntry` of `db.js`, of the handler of `POST /api/entries`
of `index.js`, and of `defaultDaysFor` and `refresh` of the client, together
with the ECMAScript built-ins they call (`Date.UTC`, `getUTC*`, `setUTCDate`,
`toISOString`, `String.prototype.split`, `padStart`, `Number`, `Math.round`,
`Array.prototype.sort`).

Conventions.
* A JavaScript number that holds an integer is an `Int`; where the code can
  produce `NaN` (parsing a bucket key back) the value is an `Option Int` and
  `none` stands for `NaN`.  The body of a `POST` request can hold any number:
  there a finite number is a rational and `none` stands for `NaN` and the
  infinities.
* A `Date` object is its time value (milliseconds since the epoch).  Time
  values are taken to be valid (`|t| ≤ 8.64e15`), so `TimeClip` is the
  identity; `insertEntry` cannot store any other value because it calls
  `toISOString` on it first.
* The rows that `statsSummary` and `listEntries` read have integer
  `created_ts`, as the table declares them.
* A JavaScript string is a `List Char`.
-/

namespace MoodStats

/-! ## ECMAScript time values (ECMA-262, "Time Values and Time Range") -/

/-- The constant `msPerDay`. -/
def msPerDay : Int := 86400000

/-- ECMAScript `Day(t) = floor(t / msPerDay)`. -/
def Day (t : Int) : Int := t / msPerDay

/-- ECMAScript `TimeWithinDay(t) = t modulo msPerDay`. -/
def TimeWithinDay (t : Int) : Int := t % msPerDay

/-- ECMAScript `DaysInYear(y)`. -/
def DaysInYear (y : Int) : Int :=
  if y % 4 ≠ 0 then 365
  else if y % 100 ≠ 0 then 366
  else if y % 400 ≠ 0 then 365
  else 366

/-- ECMAScript `DayFromYear(y)`: the day number of the first day of year `y`. -/
def DayFromYear (y : Int) : Int :=
  365 * (y - 1970) + (y - 1969) / 4 - (y - 1901) / 100 + (y - 1601) / 400

/-- ECMAScript `TimeFromYear(y)`. -/
def TimeFromYear (y : Int) : Int := msPerDay * DayFromYear y

/-- The largest `y` with `DayFromYear y ≤ d`, computed from the mean length of
a Gregorian year and corrected by at most one (`YearFromDay_spec`,
`YearFromDay_unique`). -/
def YearFromDay (d : Int) : Int :=
  let y0 := 1970 + (400 * d) / 146097
  if DayFromYear (y0 + 1) ≤ d then y0 + 1
  else if DayFromYear y0 ≤ d then y0
  else y0 - 1

/-- ECMAScript `YearFromTime(t)`: the largest `y` such that `TimeFromYear(y) ≤ t`. -/
def YearFromTime (t : Int) : Int := YearFromDay (Day t)

/-- ECMAScript `InLeapYear(t)`, as the number 0 or 1. -/
def InLeapYear (t : Int) : Int :=
  if DaysInYear (YearFromTime t) = 366 then 1 else 0

/-- ECMAScript `DayWithinYear(t)`. -/
def DayWithinYear (t : Int) : Int := Day t - DayFromYear (YearFromTime t)

/-- Day within the year on which month `m` (0 = January) starts; `l` is 1 in a
leap year and 0 otherwise. -/
def monthStart (l m : Int) : Int :=
  if m = 0 then 0
  else if m = 1 then 31
  else if m = 2 then 59 + l
  else if m = 3 then 90 + l
  else if m = 4 then 120 + l
  else if m = 5 then 151 + l
  else if m = 6 then 181 + l
  else if m = 7 then 212 + l
  else if m = 8 then 243 + l
  else if m = 9 then 273 + l
  else if m = 10 then 304 + l
  else 334 + l

/-- The month (0 = January) that contains day `d` of a year; `l` is 1 in a
leap year and 0 otherwise.  This is the table of `MonthFromTime`. -/
def monthOfDay (l d : Int) : Int :=
  if d < 31 then 0
  else if d < 59 + l then 1
  else if d < 90 + l then 2
  else if d < 120 + l then 3
  else if d < 151 + l then 4
  else if d < 181 + l then 5
  else if d < 212 + l then 6
  else if d < 243 + l then 7
  else if d < 273 + l then 8
  else if d < 304 + l then 9
  else if d < 334 + l then 10
  else 11

/-- ECMAScript `MonthFromTime(t)`, 0 = January. -/
def MonthFromTime (t : Int) : Int := monthOfDay (InLeapYear t) (DayWithinYear t)

/-- ECMAScript `DateFromTime(t)`, the day of the month, from 1. -/
def DateFromTime (t : Int) : Int :=
  DayWithinYear t - monthStart (InLeapYear t) (MonthFromTime t) + 1

/-- ECMAScript `WeekDay(t)`, 0 = Sunday. -/
def WeekDay (t : Int) : Int := (Day t + 4) % 7

/-- ECMAScript `HourFromTime(t)`. -/
def HourFromTime (t : Int) : Int := (t / 3600000) % 24

/-- ECMAScript `MinFromTime(t)`. -/
def MinFromTime (t : Int) : Int := (t / 60000) % 60

/-- ECMAScript `SecFromTime(t)`. -/
def SecFromTime (t : Int) : Int := (t / 1000) % 60

/-- ECMAScript `msFromTime(t)`. -/
def msFromTime (t : Int) : Int := t % 1000

/-- ECMAScript `MakeDay(year, month, date)` for integral arguments: the day
number of the first day of month `month mod 12` of year
`year + floor(month / 12)`, plus `date - 1` (`MakeDay_first` checks the first
day against `YearFromTime`, `MonthFromTime` and `DateFromTime`). -/
def MakeDay (year month date : Int) : Int :=
  let ym := year + month / 12
  let mn := month % 12
  DayFromYear ym + monthStart (if DaysInYear ym = 366 then 1 else 0) mn + date - 1

/-- ECMAScript `MakeDate(day, time)`. -/
def MakeDate (day time : Int) : Int := day * msPerDay + time

/-- JS `Date.UTC(year, month, date)`: a year from 0 to 99 means 1900 + year. -/
def DateUTC (year month date : Int) : Int :=
  let yr := if 0 ≤ year ∧ year ≤ 99 then 1900 + year else year
  MakeDate (MakeDay yr month date) 0

/-- JS `Date.prototype.getUTCFullYear`. -/
def getUTCFullYear (t : Int) : Int := YearFromTime t

/-- JS `Date.prototype.getUTCMonth`. -/
def getUTCMonth (t : Int) : Int := MonthFromTime t

/-- JS `Date.prototype.getUTCDate`. -/
def getUTCDate (t : Int) : Int := DateFromTime t

/-- JS `Date.prototype.getUTCDay`. -/
def getUTCDay (t : Int) : Int := WeekDay t

/-- JS `Date.prototype.setUTCDate(dt)`: the new time value of the date. -/
def setUTCDate (t dt : Int) : Int :=
  MakeDate (MakeDay (YearFromTime t) (MonthFromTime t) dt) (TimeWithinDay t)

/-- JS `Math.round(a / b)` for integers `a` and `b > 0`, on the exact quotient:
`floor(a / b + 1/2)`.  The double quotient is exact whenever `b` divides `a`,
which is the only case `isoWeekKey` produces (`isoWeekKey_eq`). -/
def MathRoundDiv (a b : Int) : Int := (2 * a + b) / (2 * b)

/-! ## ECMAScript strings -/

/-- A JavaScript string. -/
abbrev Str := List Char

/-- The decimal digit `n` (`n < 10`) as a character. -/
def digitChar (n : Nat) : Char :=
  match n with
  | 0 => '0' | 1 => '1' | 2 => '2' | 3 => '3' | 4 => '4'
  | 5 => '5' | 6 => '6' | 7 => '7' | 8 => '8' | _ => '9'

/-- The value of a decimal digit character. -/
def digitVal (c : Char) : Option Nat :=
  if c = '0' then some 0 else if c = '1' then some 1
  else if c = '2' then some 2 else if c = '3' then some 3
  else if c = '4' then some 4 else if c = '5' then some 5
  else if c = '6' then some 6 else if c = '7' then some 7
  else if c = '8' then some 8 else if c = '9' then some 9
  else none

/-- Decimal digits of `n`, most significant first, in front of `acc`; the
first argument bounds the number of digits. -/
def digitsAux : Nat → Nat → Str → Str
  | 0, _, acc => acc
  | f + 1, n, acc =>
    if n < 10 then digitChar n :: acc
    else digitsAux f (n / 10) (digitChar (n % 10) :: acc)

/-- JS `String(n)` for a natural number `n`. -/
def natString (n : Nat) : Str := digitsAux (n + 1) n []

/-- JS `String(n)` for an integer `n` (below `1e21`, where JavaScript prints all
digits). -/
def jsString (n : Int) : Str :=
  if n < 0 then '-' :: natString n.natAbs else natString n.natAbs

/-- JS `s.padStart(k, '0')`. -/
def padStart (k : Nat) (s : Str) : Str := List.replicate (k - s.length) '0' ++ s

/-- JS `Date.prototype.toISOString`: `YYYY-MM-DDTHH:mm:ss.sssZ`, the year with
four digits from 0 to 9999 and as a sign and six digits otherwise. -/
def toISOString (t : Int) : Str :=
  let y := YearFromTime t
  let ys : Str :=
    if 0 ≤ y ∧ y ≤ 9999 then padStart 4 (natString y.natAbs)
    else (if y < 0 then '-' else '+') :: padStart 6 (natString y.natAbs)
  ys ++ '-' :: padStart 2 (natString (MonthFromTime t + 1).natAbs)
    ++ '-' :: padStart 2 (natString (DateFromTime t).natAbs)
    ++ 'T' :: padStart 2 (natString (HourFromTime t).natAbs)
    ++ ':' :: padStart 2 (natString (MinFromTime t).natAbs)
    ++ ':' :: padStart 2 (natString (SecFromTime t).natAbs)
    ++ '.' :: padStart 3 (natString (msFromTime t).natAbs)
    ++ ['Z']

/-- Scanning loop of `split`: `skip` characters of a separator just matched
are still to be dropped, `cur` is the current piece, reversed. -/
def jsSplitGo (sep : Str) : Str → Nat → Str → List Str
  | [], _, cur => [cur.reverse]
  | _ :: cs, skip + 1, cur => jsSplitGo sep cs skip cur
  | c :: cs, 0, cur =>
    if sep.isPrefixOf (c :: cs) then cur.reverse :: jsSplitGo sep cs (sep.length - 1) []
    else jsSplitGo sep cs 0 (c :: cur)

/-- JS `s.split(sep)` for a non-empty separator. -/
def jsSplit (sep s : Str) : List Str := jsSplitGo sep s 0 []

/-- Value of a non-empty run of decimal digits; `none` otherwise. -/
def parseDigits (s : Str) : Option Nat :=
  match s with
  | [] => none
  | _ :: _ => s.foldl (fun acc c => acc.bind (fun a => (digitVal c).map (fun v => 10 * a + v))) (some 0)

/-- JS `Number(s)` for a string over the alphabet of the bucket keys (digits,
`+`, `-`, `W`): the empty string is 0, an optionally signed run of digits is
its value, everything else is `NaN`. -/
def jsNumber (s : Str) : Option Int :=
  match s with
  | [] => some 0
  | '+' :: ds => (parseDigits ds).map Int.ofNat
  | '-' :: ds => (parseDigits ds).map (fun n => - Int.ofNat n)
  | ds => (parseDigits ds).map Int.ofNat

/-! ## The key helpers of `db.js` -/

/-- JS `isoWeekKey(date)`. -/
def isoWeekKey (date : Int) : Str :=
  let d := DateUTC (getUTCFullYear date) (getUTCMonth date) (getUTCDate date)
  let dayNum := (getUTCDay d + 6) % 7
  let d := setUTCDate d (getUTCDate d - dayNum + 3)
  let firstThursday := DateUTC (getUTCFullYear d) 0 4
  let firstThursdayDayNum := (getUTCDay firstThursday + 6) % 7
  let firstThursday := setUTCDate firstThursday (getUTCDate firstThursday - firstThursdayDayNum + 3)
  let week := 1 + MathRoundDiv (d - firstThursday) (7 * 24 * 3600 * 1000)
  let year := getUTCFullYear d
  jsString year ++ '-' :: 'W' :: padStart 2 (jsString week)

/-- JS `monthKey(date)`. -/
def monthKey (date : Int) : Str :=
  let y := getUTCFullYear date
  let m := padStart 2 (jsString (getUTCMonth date + 1))
  jsString y ++ '-' :: m

/-! ## The store and `statsSummary` -/

/-- A row of the table `entries`. -/
structure Record where
  id : Int
  created_at : Str
  created_ts : Int
  score : Int
  note : Option Str
deriving DecidableEq

/-- The argument object of `statsSummary`; an absent field is `none`
(`days` and `granularity` carry their defaults 30 and `'day'`). -/
structure Params where
  days : Int
  from_ : Option Str
  to_ : Option Str
  fromTs : Option Int
  toTs : Option Int
  granularity : Str
deriving DecidableEq

/-- JavaScript truthiness of an optional string: present and non-empty. -/
def truthy (s : Option Str) : Bool :=
  match s with
  | some (_ :: _) => true
  | _ => false

/-- The `WHERE` clause chosen by `statsSummary`, as a predicate on a row.
`created_at` is compared as text, `now` is the value of `Date.now()`. -/
def whereClause (now : Int) (p : Params) (r : Record) : Bool :=
  match p.fromTs, p.toTs with
  | some a, some b => decide (r.created_ts ≥ a) && decide (r.created_ts ≤ b)
  | some a, none => decide (r.created_ts ≥ a)
  | none, some b => decide (r.created_ts ≤ b)
  | none, none =>
    if truthy p.from_ && truthy p.to_ then
      decide (r.created_at ≥ p.from_.getD []) && decide (r.created_at ≤ p.to_.getD [])
    else if truthy p.from_ then decide (r.created_at ≥ p.from_.getD [])
    else if truthy p.to_ then decide (r.created_at ≤ p.to_.getD [])
    else decide (r.created_ts ≥ now - p.days * 24 * 3600 * 1000)

/-- SQL `ORDER BY created_ts ASC`: rows with equal `created_ts` stay in table
order (SQL leaves their order open). -/
def orderByCreatedTs (rows : List Record) : List Record :=
  rows.insertionSort (fun a b => a.created_ts ≤ b.created_ts)

/-- The rows `statsSummary` reads: `SELECT * FROM entries WHERE … ORDER BY
created_ts ASC` over the table `store`. -/
def selectRows (store : List Record) (now : Int) (p : Params) : List Record :=
  orderByCreatedTs (store.filter (whereClause now p))

/-- The bucket key `statsSummary` computes for a row with `created_ts = ts`. -/
def bucketKey (granularity : Str) (ts : Int) : Str :=
  let d := ts
  if granularity = "month".toList then monthKey d
  else if granularity = "week".toList then isoWeekKey d
  else (toISOString (DateUTC (getUTCFullYear d) (getUTCMonth d) (getUTCDate d))).take 10

/-- One step of the grouping loop on the insertion-ordered `Map`:
`if (!byKey.has(key)) byKey.set(key, []); byKey.get(key).push(score)`. -/
def mapPush (m : List (Str × List Int)) (key : Str) (score : Int) : List (Str × List Int) :=
  match m with
  | [] => [(key, [score])]
  | (k, scores) :: rest =>
    if k = key then (k, scores ++ [score]) :: rest
    else (k, scores) :: mapPush rest key score

/-- The map `byKey` after the grouping loop, as its entries in insertion
order. -/
def byKey (granularity : Str) (rows : List Record) : List (Str × List Int) :=
  rows.foldl (fun m r => mapPush m (bucketKey granularity r.created_ts) r.score) []

/-- JS `Date.UTC(y, m, d)` on numbers that may be `NaN`. -/
def DateUTCNaN (y m d : Option Int) : Option Int :=
  y.bind fun y => m.bind fun m => d.map fun d => DateUTC y m d

/-- The `ts` that `statsSummary` derives from a bucket key. -/
def bucketTs (granularity : Str) (key : Str) : Option Int :=
  if granularity = "month".toList then
    let parts := (jsSplit "-".toList key).map jsNumber
    let y := parts[0]?.join
    let m := parts[1]?.join
    DateUTCNaN y (m.map (· - 1)) (some 1)
  else if granularity = "week".toList then
    let parts := jsSplit "-W".toList key
    let yNum := parts[0]?.bind jsNumber
    let wNum := parts[1]?.bind jsNumber
    yNum.bind fun yNum => wNum.map fun wNum =>
      let jan4 := DateUTC yNum 0 4
      let jan4Day := (getUTCDay jan4 + 6) % 7
      let mondayWeek1 := setUTCDate jan4 (getUTCDate jan4 - jan4Day)
      let monday := setUTCDate mondayWeek1 (getUTCDate mondayWeek1 + (wNum - 1) * 7)
      monday
  else
    let parts := (jsSplit "-".toList key).map jsNumber
    let y := parts[0]?.join
    let m := parts[1]?.join
    let d := parts[2]?.join
    DateUTCNaN y (m.map (· - 1)) d

/-- An entry of `series`.  `avg` is the exact quotient of which the
JavaScript value is the nearest double. -/
structure Bucket where
  key : Str
  ts : Option Int
  avg : ℚ
  min : Int
  max : Int
deriving DecidableEq

/-- JS `Math.min(...scores)` for a non-empty list (the score list of a bucket is
never empty, `byKey_scores_ne_nil`). -/
def jsMin (scores : List Int) : Int := scores.foldl min (scores.headD 0)

/-- JS `Math.max(...scores)` for a non-empty list. -/
def jsMax (scores : List Int) : Int := scores.foldl max (scores.headD 0)

/-- The callback of `.map(([key, scores]) => …)`. -/
def mkBucket (granularity : Str) (e : Str × List Int) : Bucket :=
  { key := e.1
    ts := bucketTs granularity e.1
    avg := ((e.2.foldl (fun a b => a + b) 0 : Int) : ℚ) / (e.2.length : ℚ)
    min := jsMin e.2
    max := jsMax e.2 }

/-- The comparator `(a, b) => a.ts - b.ts` does not put `a` after `b`: the
difference is not positive (a `NaN` difference counts as 0). -/
def tsLe (a b : Bucket) : Prop :=
  match a.ts, b.ts with
  | some x, some y => x - y ≤ 0
  | _, _ => True

instance : DecidableRel tsLe := fun a b => by
  unfold tsLe; cases a.ts <;> cases b.ts <;> infer_instance

/-- JS `Array.prototype.sort` with the comparator above: a stable sort.  (With a
`NaN` among the `ts` the comparator is inconsistent and JavaScript leaves the
order open; no theorem below depends on the order in that case.) -/
def sortByTs (l : List Bucket) : List Bucket := l.insertionSort tsLe

/-- The `series` of `statsSummary` for the selected rows. -/
def series (granularity : Str) (rows : List Record) : List Bucket :=
  sortByTs ((byKey granularity rows).map (mkBucket granularity))

/-- The object returned by `statsSummary`; `none` is `null`. -/
structure Summary where
  count : Nat
  avg : Option ℚ
  min : Option Int
  max : Option Int
  last : Option Record
  granularity : Str
  series : List Bucket
deriving DecidableEq

/-- The body of `statsSummary` after the query, on the selected rows. -/
def summarize (granularity : Str) (rows : List Record) : Summary :=
  let count := rows.length
  match rows with
  | [] => { count := 0, avg := none, min := none, max := none, last := none,
            granularity := granularity, series := [] }
  | r0 :: _ =>
    let sum : Int := rows.foldl (fun s r => s + r.score) 0
    let min : Int := rows.foldl (fun m r => if r.score < m then r.score else m) r0.score
    let max : Int := rows.foldl (fun m r => if r.score > m then r.score else m) r0.score
    { count := count
      avg := some ((sum : ℚ) / (count : ℚ))
      min := some min
      max := some max
      last := rows.getLast?
      granularity := granularity
      series := series granularity rows }

/-- JS `statsSummary({ days, from, to, fromTs, toTs, granularity })` over the
table `store`, with `Date.now() = now`. -/
def statsSummary (store : List Record) (now : Int) (p : Params) : Summary :=
  summarize p.granularity (selectRows store now p)

/-- The start of the UTC calendar bucket that contains `t`, on day numbers and
not through a key: the first day of the month of `t`, the Monday of the
Monday-to-Sunday week of `t` (day 0 is a Thursday), or the day of `t`, at UTC
midnight. -/
def bucketStart (granularity : Str) (t : Int) : Int :=
  if granularity = "month".toList then (Day t - DateFromTime t + 1) * msPerDay
  else if granularity = "week".toList then (Day t - (Day t + 3) % 7) * msPerDay
  else Day t * msPerDay

/-- The scores of the rows whose bucket key is `key`, in row order. -/
def scoresWithKey (granularity : Str) (rows : List Record) (key : Str) : List Int :=
  (rows.filter (fun r => decide (bucketKey granularity r.created_ts = key))).map (fun r => r.score)

/-- The end-to-end scenario of the specification as a table: two rows on
2023-11-15 (UTC), one hour apart, with scores -5 and 5, and one row on
2023-11-16 with score 0. -/
def scenarioStore : List Record :=
  [ { id := 1, created_at := "2023-11-15T00:00:00.000Z".toList, created_ts := 1700006400000,
      score := -5, note := none },
    { id := 2, created_at := "2023-11-15T01:00:00.000Z".toList, created_ts := 1700010000000,
      score := 5, note := none },
    { id := 3, created_at := "2023-11-16T00:00:00.000Z".toList, created_ts := 1700092800000,
      score := 0, note := none } ]

/-- A request for the scenario: day granularity, a range around the three
rows. -/
def scenarioParams : Params :=
  { days := 30, from_ := none, to_ := none, fromTs := some 1700006400000,
    toTs := some 1700092800000, granularity := "day".toList }


/-! ## The routes of `index.js` and the rest of `db.js` -/

/-- The argument that `GET /api/stats` passes as `granularity`:
`granularity || 'day'` on the query parameter. -/
def routeGranularity (q : Option Str) : Str :=
  if truthy q then q.getD [] else "day".toList

/-- The argument object of `listEntries`; an absent field is `none` (`limit`
carries its default 500). -/
structure ListParams where
  limit : Int
  from_ : Option Str
  to_ : Option Str
  fromTs : Option Int
  toTs : Option Int
deriving DecidableEq

/-- JavaScript truthiness of an optional integer: present and not 0. -/
def truthyNum (x : Option Int) : Bool :=
  match x with
  | some n => decide (n ≠ 0)
  | none => false

/-- The `WHERE` clause built by `listEntries`: the conditions pushed for
`fromTs != null`, `toTs != null`, `from && !fromTs` and `to && !toTs`, joined
by `AND`. -/
def listWhere (p : ListParams) (r : Record) : Bool :=
  (match p.fromTs with
    | some a => decide (r.created_ts ≥ a)
    | none => true) &&
  (match p.toTs with
    | some b => decide (r.created_ts ≤ b)
    | none => true) &&
  (if truthy p.from_ && !truthyNum p.fromTs then decide (r.created_at ≥ p.from_.getD [])
    else true) &&
  (if truthy p.to_ && !truthyNum p.toTs then decide (r.created_at ≤ p.to_.getD [])
    else true)

/-- SQL `LIMIT n`: the first `n` rows; a negative `n` is no bound. -/
def sqlLimit (n : Int) (rows : List Record) : List Record :=
  if n < 0 then rows else rows.take n.toNat

/-- JS `listEntries({ limit, from, to, fromTs, toTs })` over the table `store`;
`LIMIT` is added when `limit` is truthy. -/
def listEntries (store : List Record) (p : ListParams) : List Record :=
  let rows := orderByCreatedTs (store.filter (listWhere p))
  if p.limit ≠ 0 then sqlLimit p.limit rows else rows

/-- The row returned by `getBounds`. -/
structure Bounds where
  first_ts : Option Int
  last_ts : Option Int
  count : Nat
deriving DecidableEq

/-- JS `getBounds()`: `MIN(created_ts)`, `MAX(created_ts)` and `COUNT(*)` over
the table; the first two are `NULL` for an empty table. -/
def getBounds (store : List Record) : Bounds :=
  { first_ts := store.foldl (fun acc r =>
      match acc with
      | none => some r.created_ts
      | some m => some (min m r.created_ts)) none
    last_ts := store.foldl (fun acc r =>
      match acc with
      | none => some r.created_ts
      | some m => some (max m r.created_ts)) none
    count := store.length }

/-! ## The client: `App.jsx` and `MobileApp.jsx` -/

/-- JS `defaultDaysFor(view)` of `App.jsx`. -/
def defaultDaysFor (view : Str) : Int :=
  if view = "month".toList then 24 * 30
  else if view = "week".toList then 26 * 7
  else 60

/-- The state `range` of `App.jsx`: `{fromTs, toTs}`. -/
structure Range where
  fromTs : Int
  toTs : Int
deriving DecidableEq

/-- The test `nextRange && nextRange.fromTs && nextRange.toTs` of `refresh`: a
custom range is active. -/
def rangeActive (nextRange : Option Range) : Bool :=
  match nextRange with
  | some r => decide (r.fromTs ≠ 0) && decide (r.toTs ≠ 0)
  | none => false

/-- The value `latest` of `refresh`: `last_ts` when it is a number above 0,
else `now`. -/
def latestOf (m : Bounds) (now : Int) : Int :=
  match m.last_ts with
  | some l => if l > 0 then l else now
  | none => now

/-- JS `refresh(nextView, nextRange)` of `App.jsx`, up to the two requests: the
arguments of `getStats` and of `getEntries`, as the server functions receive
them, for the answer `m` of `getMeta()` and `Date.now() = now`. -/
def refresh (nextView : Str) (nextRange : Option Range) (m : Bounds) (now : Int) :
    Params × ListParams :=
  let days := defaultDaysFor nextView
  let latest := latestOf m now
  match rangeActive nextRange, nextRange with
  | true, some r =>
    ({ days := 30, from_ := none, to_ := none, fromTs := some r.fromTs, toTs := some r.toTs,
       granularity := routeGranularity (some nextView) },
     { limit := 5000, from_ := none, to_ := none, fromTs := some r.fromTs, toTs := some r.toTs })
  | _, _ =>
    let toTs := max now latest
    let fromTs := toTs - days * 24 * 3600 * 1000
    ({ days := 30, from_ := none, to_ := none, fromTs := some fromTs, toTs := some toTs,
       granularity := routeGranularity (some nextView) },
     { limit := 5000, from_ := none, to_ := none, fromTs := some fromTs, toTs := some toTs })

/-- JS `refresh()` of `MobileApp.jsx`, up to the two requests. -/
def refreshMobile (m : Bounds) (now : Int) : Params × ListParams :=
  let latest := latestOf m now
  let days : Int := 30
  let toTs := max now latest
  let fromTs := toTs - days * 24 * 3600 * 1000
  ({ days := 30, from_ := none, to_ := none, fromTs := some fromTs, toTs := some toTs,
     granularity := routeGranularity (some "day".toList) },
   { limit := 1000, from_ := none, to_ := none, fromTs := some fromTs, toTs := some toTs })

/-! ## `POST /api/entries` -/

/-- A value of the request body.  A number is `some q` when finite and `none`
when `NaN` or infinite; an array or object is kept as the string that
`ToPrimitive` gives for it. -/
inductive JsVal where
  | undefined
  | null
  | bool (b : Bool)
  | num (x : Option ℚ)
  | str (s : Str)
  | obj (s : Str)

/-- JS `Number(v)`; `strNum` is `StringToNumber`. -/
def toNumber (strNum : Str → Option ℚ) (v : JsVal) : Option ℚ :=
  match v with
  | JsVal.undefined => none
  | JsVal.null => some 0
  | JsVal.bool b => some (if b then 1 else 0)
  | JsVal.num x => x
  | JsVal.str s => strNum s
  | JsVal.obj s => strNum s

/-- The test `v != null`. -/
def notNullish (v : JsVal) : Bool :=
  match v with
  | JsVal.undefined => false
  | JsVal.null => false
  | _ => true

/-- JS `Number.isInteger(n)`. -/
def isInteger (n : Option ℚ) : Bool :=
  match n with
  | some q => decide (q.den = 1)
  | none => false

/-- A row as `insertEntry` writes and returns it. -/
structure NewRow where
  id : Int
  created_at : Str
  created_ts : ℚ
  score : ℚ
  note : Option Str

/-- ECMAScript `TimeClip`: `none` (`NaN`) beyond 8.64e15 ms, else the integer
part. -/
def TimeClip (q : ℚ) : Option Int :=
  if |q| > 8640000000000000 then none
  else some (if 0 ≤ q then Int.floor q else Int.ceil q)

/-- JS `insertEntry(score, note, createdTsInput)`; `none` when it throws
(`toISOString` of an invalid date, or the `CHECK` of the table on `score`).
`nextId` is the row id the table assigns, `now` is `Date.now()`. -/
def insertEntry (strNum : Str → Option ℚ) (nextId now : Int) (score : ℚ) (note : Option Str)
    (createdTsInput : JsVal) : Option NewRow :=
  let ts : ℚ :=
    match notNullish createdTsInput, toNumber strNum createdTsInput with
    | true, some t => t
    | _, _ => (now : ℚ)
  let createdTs := ts
  match TimeClip createdTs with
  | none => none
  | some tv =>
    let createdAt := toISOString tv
    if -10 ≤ score ∧ score ≤ 10 then
      some { id := nextId, created_at := createdAt, created_ts := createdTs, score := score,
             note := note }
    else none

/-- The answer of `POST /api/entries`: 201 with the inserted row, 400, or
500. -/
inductive Response where
  | created (row : NewRow)
  | badRequest
  | serverError

/-- The handler of `POST /api/entries` on the body fields `score`, `note`,
`createdTs`; a row is inserted exactly when the answer is `created`.  `trim` is
`String.prototype.trim`. -/
def postEntries (strNum : Str → Option ℚ) (trim : Str → Str) (nextId now : Int)
    (score note createdTs : JsVal) : Response :=
  let n := toNumber strNum score
  match n with
  | none => Response.badRequest
  | some q =>
    if !isInteger n || decide (q < -10) || decide (q > 10) then Response.badRequest
    else
      let noteArg : Option Str :=
        match note with
        | JsVal.str s => some (trim s)
        | _ => none
      if notNullish createdTs then
        match toNumber strNum createdTs with
        | none => Response.badRequest
        | some t =>
          match insertEntry strNum nextId now q noteArg (JsVal.num (some t)) with
          | some row => Response.created row
          | none => Response.serverError
      else
        match insertEntry strNum nextId now q noteArg JsVal.undefined with
        | some row => Response.created row
        | none => Response.serverError

/-! ## Lemmas on time values -/

theorem DayFromYear_succ (y : Int) : DayFromYear (y + 1) = DayFromYear y + DaysInYear y := by
  unfold DayFromYear DaysInYear
  split_ifs <;> omega

theorem DaysInYear_cases (y : Int) : DaysInYear y = 365 ∨ DaysInYear y = 366 := by
  unfold DaysInYear
  split_ifs <;> simp

theorem DayFromYear_bounds (y : Int) :
    146097 * (y - 1970) - 398 ≤ 400 * DayFromYear y ∧
      400 * DayFromYear y ≤ 146097 * (y - 1970) + 481 := by
  unfold DayFromYear
  omega

theorem DayFromYear_lt (y z : Int) (h : y < z) :
    DayFromYear y + 365 * (z - y) ≤ DayFromYear z := by
  unfold DayFromYear
  omega

theorem YearFromDay_spec (d : Int) :
    DayFromYear (YearFromDay d) ≤ d ∧ d < DayFromYear (YearFromDay d + 1) := by
  unfold YearFromDay
  simp only
  have h1 := DayFromYear_bounds (1970 + 400 * d / 146097 - 1)
  have h2 := DayFromYear_bounds (1970 + 400 * d / 146097 + 1 + 1)
  have e : 1970 + 400 * d / 146097 - 1 + 1 = 1970 + 400 * d / 146097 := by omega
  split_ifs <;> (try simp only [e]) <;> omega

theorem YearFromDay_unique (d y : Int) (h1 : DayFromYear y ≤ d) (h2 : d < DayFromYear (y + 1)) :
    YearFromDay d = y := by
  have hs := YearFromDay_spec d
  rcases lt_trichotomy (YearFromDay d) y with h | h | h
  · have := DayFromYear_lt (YearFromDay d + 1) (y + 1) (by omega)
    have := DayFromYear_lt (YearFromDay d) y h
    have := DayFromYear_succ (YearFromDay d)
    have := DaysInYear_cases (YearFromDay d)
    have : DayFromYear (YearFromDay d + 1) ≤ DayFromYear y := by
      rcases eq_or_lt_of_le (show YearFromDay d + 1 ≤ y by omega) with e | e
      · rw [e]
      · have := DayFromYear_lt _ _ e; omega
    omega
  · exact h
  · have : DayFromYear (y + 1) ≤ DayFromYear (YearFromDay d) := by
      rcases eq_or_lt_of_le (show y + 1 ≤ YearFromDay d by omega) with e | e
      · rw [e]
      · have := DayFromYear_lt _ _ e; omega
    omega

theorem Day_mul (D : Int) : Day (D * msPerDay) = D := by
  unfold Day msPerDay; omega

theorem Day_add_mul (t k : Int) : Day (t + k * msPerDay) = Day t + k := by
  unfold Day msPerDay; omega

theorem DayWithinYear_bounds (t : Int) :
    0 ≤ DayWithinYear t ∧ DayWithinYear t < DaysInYear (YearFromTime t) := by
  have h := YearFromDay_spec (Day t)
  have h2 := DayFromYear_succ (YearFromTime t)
  unfold DayWithinYear
  unfold YearFromTime at *
  omega

theorem InLeapYear_eq (t : Int) : DaysInYear (YearFromTime t) = 365 + InLeapYear t := by
  unfold InLeapYear
  rcases DaysInYear_cases (YearFromTime t) with h | h <;> simp [h]

theorem ite_elim {α : Type} (P : α → Prop) (c : Prop) [Decidable c] (a b : α)
    (h1 : c → P a) (h2 : ¬ c → P b) : P (if c then a else b) := by
  split
  · exact h1 ‹_›
  · exact h2 ‹_›

/-- Case analysis on the month table. -/
theorem monthOfDay_cases (l d : Int) (P : Int → Prop)
    (h0 : d < 31 → P 0)
    (h1 : 31 ≤ d → d < 59 + l → P 1)
    (h2 : 59 + l ≤ d → d < 90 + l → P 2)
    (h3 : 90 + l ≤ d → d < 120 + l → P 3)
    (h4 : 120 + l ≤ d → d < 151 + l → P 4)
    (h5 : 151 + l ≤ d → d < 181 + l → P 5)
    (h6 : 181 + l ≤ d → d < 212 + l → P 6)
    (h7 : 212 + l ≤ d → d < 243 + l → P 7)
    (h8 : 243 + l ≤ d → d < 273 + l → P 8)
    (h9 : 273 + l ≤ d → d < 304 + l → P 9)
    (h10 : 304 + l ≤ d → d < 334 + l → P 10)
    (h11 : 334 + l ≤ d → P 11) : P (monthOfDay l d) := by
  unfold monthOfDay
  refine ite_elim P _ _ _ (fun c0 => h0 c0) (fun c0 => ?_)
  refine ite_elim P _ _ _ (fun c1 => h1 (by omega) c1) (fun c1 => ?_)
  refine ite_elim P _ _ _ (fun c2 => h2 (by omega) c2) (fun c2 => ?_)
  refine ite_elim P _ _ _ (fun c3 => h3 (by omega) c3) (fun c3 => ?_)
  refine ite_elim P _ _ _ (fun c4 => h4 (by omega) c4) (fun c4 => ?_)
  refine ite_elim P _ _ _ (fun c5 => h5 (by omega) c5) (fun c5 => ?_)
  refine ite_elim P _ _ _ (fun c6 => h6 (by omega) c6) (fun c6 => ?_)
  refine ite_elim P _ _ _ (fun c7 => h7 (by omega) c7) (fun c7 => ?_)
  refine ite_elim P _ _ _ (fun c8 => h8 (by omega) c8) (fun c8 => ?_)
  refine ite_elim P _ _ _ (fun c9 => h9 (by omega) c9) (fun c9 => ?_)
  refine ite_elim P _ _ _ (fun c10 => h10 (by omega) c10) (fun c10 => ?_)
  exact h11 (by omega)

/-- The month table and the table of month starts agree: day `d` of the year
lies in the month found, on a day of the month from 1 to 31. -/
theorem monthOfDay_spec (l d : Int) (hl : l = 0 ∨ l = 1) (h0 : 0 ≤ d) (h1 : d < 365 + l) :
    0 ≤ monthOfDay l d ∧ monthOfDay l d ≤ 11 ∧
      monthStart l (monthOfDay l d) ≤ d ∧ d ≤ monthStart l (monthOfDay l d) + 30 ∧
      d < monthStart l (monthOfDay l d + 1) + (if monthOfDay l d = 11 then 31 else 0) ∧
      0 ≤ monthStart l (monthOfDay l d) := by
  refine monthOfDay_cases l d
    (fun m => 0 ≤ m ∧ m ≤ 11 ∧ monthStart l m ≤ d ∧ d ≤ monthStart l m + 30 ∧
      d < monthStart l (m + 1) + (if m = 11 then 31 else 0) ∧ 0 ≤ monthStart l m)
    ?_ ?_ ?_ ?_ ?_ ?_ ?_ ?_ ?_ ?_ ?_ ?_
  · intros; simp only [show monthStart l 0 = 0 from rfl,
      show monthStart l (0 + 1) = 31 from rfl]; simp; omega
  · intros; simp only [show monthStart l 1 = 31 from rfl,
      show monthStart l (1 + 1) = 59 + l from rfl]; simp; omega
  · intros; simp only [show monthStart l 2 = 59 + l from rfl,
      show monthStart l (2 + 1) = 90 + l from rfl]; simp; omega
  · intros; simp only [show monthStart l 3 = 90 + l from rfl,
      show monthStart l (3 + 1) = 120 + l from rfl]; simp; omega
  · intros; simp only [show monthStart l 4 = 120 + l from rfl,
      show monthStart l (4 + 1) = 151 + l from rfl]; simp; omega
  · intros; simp only [show monthStart l 5 = 151 + l from rfl,
      show monthStart l (5 + 1) = 181 + l from rfl]; simp; omega
  · intros; simp only [show monthStart l 6 = 181 + l from rfl,
      show monthStart l (6 + 1) = 212 + l from rfl]; simp; omega
  · intros; simp only [show monthStart l 7 = 212 + l from rfl,
      show monthStart l (7 + 1) = 243 + l from rfl]; simp; omega
  · intros; simp only [show monthStart l 8 = 243 + l from rfl,
      show monthStart l (8 + 1) = 273 + l from rfl]; simp; omega
  · intros; simp only [show monthStart l 9 = 273 + l from rfl,
      show monthStart l (9 + 1) = 304 + l from rfl]; simp; omega
  · intros; simp only [show monthStart l 10 = 304 + l from rfl,
      show monthStart l (10 + 1) = 334 + l from rfl]; simp; omega
  · intros; simp only [show monthStart l 11 = 334 + l from rfl,
      show monthStart l (11 + 1) = 334 + l from rfl]; simp; omega

theorem InLeapYear_cases (t : Int) : InLeapYear t = 0 ∨ InLeapYear t = 1 := by
  unfold InLeapYear
  split <;> simp

theorem MonthFromTime_bounds (t : Int) : 0 ≤ MonthFromTime t ∧ MonthFromTime t ≤ 11 := by
  have hb := DayWithinYear_bounds t
  have hl := InLeapYear_eq t
  have h := monthOfDay_spec (InLeapYear t) (DayWithinYear t) (InLeapYear_cases t) hb.1 (by omega)
  exact ⟨h.1, h.2.1⟩

theorem DateFromTime_bounds (t : Int) : 1 ≤ DateFromTime t ∧ DateFromTime t ≤ 31 := by
  have hb := DayWithinYear_bounds t
  have hl := InLeapYear_eq t
  have h := monthOfDay_spec (InLeapYear t) (DayWithinYear t) (InLeapYear_cases t) hb.1 (by omega)
  unfold DateFromTime MonthFromTime
  omega

/-- ECMAScript `MakeDay` on the year and month of `t` counts days from the day before the
first of that month. -/
theorem MakeDay_of_time (t dt : Int) :
    MakeDay (YearFromTime t) (MonthFromTime t) dt = Day t - DateFromTime t + dt := by
  have hm := MonthFromTime_bounds t
  have h1 : MonthFromTime t / 12 = 0 := by omega
  have h2 : MonthFromTime t % 12 = MonthFromTime t := by omega
  unfold MakeDay
  simp only [h1, h2, add_zero]
  unfold DateFromTime DayWithinYear InLeapYear
  omega

theorem MakeDate_zero (D : Int) : MakeDate D 0 = D * msPerDay := by
  unfold MakeDate; omega

/-- JS `setUTCDate(getUTCDate() + k)` moves a date by `k` days. -/
theorem setUTCDate_shift (t k : Int) :
    setUTCDate t (getUTCDate t + k) = t + k * msPerDay := by
  unfold setUTCDate getUTCDate
  rw [MakeDay_of_time]
  unfold MakeDate TimeWithinDay Day msPerDay
  omega

/-- JS `Date.UTC` of the UTC year, month and date of `t` is UTC midnight of the
day of `t`, when the year is not one that `Date.UTC` maps into the 1900s. -/
theorem DateUTC_of_time (t : Int) (h : ¬ (0 ≤ YearFromTime t ∧ YearFromTime t ≤ 99)) :
    DateUTC (getUTCFullYear t) (getUTCMonth t) (getUTCDate t) = Day t * msPerDay := by
  unfold DateUTC getUTCFullYear getUTCMonth getUTCDate
  simp only [h, if_false]
  rw [MakeDay_of_time, MakeDate_zero]
  congr 1
  omega

theorem DateUTC_jan (y dt : Int) (h : ¬ (0 ≤ y ∧ y ≤ 99)) :
    DateUTC y 0 dt = (DayFromYear y + dt - 1) * msPerDay := by
  unfold DateUTC
  simp only [h, if_false]
  rw [MakeDate_zero]
  unfold MakeDay monthStart
  simp

/-- A timestamp whose UTC year is from 1970 to 9999 lies between the epoch and
the start of the year 10000. -/
theorem YearFromTime_range (t : Int) (h1 : 1970 ≤ YearFromTime t) (h2 : YearFromTime t ≤ 9999) :
    0 ≤ t ∧ t < 253402300800000 := by
  have hs := YearFromDay_spec (Day t)
  have ha := DayFromYear_lt 1970 (YearFromTime t + 1) (by omega)
  have hb : DayFromYear (YearFromTime t + 1) ≤ DayFromYear 10000 := by
    rcases eq_or_lt_of_le (show YearFromTime t + 1 ≤ 10000 by omega) with e | e
    · rw [e]
    · have := DayFromYear_lt _ _ e; omega
  have h0 : DayFromYear 1970 = 0 := by decide
  have h3 : DayFromYear 10000 = 2932897 := by decide
  have hc : DayFromYear 1970 ≤ DayFromYear (YearFromTime t) := by
    rcases eq_or_lt_of_le h1 with e | e
    · rw [← e]
    · have := DayFromYear_lt _ _ e; omega
  unfold YearFromTime at *
  unfold Day msPerDay at *
  omega

theorem YearFromTime_of_range (t : Int) (h1 : 0 ≤ t) (h2 : t < 253402300800000) :
    1970 ≤ YearFromTime t ∧ YearFromTime t ≤ 9999 := by
  have hs := YearFromDay_spec (Day t)
  have h0 : DayFromYear 1970 = 0 := by decide
  have h3 : DayFromYear 10000 = 2932897 := by decide
  have hD : 0 ≤ Day t ∧ Day t < 2932897 := by unfold Day msPerDay; omega
  unfold YearFromTime
  constructor
  · by_contra hc
    have := DayFromYear_lt (YearFromDay (Day t) + 1) 1970
    rcases eq_or_lt_of_le (show YearFromDay (Day t) + 1 ≤ 1970 by omega) with e | e
    · rw [e] at hs; omega
    · have := DayFromYear_lt _ _ e; omega
  · by_contra hc
    rcases eq_or_lt_of_le (show 10000 ≤ YearFromDay (Day t) by omega) with e | e
    · rw [← e] at hs; omega
    · have := DayFromYear_lt _ _ e; omega


/-! ## Lemmas on strings -/

theorem digitVal_digitChar (k : Nat) (h : k < 10) : digitVal (digitChar k) = some k := by
  interval_cases k <;> rfl

theorem digitChar_ne_dash (k : Nat) : digitChar k ≠ '-' := by
  unfold digitChar
  split <;> decide

theorem digitChar_ne_plus (k : Nat) : digitChar k ≠ '+' := by
  unfold digitChar
  split <;> decide

theorem digitChar_inj (j k : Nat) (hj : j < 10) (hk : k < 10) (h : digitChar j = digitChar k) :
    j = k := by
  have := congrArg digitVal h
  rw [digitVal_digitChar j hj, digitVal_digitChar k hk] at this
  exact Option.some.inj this

theorem digitsAux_append (f n : Nat) (acc : Str) :
    digitsAux f n acc = digitsAux f n [] ++ acc := by
  induction f generalizing n acc with
  | zero => simp [digitsAux]
  | succ f ih =>
    unfold digitsAux
    split
    · simp
    · rw [ih (n / 10) (digitChar (n % 10) :: acc), ih (n / 10) [digitChar (n % 10)]]
      simp

theorem digitsAux_fuel (f : Nat) : ∀ n acc, n < f → digitsAux f n acc = digitsAux (n + 1) n acc := by
  induction f using Nat.strong_induction_on with
  | _ f ih =>
    intro n acc hn
    cases f with
    | zero => omega
    | succ f =>
      rw [digitsAux, digitsAux]
      split
      · rfl
      · rename_i h10
        have hdiv : n / 10 < n := Nat.div_lt_self (by omega) (by omega)
        rcases Nat.lt_or_ge n f with hlt | hge
        · rw [ih f (by omega) (n / 10) _ (by omega), ih n (by omega) (n / 10) _ hdiv]
        · have : n = f := by omega
          subst this
          rfl

theorem natString_small (n : Nat) (h : n < 10) : natString n = [digitChar n] := by
  unfold natString
  rw [digitsAux]
  simp [h]

theorem natString_step (n : Nat) (h : 10 ≤ n) :
    natString n = natString (n / 10) ++ [digitChar (n % 10)] := by
  have hdiv : n / 10 < n := Nat.div_lt_self (by omega) (by omega)
  unfold natString
  rw [digitsAux]
  simp only [show ¬ n < 10 by omega, if_false]
  rw [digitsAux_append, digitsAux_fuel n (n / 10) [] hdiv]

/-- Every character of `String(n)` is a decimal digit. -/
theorem natString_digits (n : Nat) : ∀ c ∈ natString n, ∃ k, k < 10 ∧ c = digitChar k := by
  induction n using Nat.strong_induction_on with
  | _ n ih =>
    rcases Nat.lt_or_ge n 10 with h | h
    · rw [natString_small n h]
      intro c hc
      simp only [List.mem_singleton] at hc
      exact ⟨n, h, hc⟩
    · rw [natString_step n h]
      intro c hc
      rcases List.mem_append.1 hc with hc | hc
      · exact ih (n / 10) (Nat.div_lt_self (by omega) (by omega)) c hc
      · simp only [List.mem_singleton] at hc
        exact ⟨n % 10, Nat.mod_lt _ (by omega), hc⟩

theorem natString_ne_nil (n : Nat) : natString n ≠ [] := by
  rcases Nat.lt_or_ge n 10 with h | h
  · rw [natString_small n h]; simp
  · rw [natString_step n h]; simp

theorem natString_length_le (k : Nat) : ∀ n, n < 10 ^ (k + 1) → (natString n).length ≤ k + 1 := by
  induction k with
  | zero =>
    intro n hn
    rw [natString_small n (by simpa using hn)]
    simp
  | succ k ih =>
    intro n hn
    rcases Nat.lt_or_ge n 10 with h | h
    · rw [natString_small n h]; simp
    · rw [natString_step n h]
      have : n / 10 < 10 ^ (k + 1) := by
        rw [Nat.div_lt_iff_lt_mul (by omega)]
        rw [pow_succ] at hn
        exact hn
      have := ih (n / 10) this
      simp only [List.length_append, List.length_singleton]
      omega

/-- The folding step of `parseDigits`. -/
theorem parseStep_some (a : Nat) (k : Nat) (hk : k < 10) :
    (some a : Option Nat).bind (fun a => (digitVal (digitChar k)).map (fun v => 10 * a + v))
      = some (10 * a + k) := by
  simp [digitVal_digitChar k hk]

theorem foldl_natString (n : Nat) :
    (natString n).foldl
      (fun acc c => acc.bind (fun a => (digitVal c).map (fun v => 10 * a + v))) (some 0)
      = some n := by
  induction n using Nat.strong_induction_on with
  | _ n ih =>
    rcases Nat.lt_or_ge n 10 with h | h
    · rw [natString_small n h]
      simp [digitVal_digitChar n h]
    · rw [natString_step n h, List.foldl_append, ih (n / 10) (Nat.div_lt_self (by omega) (by omega))]
      simp only [List.foldl_cons, List.foldl_nil]
      rw [parseStep_some _ _ (Nat.mod_lt _ (by omega))]
      congr 1
      omega

theorem foldl_zeros (k : Nat) (s : Str) :
    (List.replicate k '0' ++ s).foldl
      (fun acc c => acc.bind (fun a => (digitVal c).map (fun v => 10 * a + v))) (some 0)
      = s.foldl (fun acc c => acc.bind (fun a => (digitVal c).map (fun v => 10 * a + v))) (some 0) := by
  induction k with
  | zero => simp
  | succ k ih =>
    rw [List.replicate_succ, List.cons_append, List.foldl_cons]
    have : (some 0 : Option Nat).bind (fun a => (digitVal '0').map (fun v => 10 * a + v)) = some 0 := by
      rfl
    rw [this, ih]

/-- Parsing `String(n)`, padded with zeros or not, gives `n` back. -/
theorem parseDigits_padStart (k n : Nat) : parseDigits (padStart k (natString n)) = some n := by
  unfold padStart parseDigits
  have hne : List.replicate (k - (natString n).length) '0' ++ natString n ≠ [] := by
    simp [natString_ne_nil]
  split
  · rename_i heq; exact absurd heq hne
  · rename_i heq
    rw [foldl_zeros, foldl_natString]

theorem parseDigits_natString (n : Nat) : parseDigits (natString n) = some n := by
  have := parseDigits_padStart 0 n
  simpa [padStart] using this

theorem padStart_digits (k n : Nat) :
    ∀ c ∈ padStart k (natString n), ∃ j, j < 10 ∧ c = digitChar j := by
  intro c hc
  unfold padStart at hc
  rcases List.mem_append.1 hc with hc | hc
  · exact ⟨0, by omega, by rw [(List.mem_replicate.1 hc).2]; rfl⟩
  · exact natString_digits n c hc

theorem padStart_ne_nil (k n : Nat) : padStart k (natString n) ≠ [] := by
  unfold padStart
  simp [natString_ne_nil]

theorem padStart_length (k n : Nat) (h : (natString n).length ≤ k) :
    (padStart k (natString n)).length = k := by
  unfold padStart
  simp only [List.length_append, List.length_replicate]
  omega

/-- JS `Number` of a non-empty run of digits is its decimal value. -/
theorem jsNumber_digits (s : Str) (hne : s ≠ [])
    (hd : ∀ c ∈ s, ∃ k, k < 10 ∧ c = digitChar k) :
    jsNumber s = (parseDigits s).map Int.ofNat := by
  cases s with
  | nil => exact absurd rfl hne
  | cons c cs =>
    obtain ⟨k, hk, rfl⟩ := hd c (List.mem_cons_self _ _)
    interval_cases k <;> rfl

theorem jsNumber_padStart (k n : Nat) : jsNumber (padStart k (natString n)) = some (n : Int) := by
  rw [jsNumber_digits _ (padStart_ne_nil k n) (padStart_digits k n), parseDigits_padStart]
  rfl

theorem jsNumber_natString (n : Nat) : jsNumber (natString n) = some (n : Int) := by
  have := jsNumber_padStart 0 n
  simpa [padStart] using this

theorem jsString_nonneg (n : Int) (h : 0 ≤ n) : jsString n = natString n.toNat := by
  unfold jsString
  rw [if_neg (by omega)]
  congr 1
  omega

/-- Two digits: `String(n).padStart(2, '0')` for `n < 100`. -/
theorem padStart_two (n : Nat) (h : n < 100) :
    padStart 2 (natString n) = [digitChar (n / 10), digitChar (n % 10)] := by
  rcases Nat.lt_or_ge n 10 with h10 | h10
  · rw [natString_small n h10]
    have h0 : n / 10 = 0 := by omega
    have h1 : n % 10 = n := by omega
    rw [h0, h1]
    rfl
  · rw [natString_step n h10, natString_small (n / 10) (by omega)]
    rfl

/-- Four digits: `String(n)` for `1000 ≤ n < 10000`. -/
theorem natString_four (n : Nat) (h1 : 1000 ≤ n) (h2 : n < 10000) :
    natString n = [digitChar (n / 1000), digitChar (n / 100 % 10), digitChar (n / 10 % 10),
      digitChar (n % 10)] := by
  rw [natString_step n (by omega), natString_step (n / 10) (by omega),
    natString_step (n / 10 / 10) (by omega), natString_small (n / 10 / 10 / 10) (by omega)]
  have e1 : n / 10 / 10 / 10 = n / 1000 := by omega
  have e2 : n / 10 / 10 % 10 = n / 100 % 10 := by omega
  rw [e1, e2]
  rfl

/-! ### `split` -/

theorem jsSplitGo_run (c0 : Char) (st : Str) (a rest cur : Str) (h : ∀ c ∈ a, c ≠ c0) :
    jsSplitGo (c0 :: st) (a ++ rest) 0 cur = jsSplitGo (c0 :: st) rest 0 (a.reverse ++ cur) := by
  induction a generalizing cur with
  | nil => rfl
  | cons x xs ih =>
    have hx : x ≠ c0 := h x (List.mem_cons_self _ _)
    rw [List.cons_append, jsSplitGo]
    have : (c0 :: st).isPrefixOf (x :: (xs ++ rest)) = false := by
      simp [List.isPrefixOf, Ne.symm hx]
    rw [this]
    simp only [Bool.false_eq_true, if_false]
    rw [ih (x :: cur) (fun c hc => h c (List.mem_cons_of_mem _ hc))]
    simp

theorem jsSplitGo_end (sep cur : Str) : jsSplitGo sep [] 0 cur = [cur.reverse] := rfl

theorem jsSplit_dash_last (a : Str) (h : ∀ c ∈ a, c ≠ '-') :
    jsSplitGo ['-'] a 0 [] = [a] := by
  have := jsSplitGo_run '-' [] a [] [] h
  simp only [List.append_nil] at this
  rw [this, jsSplitGo_end]
  simp

theorem jsSplit_dash_cons (a rest : Str) (h : ∀ c ∈ a, c ≠ '-') :
    jsSplitGo ['-'] (a ++ '-' :: rest) 0 [] = a :: jsSplitGo ['-'] rest 0 [] := by
  rw [jsSplitGo_run '-' [] a _ [] h, jsSplitGo]
  simp [List.isPrefixOf]

theorem jsSplit_dashW (a b : Str) (ha : ∀ c ∈ a, c ≠ '-') (hb : ∀ c ∈ b, c ≠ '-') :
    jsSplit ['-', 'W'] (a ++ '-' :: 'W' :: b) = [a, b] := by
  unfold jsSplit
  rw [jsSplitGo_run '-' ['W'] a _ [] ha, jsSplitGo]
  simp only [List.isPrefixOf, beq_self_eq_true, Bool.and_self, if_true, List.append_nil,
    List.reverse_reverse, List.length_cons, List.length_nil]
  rw [jsSplitGo]
  have := jsSplitGo_run '-' ['W'] b [] [] hb
  simp only [List.append_nil] at this
  rw [this, jsSplitGo_end]
  simp

theorem digits_ne_dash (s : Str) (hd : ∀ c ∈ s, ∃ k, k < 10 ∧ c = digitChar k) :
    ∀ c ∈ s, c ≠ '-' := by
  intro c hc
  obtain ⟨k, -, rfl⟩ := hd c hc
  exact digitChar_ne_dash k


/-! ## The week key and the week bucket start -/

theorem YearFromDay_of_range (d : Int) (h1 : 0 ≤ d) (h2 : d < 2932897) :
    1970 ≤ YearFromDay d ∧ YearFromDay d ≤ 9999 := by
  have hs := YearFromDay_spec d
  have h0 : DayFromYear 1970 = 0 := by decide
  have h3 : DayFromYear 10000 = 2932897 := by decide
  constructor
  · by_contra hc
    rcases eq_or_lt_of_le (show YearFromDay d + 1 ≤ 1970 by omega) with e | e
    · rw [e] at hs; omega
    · have := DayFromYear_lt _ _ e; omega
  · by_contra hc
    rcases eq_or_lt_of_le (show 10000 ≤ YearFromDay d by omega) with e | e
    · rw [← e] at hs; omega
    · have := DayFromYear_lt _ _ e; omega

theorem Day_of_range (t : Int) (h1 : 1970 ≤ getUTCFullYear t) (h2 : getUTCFullYear t ≤ 9999) :
    0 ≤ Day t ∧ Day t < 2932897 := by
  have := YearFromTime_range t h1 h2
  unfold Day msPerDay
  omega

theorem MathRoundDiv_week (k : Int) :
    MathRoundDiv (7 * k * msPerDay) (7 * 24 * 3600 * 1000) = k := by
  unfold MathRoundDiv msPerDay
  omega

theorem WeekDay_mul (D : Int) : WeekDay (D * msPerDay) = (D + 4) % 7 := by
  unfold WeekDay
  rw [Day_mul]

theorem YearFromTime_mul (D : Int) : YearFromTime (D * msPerDay) = YearFromDay D := by
  unfold YearFromTime
  rw [Day_mul]

/-- The Thursday that `isoWeekKey` moves to, as a time value. -/
theorem isoWeek_thursday (D : Int) :
    setUTCDate (D * msPerDay)
        (getUTCDate (D * msPerDay) - (getUTCDay (D * msPerDay) + 6) % 7 + 3)
      = (D - (D + 3) % 7 + 3) * msPerDay := by
  have e : getUTCDate (D * msPerDay) - (getUTCDay (D * msPerDay) + 6) % 7 + 3
      = getUTCDate (D * msPerDay) + (3 - (getUTCDay (D * msPerDay) + 6) % 7) := by omega
  rw [e, setUTCDate_shift]
  unfold getUTCDay
  rw [WeekDay_mul]
  unfold msPerDay
  omega

/-- The key of `isoWeekKey` in terms of day numbers: `D` is the day of `date`,
`D - (D + 3) % 7 + 3` the Thursday of its week, and
`DayFromYear y + 6 - (DayFromYear y + 6) % 7` the first Thursday of year `y`. -/
theorem isoWeekKey_eq (t : Int) (h : ¬ (0 ≤ YearFromTime t ∧ YearFromTime t ≤ 99))
    (h' : ¬ (0 ≤ YearFromDay (Day t - (Day t + 3) % 7 + 3) ∧
      YearFromDay (Day t - (Day t + 3) % 7 + 3) ≤ 99)) :
    isoWeekKey t =
      jsString (YearFromDay (Day t - (Day t + 3) % 7 + 3)) ++ '-' :: 'W' ::
        padStart 2 (jsString (1 + ((Day t - (Day t + 3) % 7 + 3) -
          (DayFromYear (YearFromDay (Day t - (Day t + 3) % 7 + 3)) + 6 -
            (DayFromYear (YearFromDay (Day t - (Day t + 3) % 7 + 3)) + 6) % 7)) / 7)) := by
  unfold isoWeekKey
  simp only
  rw [DateUTC_of_time t h, isoWeek_thursday]
  generalize hTh : Day t - (Day t + 3) % 7 + 3 = Th at h' ⊢
  unfold getUTCFullYear
  rw [YearFromTime_mul]
  generalize hY : YearFromDay Th = Y at h' ⊢
  rw [DateUTC_jan Y 4 h']
  have e4 : DayFromYear Y + 4 - 1 = DayFromYear Y + 3 := by omega
  rw [e4, isoWeek_thursday]
  have hk : Th * msPerDay - (DayFromYear Y + 3 - (DayFromYear Y + 3 + 3) % 7 + 3) * msPerDay
      = 7 * ((Th - (DayFromYear Y + 6 - (DayFromYear Y + 6) % 7)) / 7) * msPerDay := by
    unfold msPerDay
    omega
  rw [hk, MathRoundDiv_week]


theorem week_ne_month : ("week".toList = "month".toList) = False := by decide

/-- The `ts` that `statsSummary` derives from a week key `y-Www`. -/
theorem bucketTs_week (y w : Nat) (hy : ¬ ((0 : Int) ≤ (y : Int) ∧ (y : Int) ≤ 99)) :
    bucketTs "week".toList (natString y ++ '-' :: 'W' :: padStart 2 (natString w))
      = some ((DayFromYear y + 3 - (DayFromYear y + 6) % 7 + ((w : Int) - 1) * 7) * msPerDay) := by
  unfold bucketTs
  rw [if_neg (by decide), if_pos rfl]
  simp only
  have hs : jsSplit "-W".toList (natString y ++ '-' :: 'W' :: padStart 2 (natString w))
      = [natString y, padStart 2 (natString w)] :=
    jsSplit_dashW _ _ (digits_ne_dash _ (natString_digits y)) (digits_ne_dash _ (padStart_digits 2 w))
  rw [hs]
  simp only [List.getElem?_cons_zero, List.getElem?_cons_succ, Option.some_bind,
    jsNumber_natString, jsNumber_padStart, Option.map_some']
  rw [DateUTC_jan _ 4 hy]
  have e : getUTCDate ((DayFromYear y + 4 - 1) * msPerDay)
        - (getUTCDay ((DayFromYear y + 4 - 1) * msPerDay) + 6) % 7
      = getUTCDate ((DayFromYear y + 4 - 1) * msPerDay)
        + (- ((getUTCDay ((DayFromYear y + 4 - 1) * msPerDay) + 6) % 7)) := by omega
  rw [e, setUTCDate_shift, setUTCDate_shift]
  unfold getUTCDay
  rw [WeekDay_mul]
  congr 1
  unfold msPerDay
  omega

/-- The week bucket start of a timestamp of the years 1970 to 9999: the
Monday of its week, at UTC midnight. -/
theorem bucketTs_isoWeekKey (t : Int) (h1 : 1970 ≤ getUTCFullYear t)
    (h2 : getUTCFullYear t ≤ 9999) :
    bucketTs "week".toList (isoWeekKey t) = some ((Day t - (Day t + 3) % 7) * msPerDay) := by
  have hD := Day_of_range t h1 h2
  have hTh := YearFromDay_of_range (Day t - (Day t + 3) % 7 + 3) (by omega) (by omega)
  have hsp := YearFromDay_spec (Day t - (Day t + 3) % 7 + 3)
  unfold getUTCFullYear at h1 h2
  rw [isoWeekKey_eq t (by omega) (by omega)]
  generalize hY : YearFromDay (Day t - (Day t + 3) % 7 + 3) = Y at hTh hsp ⊢
  have hyn : jsString Y = natString Y.toNat := jsString_nonneg Y (by omega)
  have hstep := DayFromYear_succ Y
  have hdc := DaysInYear_cases Y
  have hw : 0 ≤ 1 + (Day t - (Day t + 3) % 7 + 3 - (DayFromYear Y + 6 - (DayFromYear Y + 6) % 7)) / 7 := by
    omega
  rw [hyn, jsString_nonneg _ hw, bucketTs_week _ _ (by omega)]
  congr 1
  have e1 : ((Y.toNat : Nat) : Int) = Y := by omega
  rw [e1, Int.toNat_of_nonneg hw]
  unfold msPerDay
  omega


/-! ## The month key and the month bucket start -/

theorem monthOfDay_monthStart (l m : Int) (hl : l = 0 ∨ l = 1) (h0 : 0 ≤ m) (h1 : m ≤ 11) :
    monthOfDay l (monthStart l m) = m := by
  interval_cases m
  · rw [show monthStart l 0 = 0 from rfl]
    refine monthOfDay_cases l 0 (fun x => x = 0) ?_ ?_ ?_ ?_ ?_ ?_ ?_ ?_ ?_ ?_ ?_ ?_ <;>
      intros <;> omega
  · rw [show monthStart l 1 = 31 from rfl]
    refine monthOfDay_cases l 31 (fun x => x = 1) ?_ ?_ ?_ ?_ ?_ ?_ ?_ ?_ ?_ ?_ ?_ ?_ <;>
      intros <;> omega
  · rw [show monthStart l 2 = 59 + l from rfl]
    refine monthOfDay_cases l (59 + l) (fun x => x = 2) ?_ ?_ ?_ ?_ ?_ ?_ ?_ ?_ ?_ ?_ ?_ ?_ <;>
      intros <;> omega
  · rw [show monthStart l 3 = 90 + l from rfl]
    refine monthOfDay_cases l (90 + l) (fun x => x = 3) ?_ ?_ ?_ ?_ ?_ ?_ ?_ ?_ ?_ ?_ ?_ ?_ <;>
      intros <;> omega
  · rw [show monthStart l 4 = 120 + l from rfl]
    refine monthOfDay_cases l (120 + l) (fun x => x = 4) ?_ ?_ ?_ ?_ ?_ ?_ ?_ ?_ ?_ ?_ ?_ ?_ <;>
      intros <;> omega
  · rw [show monthStart l 5 = 151 + l from rfl]
    refine monthOfDay_cases l (151 + l) (fun x => x = 5) ?_ ?_ ?_ ?_ ?_ ?_ ?_ ?_ ?_ ?_ ?_ ?_ <;>
      intros <;> omega
  · rw [show monthStart l 6 = 181 + l from rfl]
    refine monthOfDay_cases l (181 + l) (fun x => x = 6) ?_ ?_ ?_ ?_ ?_ ?_ ?_ ?_ ?_ ?_ ?_ ?_ <;>
      intros <;> omega
  · rw [show monthStart l 7 = 212 + l from rfl]
    refine monthOfDay_cases l (212 + l) (fun x => x = 7) ?_ ?_ ?_ ?_ ?_ ?_ ?_ ?_ ?_ ?_ ?_ ?_ <;>
      intros <;> omega
  · rw [show monthStart l 8 = 243 + l from rfl]
    refine monthOfDay_cases l (243 + l) (fun x => x = 8) ?_ ?_ ?_ ?_ ?_ ?_ ?_ ?_ ?_ ?_ ?_ ?_ <;>
      intros <;> omega
  · rw [show monthStart l 9 = 273 + l from rfl]
    refine monthOfDay_cases l (273 + l) (fun x => x = 9) ?_ ?_ ?_ ?_ ?_ ?_ ?_ ?_ ?_ ?_ ?_ ?_ <;>
      intros <;> omega
  · rw [show monthStart l 10 = 304 + l from rfl]
    refine monthOfDay_cases l (304 + l) (fun x => x = 10) ?_ ?_ ?_ ?_ ?_ ?_ ?_ ?_ ?_ ?_ ?_ ?_ <;>
      intros <;> omega
  · rw [show monthStart l 11 = 334 + l from rfl]
    refine monthOfDay_cases l (334 + l) (fun x => x = 11) ?_ ?_ ?_ ?_ ?_ ?_ ?_ ?_ ?_ ?_ ?_ ?_ <;>
      intros <;> omega

theorem monthStart_bounds (l m : Int) (hl : l = 0 ∨ l = 1) (h0 : 0 ≤ m) (h1 : m ≤ 11) :
    0 ≤ monthStart l m ∧ monthStart l m ≤ 334 + l := by
  interval_cases m
  · rw [show monthStart l 0 = 0 from rfl]; omega
  · rw [show monthStart l 1 = 31 from rfl]; omega
  · rw [show monthStart l 2 = 59 + l from rfl]; omega
  · rw [show monthStart l 3 = 90 + l from rfl]; omega
  · rw [show monthStart l 4 = 120 + l from rfl]; omega
  · rw [show monthStart l 5 = 151 + l from rfl]; omega
  · rw [show monthStart l 6 = 181 + l from rfl]; omega
  · rw [show monthStart l 7 = 212 + l from rfl]; omega
  · rw [show monthStart l 8 = 243 + l from rfl]; omega
  · rw [show monthStart l 9 = 273 + l from rfl]; omega
  · rw [show monthStart l 10 = 304 + l from rfl]; omega
  · rw [show monthStart l 11 = 334 + l from rfl]; omega

/-- The closed form of `MakeDay` meets its ECMAScript definition: the day
`MakeDay(year, month, 1)` lies in year `year + floor(month / 12)`, in month
`month mod 12`, on date 1. -/
theorem MakeDay_first (year month : Int) :
    YearFromTime (MakeDay year month 1 * msPerDay) = year + month / 12 ∧
      MonthFromTime (MakeDay year month 1 * msPerDay) = month % 12 ∧
      DateFromTime (MakeDay year month 1 * msPerDay) = 1 := by
  have hc := DaysInYear_cases (year + month / 12)
  have hl : (if DaysInYear (year + month / 12) = 366 then (1 : Int) else 0) = 0 ∨
      (if DaysInYear (year + month / 12) = 366 then (1 : Int) else 0) = 1 := by
    split <;> simp
  have hm0 : 0 ≤ month % 12 := by omega
  have hm1 : month % 12 ≤ 11 := by omega
  have hb := monthStart_bounds _ (month % 12) hl hm0 hm1
  have hs := DayFromYear_succ (year + month / 12)
  have hD : MakeDay year month 1 = DayFromYear (year + month / 12) +
      monthStart (if DaysInYear (year + month / 12) = 366 then 1 else 0) (month % 12) := by
    unfold MakeDay
    dsimp only
    omega
  have hY : YearFromTime (MakeDay year month 1 * msPerDay) = year + month / 12 := by
    rw [YearFromTime_mul, hD]
    apply YearFromDay_unique
    · omega
    · rw [hs]
      rcases hc with e | e <;> rw [e] at hl hb ⊢ <;> simp at hb ⊢ <;> omega
  have hL : InLeapYear (MakeDay year month 1 * msPerDay)
      = if DaysInYear (year + month / 12) = 366 then 1 else 0 := by
    unfold InLeapYear
    rw [hY]
  have hW : DayWithinYear (MakeDay year month 1 * msPerDay)
      = monthStart (if DaysInYear (year + month / 12) = 366 then 1 else 0) (month % 12) := by
    unfold DayWithinYear
    rw [hY, Day_mul, hD]
    omega
  have hM : MonthFromTime (MakeDay year month 1 * msPerDay) = month % 12 := by
    unfold MonthFromTime
    rw [hL, hW]
    exact monthOfDay_monthStart _ _ hl hm0 hm1
  refine ⟨hY, hM, ?_⟩
  unfold DateFromTime
  rw [hW, hL, hM]
  omega

/-- The day number of the first day of the month of `t`. -/
theorem firstOfMonth_facts (t : Int) :
    YearFromDay (Day t - DateFromTime t + 1) = YearFromTime t ∧
      Day t - DateFromTime t + 1 - DayFromYear (YearFromTime t)
        = monthStart (InLeapYear t) (MonthFromTime t) ∧
      Day t - DateFromTime t + 1 ≤ Day t := by
  have hb := DayWithinYear_bounds t
  have hl := InLeapYear_eq t
  have hsp := monthOfDay_spec (InLeapYear t) (DayWithinYear t) (InLeapYear_cases t) hb.1 (by omega)
  have hdt := DateFromTime_bounds t
  have hs := YearFromDay_spec (Day t)
  have e2 : Day t - DateFromTime t + 1 - DayFromYear (YearFromTime t)
      = monthStart (InLeapYear t) (MonthFromTime t) := by
    unfold DateFromTime DayWithinYear
    omega
  refine ⟨?_, e2, by omega⟩
  have h0 : 0 ≤ monthStart (InLeapYear t) (MonthFromTime t) := hsp.2.2.2.2.2
  apply YearFromDay_unique
  · omega
  · unfold YearFromTime
    omega

/-- JS `Date.UTC(y, m, 1)` for the year and month of `t` is the first day of the
month of `t`: same year, same month, date 1, at UTC midnight. -/
theorem firstOfMonth_getters (t : Int) :
    YearFromTime ((Day t - DateFromTime t + 1) * msPerDay) = YearFromTime t ∧
      MonthFromTime ((Day t - DateFromTime t + 1) * msPerDay) = MonthFromTime t ∧
      DateFromTime ((Day t - DateFromTime t + 1) * msPerDay) = 1 := by
  obtain ⟨hy, hd, -⟩ := firstOfMonth_facts t
  have hm := MonthFromTime_bounds t
  have hY : YearFromTime ((Day t - DateFromTime t + 1) * msPerDay) = YearFromTime t := by
    rw [YearFromTime_mul, hy]
  have hL : InLeapYear ((Day t - DateFromTime t + 1) * msPerDay) = InLeapYear t := by
    unfold InLeapYear
    rw [hY]
  have hW : DayWithinYear ((Day t - DateFromTime t + 1) * msPerDay)
      = monthStart (InLeapYear t) (MonthFromTime t) := by
    unfold DayWithinYear
    rw [hY, Day_mul, hd]
  have hM : MonthFromTime ((Day t - DateFromTime t + 1) * msPerDay) = MonthFromTime t := by
    conv_lhs => unfold MonthFromTime
    rw [hL, hW]
    exact monthOfDay_monthStart _ _ (InLeapYear_cases t) hm.1 hm.2
  refine ⟨hY, hM, ?_⟩
  generalize (Day t - DateFromTime t + 1) * msPerDay = X at hW hL hM ⊢
  unfold DateFromTime
  rw [hW, hL, hM]
  omega

theorem DateUTC_firstOfMonth (t : Int) (h : ¬ (0 ≤ YearFromTime t ∧ YearFromTime t ≤ 99)) :
    DateUTC (YearFromTime t) (MonthFromTime t) 1 = (Day t - DateFromTime t + 1) * msPerDay := by
  unfold DateUTC
  simp only [h, if_false]
  rw [MakeDay_of_time, MakeDate_zero]

/-- The start of the month after the month of `t` is later than `t`. -/
theorem lt_nextMonth (t : Int) (h : ¬ (0 ≤ YearFromTime t ∧ YearFromTime t ≤ 99)) :
    t < DateUTC (YearFromTime t) (MonthFromTime t + 1) 1 := by
  have hb := DayWithinYear_bounds t
  have hl := InLeapYear_eq t
  have hsp := monthOfDay_spec (InLeapYear t) (DayWithinYear t) (InLeapYear_cases t) hb.1 (by omega)
  have hs := YearFromDay_spec (Day t)
  have hm := MonthFromTime_bounds t
  unfold DateUTC
  simp only [h, if_false]
  rw [MakeDate_zero]
  have key : Day t < MakeDay (YearFromTime t) (MonthFromTime t + 1) 1 := by
    unfold MonthFromTime at hm ⊢
    rcases eq_or_lt_of_le hm.2 with e | e
    · rw [e]
      unfold MakeDay
      simp only [show ((11 : Int) + 1) / 12 = 1 by decide, show ((11 : Int) + 1) % 12 = 0 by decide,
        show ∀ l, monthStart l 0 = 0 from fun _ => rfl]
      unfold YearFromTime
      omega
    · have e1 : (monthOfDay (InLeapYear t) (DayWithinYear t) + 1) / 12 = 0 := by omega
      have e2 : (monthOfDay (InLeapYear t) (DayWithinYear t) + 1) % 12
          = monthOfDay (InLeapYear t) (DayWithinYear t) + 1 := by omega
      have h5 := hsp.2.2.2.2.1
      rw [if_neg (by omega)] at h5
      unfold MakeDay
      simp only [e1, e2, add_zero]
      unfold DayWithinYear at h5 ⊢
      unfold InLeapYear at h5 ⊢
      omega
  unfold Day msPerDay at *
  omega

theorem month_ne_week : ("month".toList = "week".toList) = False := by decide

/-- The `ts` that `statsSummary` derives from a month key `y-mm`. -/
theorem bucketTs_month (y m : Nat) :
    bucketTs "month".toList (natString y ++ '-' :: padStart 2 (natString m))
      = some (DateUTC y ((m : Int) - 1) 1) := by
  unfold bucketTs
  rw [if_pos rfl]
  simp only
  have hs : jsSplit "-".toList (natString y ++ '-' :: padStart 2 (natString m))
      = [natString y, padStart 2 (natString m)] := by
    unfold jsSplit
    have := jsSplit_dash_cons (natString y) (padStart 2 (natString m))
      (digits_ne_dash _ (natString_digits y))
    rw [show "-".toList = ['-'] from rfl, this,
      jsSplit_dash_last _ (digits_ne_dash _ (padStart_digits 2 m))]
  rw [hs]
  simp [jsNumber_natString, jsNumber_padStart, DateUTCNaN]

/-- The month bucket start of a timestamp of the years 1970 to 9999. -/
theorem bucketTs_monthKey (t : Int) (h1 : 1970 ≤ getUTCFullYear t)
    (h2 : getUTCFullYear t ≤ 9999) :
    bucketTs "month".toList (monthKey t) = some ((Day t - DateFromTime t + 1) * msPerDay) := by
  have hm := MonthFromTime_bounds t
  unfold getUTCFullYear at h1 h2
  unfold monthKey
  simp only
  unfold getUTCFullYear getUTCMonth
  rw [jsString_nonneg _ (by omega : 0 ≤ YearFromTime t),
    jsString_nonneg _ (by omega : 0 ≤ MonthFromTime t + 1), bucketTs_month]
  have e1 : (((YearFromTime t).toNat : Nat) : Int) = YearFromTime t := by omega
  have e2 : (((MonthFromTime t + 1).toNat : Nat) : Int) - 1 = MonthFromTime t := by omega
  rw [e1, e2, DateUTC_firstOfMonth t (by omega)]


/-! ## The day key and the day bucket start -/

theorem getters_of_Day (t : Int) :
    YearFromTime (Day t * msPerDay) = YearFromTime t ∧
      MonthFromTime (Day t * msPerDay) = MonthFromTime t ∧
      DateFromTime (Day t * msPerDay) = DateFromTime t := by
  have hY : YearFromTime (Day t * msPerDay) = YearFromTime t := by
    unfold YearFromTime; rw [Day_mul]
  have hL : InLeapYear (Day t * msPerDay) = InLeapYear t := by
    unfold InLeapYear; rw [hY]
  have hW : DayWithinYear (Day t * msPerDay) = DayWithinYear t := by
    unfold DayWithinYear; rw [hY, Day_mul]
  have hM : MonthFromTime (Day t * msPerDay) = MonthFromTime t := by
    unfold MonthFromTime; rw [hL, hW]
  refine ⟨hY, hM, ?_⟩
  unfold DateFromTime
  rw [hL, hW, hM]

theorem natAbs_eq_toNat (n : Int) (h : 0 ≤ n) : n.natAbs = n.toNat := by omega

/-- The day key of a timestamp of the years 1970 to 9999: `YYYY-MM-DD`. -/
theorem dayKey_eq (t : Int) (h1 : 1970 ≤ getUTCFullYear t) (h2 : getUTCFullYear t ≤ 9999) :
    (toISOString (DateUTC (getUTCFullYear t) (getUTCMonth t) (getUTCDate t))).take 10
      = natString (YearFromTime t).toNat ++ '-' ::
          (padStart 2 (natString (MonthFromTime t + 1).toNat) ++ '-' ::
            padStart 2 (natString (DateFromTime t).toNat)) := by
  have hm := MonthFromTime_bounds t
  have hd := DateFromTime_bounds t
  obtain ⟨gY, gM, gD⟩ := getters_of_Day t
  unfold getUTCFullYear at h1 h2
  rw [DateUTC_of_time t (by omega)]
  unfold toISOString
  simp only
  rw [gY, gM, gD, if_pos (by omega), natAbs_eq_toNat _ (by omega : 0 ≤ YearFromTime t),
    natAbs_eq_toNat _ (by omega : 0 ≤ MonthFromTime t + 1),
    natAbs_eq_toNat _ (by omega : 0 ≤ DateFromTime t)]
  have hY4 : padStart 4 (natString (YearFromTime t).toNat) = natString (YearFromTime t).toNat := by
    have := natString_four (YearFromTime t).toNat (by omega) (by omega)
    rw [this]
    rfl
  rw [hY4]
  have hlen : (natString (YearFromTime t).toNat ++ '-' ::
          (padStart 2 (natString (MonthFromTime t + 1).toNat) ++ '-' ::
            padStart 2 (natString (DateFromTime t).toNat))).length = 10 := by
    rw [natString_four (YearFromTime t).toNat (by omega) (by omega),
      padStart_two _ (by omega : (MonthFromTime t + 1).toNat < 100),
      padStart_two _ (by omega : (DateFromTime t).toNat < 100)]
    rfl
  simp only [List.append_assoc, List.cons_append]
  rw [← List.cons_append, ← List.cons_append, ← List.append_assoc, ← List.append_assoc]
  simp only [List.cons_append, List.append_assoc]
  conv_lhs =>
    rw [show ∀ (A B C Q : Str), A ++ '-' :: (B ++ '-' :: (C ++ Q))
      = (A ++ '-' :: (B ++ '-' :: C)) ++ Q from fun A B C Q => by simp]
  exact List.take_left' hlen

/-- The `ts` that `statsSummary` derives from a day key `y-mm-dd`. -/
theorem bucketTs_day (g : Str) (hg1 : g ≠ "month".toList) (hg2 : g ≠ "week".toList)
    (y m d : Nat) :
    bucketTs g (natString y ++ '-' :: (padStart 2 (natString m) ++ '-' :: padStart 2 (natString d)))
      = some (DateUTC y ((m : Int) - 1) d) := by
  unfold bucketTs
  rw [if_neg hg1, if_neg hg2]
  simp only
  have hs : jsSplit "-".toList
      (natString y ++ '-' :: (padStart 2 (natString m) ++ '-' :: padStart 2 (natString d)))
      = [natString y, padStart 2 (natString m), padStart 2 (natString d)] := by
    unfold jsSplit
    rw [show "-".toList = ['-'] from rfl,
      jsSplit_dash_cons _ _ (digits_ne_dash _ (natString_digits y)),
      jsSplit_dash_cons _ _ (digits_ne_dash _ (padStart_digits 2 m)),
      jsSplit_dash_last _ (digits_ne_dash _ (padStart_digits 2 d))]
  rw [hs]
  simp [jsNumber_natString, jsNumber_padStart, DateUTCNaN]

/-- The day bucket start of a timestamp of the years 1970 to 9999: UTC
midnight of its day. -/
theorem bucketTs_dayKey (g : Str) (hg1 : g ≠ "month".toList) (hg2 : g ≠ "week".toList)
    (t : Int) (h1 : 1970 ≤ getUTCFullYear t) (h2 : getUTCFullYear t ≤ 9999) :
    bucketTs g (bucketKey g t) = some (Day t * msPerDay) := by
  have hm := MonthFromTime_bounds t
  have hd := DateFromTime_bounds t
  have hk : bucketKey g t
      = (toISOString (DateUTC (getUTCFullYear t) (getUTCMonth t) (getUTCDate t))).take 10 := by
    unfold bucketKey
    simp only
    rw [if_neg hg1, if_neg hg2]
  rw [hk, dayKey_eq t h1 h2, bucketTs_day g hg1 hg2]
  have hu := DateUTC_of_time t (by unfold getUTCFullYear at h1; omega)
  unfold getUTCFullYear getUTCMonth getUTCDate at hu
  unfold getUTCFullYear at h1
  rw [← hu]
  congr 2 <;> omega


/-! ## The grouping loop -/

theorem mapPush_map (ks : List Str) (hnd : ks.Nodup) (S : Str → List Int) (k : Str) (v : Int) :
    mapPush (ks.map (fun x => (x, S x))) k v =
      if k ∈ ks then ks.map (fun x => (x, if x = k then S x ++ [v] else S x))
      else ks.map (fun x => (x, S x)) ++ [(k, [v])] := by
  induction ks with
  | nil => simp [mapPush]
  | cons k0 ks ih =>
    have hnd' := (List.nodup_cons.1 hnd).2
    have hk0 := (List.nodup_cons.1 hnd).1
    simp only [List.map_cons, mapPush]
    by_cases h : k0 = k
    · subst h
      simp only [if_true, List.mem_cons, true_or]
      congr 1
      apply List.map_congr_left
      intro x hx
      have : x ≠ k0 := fun e => hk0 (e ▸ hx)
      simp [this]
    · rw [if_neg h, ih hnd']
      by_cases hm : k ∈ ks
      · have : k ∈ k0 :: ks := List.mem_cons_of_mem _ hm
        simp [hm, h]
      · have : k ∉ k0 :: ks := by
          simp only [List.mem_cons, not_or]
          exact ⟨fun e => h e.symm, hm⟩
        simp [hm, this]

theorem byKey_append (g : Str) (rows : List Record) (r : Record) :
    byKey g (rows ++ [r]) = mapPush (byKey g rows) (bucketKey g r.created_ts) r.score := by
  unfold byKey
  rw [List.foldl_append]
  rfl

/-- The map `byKey` after the loop: its keys are the distinct bucket keys of
the rows, and the score list of a key holds the scores of the rows with that
key, in row order. -/
theorem byKey_eq (g : Str) (rows : List Record) :
    ∃ ks : List Str, ks.Nodup ∧
      (∀ k, k ∈ ks ↔ ∃ r ∈ rows, bucketKey g r.created_ts = k) ∧
      byKey g rows = ks.map (fun k =>
        (k, (rows.filter (fun r => decide (bucketKey g r.created_ts = k))).map (fun r => r.score))) := by
  induction rows using List.reverseRecOn with
  | nil => exact ⟨[], List.nodup_nil, by simp, rfl⟩
  | append_singleton rows r ih =>
    obtain ⟨ks, hnd, hmem, heq⟩ := ih
    rw [byKey_append, heq, mapPush_map ks hnd]
    by_cases hk : bucketKey g r.created_ts ∈ ks
    · refine ⟨ks, hnd, ?_, ?_⟩
      · intro k
        rw [hmem k]
        constructor
        · rintro ⟨x, hx, e⟩
          exact ⟨x, List.mem_append_left _ hx, e⟩
        · rintro ⟨x, hx, e⟩
          rcases List.mem_append.1 hx with hx | hx
          · exact ⟨x, hx, e⟩
          · simp only [List.mem_singleton] at hx
            subst hx
            exact (hmem k).1 (e ▸ hk)
      · rw [if_pos hk]
        apply List.map_congr_left
        intro x _
        by_cases hx : x = bucketKey g r.created_ts
        · subst hx
          simp [List.filter_append]
        · have : ¬ bucketKey g r.created_ts = x := fun e => hx e.symm
          simp [List.filter_append, hx, this]
    · refine ⟨ks ++ [bucketKey g r.created_ts], ?_, ?_, ?_⟩
      · rw [List.nodup_append]
        refine ⟨hnd, List.nodup_singleton _, ?_⟩
        intro x hx hx'
        simp only [List.mem_singleton] at hx'
        exact hk (hx' ▸ hx)
      · intro k
        simp only [List.mem_append, List.mem_singleton, hmem k]
        constructor
        · rintro (⟨x, hx, e⟩ | e)
          · exact ⟨x, Or.inl hx, e⟩
          · exact ⟨r, Or.inr rfl, e.symm⟩
        · rintro ⟨x, hx | hx, e⟩
          · exact Or.inl ⟨x, hx, e⟩
          · subst hx
            exact Or.inr e.symm
      · rw [if_neg hk, List.map_append]
        congr 1
        · apply List.map_congr_left
          intro x hx
          have : ¬ bucketKey g r.created_ts = x := fun e => hk (e ▸ hx)
          simp [List.filter_append, this]
        · have hnone : rows.filter
              (fun x => decide (bucketKey g x.created_ts = bucketKey g r.created_ts)) = [] := by
            rw [List.filter_eq_nil_iff]
            intro x hx
            simp only [decide_eq_true_eq]
            intro e
            exact hk ((hmem _).2 ⟨x, hx, e⟩)
          simp [List.filter_append, hnone]

theorem mapPush_total (m : List (Str × List Int)) (k : Str) (v : Int) :
    ((mapPush m k v).map (fun e => e.2.length)).sum = (m.map (fun e => e.2.length)).sum + 1 := by
  induction m with
  | nil => simp [mapPush]
  | cons e m ih =>
    obtain ⟨k0, vs⟩ := e
    simp only [mapPush]
    split
    · simp; omega
    · simp [ih]; omega

theorem byKey_total (g : Str) (rows : List Record) :
    ((byKey g rows).map (fun e => e.2.length)).sum = rows.length := by
  induction rows using List.reverseRecOn with
  | nil => rfl
  | append_singleton rows r ih =>
    rw [byKey_append, mapPush_total, ih]
    simp

/-- No bucket has an empty score list. -/
theorem byKey_scores_ne_nil (g : Str) (rows : List Record) :
    ∀ e ∈ byKey g rows, e.2 ≠ [] := by
  obtain ⟨ks, -, hmem, heq⟩ := byKey_eq g rows
  intro e he
  rw [heq] at he
  obtain ⟨k, hk, rfl⟩ := List.mem_map.1 he
  obtain ⟨r, hr, e⟩ := (hmem k).1 hk
  intro hnil
  have : r.score ∈ (rows.filter (fun r => decide (bucketKey g r.created_ts = k))).map
      (fun r => r.score) :=
    List.mem_map.2 ⟨r, List.mem_filter.2 ⟨hr, by simpa using e⟩, rfl⟩
  simp only at hnil
  rw [hnil] at this
  exact absurd this (List.not_mem_nil _)


/-! ## Bucket starts and keys -/

theorem msPerDay_cancel (a b : Int) (h : a * msPerDay = b * msPerDay) : a = b := by
  unfold msPerDay at h
  omega

/-- For a timestamp of the years 1970 to 9999, parsing the bucket key back
gives the start of the calendar bucket. -/
theorem bucketTs_bucketKey (g : Str) (t : Int) (h1 : 1970 ≤ getUTCFullYear t)
    (h2 : getUTCFullYear t ≤ 9999) :
    bucketTs g (bucketKey g t) = some (bucketStart g t) := by
  by_cases hm : g = "month".toList
  · subst hm
    have hk : bucketKey "month".toList t = monthKey t := by
      unfold bucketKey; simp
    rw [hk, bucketTs_monthKey t h1 h2]
    unfold bucketStart
    simp
  · by_cases hw : g = "week".toList
    · subst hw
      have hk : bucketKey "week".toList t = isoWeekKey t := by
        unfold bucketKey
        simp only [week_ne_month, if_false, if_true]
      rw [hk, bucketTs_isoWeekKey t h1 h2]
      unfold bucketStart
      rw [if_neg (by decide), if_pos rfl]
    · rw [bucketTs_dayKey g hm hw t h1 h2]
      unfold bucketStart
      rw [if_neg hm, if_neg hw]

/-- Timestamps of the years 1970 to 9999 in the same calendar bucket get the
same key. -/
theorem bucketKey_of_bucketStart (g : Str) (t1 t2 : Int)
    (h1 : 1970 ≤ getUTCFullYear t1 ∧ getUTCFullYear t1 ≤ 9999)
    (h2 : 1970 ≤ getUTCFullYear t2 ∧ getUTCFullYear t2 ≤ 9999)
    (h : bucketStart g t1 = bucketStart g t2) : bucketKey g t1 = bucketKey g t2 := by
  have hD1 := Day_of_range t1 h1.1 h1.2
  have hD2 := Day_of_range t2 h2.1 h2.2
  unfold bucketStart at h
  unfold bucketKey
  simp only
  by_cases hm : g = "month".toList
  · simp only [if_pos hm] at h ⊢
    obtain ⟨a1, b1, -⟩ := firstOfMonth_getters t1
    obtain ⟨a2, b2, -⟩ := firstOfMonth_getters t2
    rw [h] at a1 b1
    unfold monthKey getUTCFullYear getUTCMonth
    simp only
    rw [← a1, ← b1, a2, b2]
  · simp only [if_neg hm] at h ⊢
    by_cases hw : g = "week".toList
    · simp only [if_pos hw] at h ⊢
      have e := msPerDay_cancel _ _ h
      have hT1 := YearFromDay_of_range (Day t1 - (Day t1 + 3) % 7 + 3) (by omega) (by omega)
      have hT2 := YearFromDay_of_range (Day t2 - (Day t2 + 3) % 7 + 3) (by omega) (by omega)
      rw [isoWeekKey_eq t1 (by unfold getUTCFullYear at h1; omega) (by omega),
        isoWeekKey_eq t2 (by unfold getUTCFullYear at h2; omega) (by omega)]
      have e' : Day t1 - (Day t1 + 3) % 7 + 3 = Day t2 - (Day t2 + 3) % 7 + 3 := by omega
      rw [e']
    · simp only [if_neg hw] at h ⊢
      have e := msPerDay_cancel _ _ h
      obtain ⟨a1, b1, c1⟩ := getters_of_Day t1
      obtain ⟨a2, b2, c2⟩ := getters_of_Day t2
      rw [e] at a1 b1 c1
      rw [dayKey_eq t1 h1.1 h1.2, dayKey_eq t2 h2.1 h2.2, ← a1, ← b1, ← c1, a2, b2, c2]

/-- In the years 1970 to 9999 two timestamps get the same key exactly when
they lie in the same calendar bucket. -/
theorem bucketKey_eq_iff (g : Str) (t1 t2 : Int)
    (h1 : 1970 ≤ getUTCFullYear t1 ∧ getUTCFullYear t1 ≤ 9999)
    (h2 : 1970 ≤ getUTCFullYear t2 ∧ getUTCFullYear t2 ≤ 9999) :
    bucketKey g t1 = bucketKey g t2 ↔ bucketStart g t1 = bucketStart g t2 := by
  constructor
  · intro h
    have a := bucketTs_bucketKey g t1 h1.1 h1.2
    have b := bucketTs_bucketKey g t2 h2.1 h2.2
    rw [h, b] at a
    exact (Option.some.inj a).symm
  · exact bucketKey_of_bucketStart g t1 t2 h1 h2

/-! ## Sorting -/

theorem orderedInsert_sorted_of {α : Type} (r : α → α → Prop) [DecidableRel r] (a : α)
    (l : List α)
    (htot : ∀ x ∈ a :: l, ∀ y ∈ a :: l, r x y ∨ r y x)
    (htr : ∀ x ∈ a :: l, ∀ y ∈ a :: l, ∀ z ∈ a :: l, r x y → r y z → r x z)
    (hs : l.Sorted r) : (l.orderedInsert r a).Sorted r := by
  induction l with
  | nil => simp
  | cons b l ih =>
    have hb : b ∈ a :: b :: l := by simp
    have ha : a ∈ a :: b :: l := by simp
    rw [List.orderedInsert]
    split
    · rename_i hab
      refine List.sorted_cons.2 ⟨?_, hs⟩
      intro x hx
      rcases List.mem_cons.1 hx with rfl | hx'
      · exact hab
      · exact htr a ha b hb x (by simp [hx']) hab (List.rel_of_sorted_cons hs x hx')
    · rename_i hab
      have hba : r b a := (htot a ha b hb).resolve_left hab
      refine List.sorted_cons.2 ⟨?_, ?_⟩
      · intro x hx
        rcases (List.mem_orderedInsert r).1 hx with rfl | hx'
        · exact hba
        · exact List.rel_of_sorted_cons hs x hx'
      · apply ih
        · intro x hx y hy
          exact htot x (by rcases List.mem_cons.1 hx with rfl | h <;> simp [*]) y
            (by rcases List.mem_cons.1 hy with rfl | h <;> simp [*])
        · intro x hx y hy z hz
          exact htr x (by rcases List.mem_cons.1 hx with rfl | h <;> simp [*]) y
            (by rcases List.mem_cons.1 hy with rfl | h <;> simp [*]) z
            (by rcases List.mem_cons.1 hz with rfl | h <;> simp [*])
        · exact hs.of_cons

theorem insertionSort_sorted_of {α : Type} (r : α → α → Prop) [DecidableRel r] (l : List α)
    (htot : ∀ x ∈ l, ∀ y ∈ l, r x y ∨ r y x)
    (htr : ∀ x ∈ l, ∀ y ∈ l, ∀ z ∈ l, r x y → r y z → r x z) :
    (l.insertionSort r).Sorted r := by
  induction l with
  | nil => simp
  | cons a l ih =>
    rw [List.insertionSort]
    have hp := List.perm_insertionSort r l
    have hmem : ∀ x, x ∈ a :: l.insertionSort r → x ∈ a :: l := by
      intro x hx
      rcases List.mem_cons.1 hx with rfl | h
      · simp
      · exact List.mem_cons_of_mem _ (hp.mem_iff.1 h)
    apply orderedInsert_sorted_of
    · intro x hx y hy
      exact htot x (hmem x hx) y (hmem y hy)
    · intro x hx y hy z hz
      exact htr x (hmem x hx) y (hmem y hy) z (hmem z hz)
    · apply ih
      · intro x hx y hy
        exact htot x (List.mem_cons_of_mem _ hx) y (List.mem_cons_of_mem _ hy)
      · intro x hx y hy z hz
        exact htr x (List.mem_cons_of_mem _ hx) y (List.mem_cons_of_mem _ hy) z
          (List.mem_cons_of_mem _ hz)

theorem sortByTs_perm (l : List Bucket) : (sortByTs l).Perm l := List.perm_insertionSort _ l

theorem series_perm (g : Str) (rows : List Record) :
    (series g rows).Perm ((byKey g rows).map (mkBucket g)) := sortByTs_perm _

theorem summarize_series (g : Str) (rows : List Record) :
    (summarize g rows).series = series g rows := by
  cases rows with
  | nil => rfl
  | cons r rs => rfl


/-! ## Sums, minima and maxima of the loops -/

theorem foldl_add_eq_sum (l : List Int) (a : Int) :
    l.foldl (fun a b => a + b) a = a + l.sum := by
  induction l generalizing a with
  | nil => simp
  | cons x xs ih => simp [ih, add_assoc]

theorem foldl_score_sum (rows : List Record) (a : Int) :
    rows.foldl (fun s r => s + r.score) a = a + (rows.map (fun r => r.score)).sum := by
  induction rows generalizing a with
  | nil => simp
  | cons x xs ih => simp [ih, add_assoc]

theorem foldl_min_spec (l : List Int) (a : Int) :
    (l.foldl min a = a ∨ l.foldl min a ∈ l) ∧ l.foldl min a ≤ a ∧ ∀ x ∈ l, l.foldl min a ≤ x := by
  induction l generalizing a with
  | nil => simp
  | cons y ys ih =>
    obtain ⟨h1, h2, h3⟩ := ih (min a y)
    simp only [List.foldl_cons, List.mem_cons]
    refine ⟨?_, ?_, ?_⟩
    · rcases h1 with h | h
      · rw [h]
        rcases min_choice a y with e | e
        · exact Or.inl e
        · exact Or.inr (Or.inl e)
      · exact Or.inr (Or.inr h)
    · exact le_trans h2 (min_le_left a y)
    · rintro x (rfl | hx)
      · exact le_trans h2 (min_le_right a x)
      · exact h3 x hx

theorem foldl_max_spec (l : List Int) (a : Int) :
    (l.foldl max a = a ∨ l.foldl max a ∈ l) ∧ a ≤ l.foldl max a ∧ ∀ x ∈ l, x ≤ l.foldl max a := by
  induction l generalizing a with
  | nil => simp
  | cons y ys ih =>
    obtain ⟨h1, h2, h3⟩ := ih (max a y)
    simp only [List.foldl_cons, List.mem_cons]
    refine ⟨?_, ?_, ?_⟩
    · rcases h1 with h | h
      · rw [h]
        rcases max_choice a y with e | e
        · exact Or.inl e
        · exact Or.inr (Or.inl e)
      · exact Or.inr (Or.inr h)
    · exact le_trans (le_max_left a y) h2
    · rintro x (rfl | hx)
      · exact le_trans (le_max_right a x) h2
      · exact h3 x hx

theorem jsMin_spec (l : List Int) (h : l ≠ []) : jsMin l ∈ l ∧ ∀ x ∈ l, jsMin l ≤ x := by
  cases l with
  | nil => exact absurd rfl h
  | cons a as =>
    obtain ⟨h1, -, h3⟩ := foldl_min_spec (a :: as) a
    unfold jsMin
    simp only [List.headD_cons]
    refine ⟨?_, h3⟩
    rcases h1 with e | e
    · rw [e]; simp
    · exact e

theorem jsMax_spec (l : List Int) (h : l ≠ []) : jsMax l ∈ l ∧ ∀ x ∈ l, x ≤ jsMax l := by
  cases l with
  | nil => exact absurd rfl h
  | cons a as =>
    obtain ⟨h1, -, h3⟩ := foldl_max_spec (a :: as) a
    unfold jsMax
    simp only [List.headD_cons]
    refine ⟨?_, h3⟩
    rcases h1 with e | e
    · rw [e]; simp
    · exact e

theorem loop_min_spec (rows : List Record) (a : Int) :
    (rows.foldl (fun m r => if r.score < m then r.score else m) a = a ∨
        rows.foldl (fun m r => if r.score < m then r.score else m) a
          ∈ rows.map (fun r => r.score)) ∧
      rows.foldl (fun m r => if r.score < m then r.score else m) a ≤ a ∧
      ∀ x ∈ rows.map (fun r => r.score),
        rows.foldl (fun m r => if r.score < m then r.score else m) a ≤ x := by
  induction rows generalizing a with
  | nil => simp
  | cons y ys ih =>
    obtain ⟨h1, h2, h3⟩ := ih (if y.score < a then y.score else a)
    simp only [List.foldl_cons, List.map_cons, List.mem_cons]
    refine ⟨?_, ?_, ?_⟩
    · rcases h1 with h | h
      · rw [h]
        split
        · exact Or.inr (Or.inl rfl)
        · exact Or.inl rfl
      · exact Or.inr (Or.inr h)
    · refine le_trans h2 ?_
      split <;> omega
    · rintro x (rfl | hx)
      · refine le_trans h2 ?_
        split <;> omega
      · exact h3 x hx

theorem loop_max_spec (rows : List Record) (a : Int) :
    (rows.foldl (fun m r => if r.score > m then r.score else m) a = a ∨
        rows.foldl (fun m r => if r.score > m then r.score else m) a
          ∈ rows.map (fun r => r.score)) ∧
      a ≤ rows.foldl (fun m r => if r.score > m then r.score else m) a ∧
      ∀ x ∈ rows.map (fun r => r.score),
        x ≤ rows.foldl (fun m r => if r.score > m then r.score else m) a := by
  induction rows generalizing a with
  | nil => simp
  | cons y ys ih =>
    obtain ⟨h1, h2, h3⟩ := ih (if y.score > a then y.score else a)
    simp only [List.foldl_cons, List.map_cons, List.mem_cons]
    refine ⟨?_, ?_, ?_⟩
    · rcases h1 with h | h
      · rw [h]
        split
        · exact Or.inr (Or.inl rfl)
        · exact Or.inl rfl
      · exact Or.inr (Or.inr h)
    · refine le_trans ?_ h2
      split <;> omega
    · rintro x (rfl | hx)
      · refine le_trans ?_ h2
        split <;> omega
      · exact h3 x hx

theorem summarize_count (g : Str) (rows : List Record) : (summarize g rows).count = rows.length := by
  cases rows <;> rfl

theorem tsLe_some (a b : Bucket) (x y : Int) (ha : a.ts = some x) (hb : b.ts = some y) :
    tsLe a b ↔ x ≤ y := by
  unfold tsLe
  rw [ha, hb]
  simp only
  omega

/-- The entries of `series` before sorting: one per key of `byKey`. -/
theorem mem_series (g : Str) (rows : List Record) (e : Bucket) (he : e ∈ series g rows) :
    (∃ r ∈ rows, bucketKey g r.created_ts = e.key) ∧
      e = mkBucket g (e.key,
        (rows.filter (fun r => decide (bucketKey g r.created_ts = e.key))).map (fun r => r.score)) := by
  obtain ⟨ks, -, hmem, heq⟩ := byKey_eq g rows
  have he' := (series_perm g rows).mem_iff.1 he
  rw [heq, List.map_map] at he'
  obtain ⟨k, hk, rfl⟩ := List.mem_map.1 he'
  exact ⟨(hmem k).1 hk, rfl⟩

theorem series_keys_nodup (g : Str) (rows : List Record) :
    ((series g rows).map (fun e => e.key)).Nodup := by
  obtain ⟨ks, hnd, -, heq⟩ := byKey_eq g rows
  have hp := (series_perm g rows).map (fun e => e.key)
  rw [hp.nodup_iff, heq, List.map_map, List.map_map]
  have : List.map (((fun e : Bucket => e.key) ∘ mkBucket g) ∘ fun k =>
      (k, (rows.filter (fun r => decide (bucketKey g r.created_ts = k))).map (fun r => r.score))) ks
      = ks := by
    conv_rhs => rw [← List.map_id ks]
    apply List.map_congr_left
    intro k _
    rfl
  rw [this]
  exact hnd

/-- For rows of the years 1970 to 9999 the series is strictly ascending by
`ts`. -/
theorem series_strict (g : Str) (rows : List Record)
    (hr : ∀ r ∈ rows, 1970 ≤ getUTCFullYear r.created_ts ∧ getUTCFullYear r.created_ts ≤ 9999) :
    (series g rows).Pairwise (fun a b => ∃ x y, a.ts = some x ∧ b.ts = some y ∧ x < y) := by
  have hts : ∀ e ∈ series g rows, ∃ r ∈ rows, bucketKey g r.created_ts = e.key ∧
      e.ts = some (bucketStart g r.created_ts) := by
    intro e he
    obtain ⟨⟨r, hr', hk⟩, heq⟩ := mem_series g rows e he
    refine ⟨r, hr', hk, ?_⟩
    have : e.ts = bucketTs g e.key := by
      conv_lhs => rw [heq]
      rfl
    rw [this, ← hk]
    exact bucketTs_bucketKey g _ (hr r hr').1 (hr r hr').2
  have hL : ∀ e ∈ (byKey g rows).map (mkBucket g), ∃ x, e.ts = some x := by
    intro e he
    obtain ⟨r, -, -, h⟩ := hts e ((series_perm g rows).mem_iff.2 he)
    exact ⟨_, h⟩
  have hsorted : (series g rows).Sorted tsLe := by
    apply insertionSort_sorted_of
    · intro a ha b hb
      obtain ⟨x, hx⟩ := hL a ha
      obtain ⟨y, hy⟩ := hL b hb
      rw [tsLe_some a b x y hx hy, tsLe_some b a y x hy hx]
      omega
    · intro a ha b hb c hc
      obtain ⟨x, hx⟩ := hL a ha
      obtain ⟨y, hy⟩ := hL b hb
      obtain ⟨z, hz⟩ := hL c hc
      rw [tsLe_some a b x y hx hy, tsLe_some b c y z hy hz, tsLe_some a c x z hx hz]
      omega
  have hkeys : (series g rows).Pairwise (fun a b => a.key ≠ b.key) := by
    have := series_keys_nodup g rows
    rw [List.Nodup, List.pairwise_map] at this
    exact this
  refine List.Pairwise.imp_of_mem ?_ (List.Pairwise.and hsorted hkeys)
  intro a b ha hb ⟨hle, hne⟩
  obtain ⟨r1, hr1, hk1, h1⟩ := hts a ha
  obtain ⟨r2, hr2, hk2, h2⟩ := hts b hb
  refine ⟨_, _, h1, h2, ?_⟩
  rw [tsLe_some a b _ _ h1 h2] at hle
  rcases lt_or_eq_of_le hle with h | h
  · exact h
  · exfalso
    apply hne
    rw [← hk1, ← hk2]
    exact bucketKey_of_bucketStart g _ _ (hr r1 hr1) (hr r2 hr2) h


/-! ## Claims on the bucket keys and bucket starts -/

/-- C1: for week granularity and a timestamp `t` of the UTC years 1970 to
9999, the `ts` that `statsSummary` derives from the key `isoWeekKey(t)` is a
Monday (`WeekDay = 1`) at UTC midnight with `ts ≤ t < ts + 7 * 86400000`: it
starts the Monday-to-Sunday week that contains `t`. -/
theorem week_ts_is_monday_of_week (t : Int) (h1 : 1970 ≤ getUTCFullYear t)
    (h2 : getUTCFullYear t ≤ 9999) :
    ∃ ts, bucketTs "week".toList (isoWeekKey t) = some ts ∧
      WeekDay ts = 1 ∧ TimeWithinDay ts = 0 ∧ ts ≤ t ∧ t < ts + 7 * 86400000 := by
  refine ⟨(Day t - (Day t + 3) % 7) * msPerDay, bucketTs_isoWeekKey t h1 h2, ?_, ?_, ?_, ?_⟩
  · rw [WeekDay_mul]; omega
  · unfold TimeWithinDay msPerDay; omega
  · unfold Day msPerDay; omega
  · unfold Day msPerDay; omega

theorem week_ts_is_monday_of_week_witness :
    1970 ≤ getUTCFullYear 1609459200000 ∧ getUTCFullYear 1609459200000 ≤ 9999 ∧
      ∃ ts, bucketTs "week".toList (isoWeekKey 1609459200000) = some ts ∧
        WeekDay ts = 1 ∧ TimeWithinDay ts = 0 ∧ ts ≤ 1609459200000 ∧
        1609459200000 < ts + 7 * 86400000 :=
  ⟨by decide, by decide, week_ts_is_monday_of_week 1609459200000 (by decide) (by decide)⟩

/-- C2: for a timestamp `t` of the UTC years 1970 to 9999, `isoWeekKey(t)` is
`Y-Www`: with `mon` the Monday of the Monday-to-Sunday week of `t`, `Y` is the
calendar year that contains the Thursday `mon + 3`, `ft` is the first Thursday
of `Y`, and `w`, from 1 to 53, is 1 plus the number of weeks from `ft` to that
Thursday, written with two digits.  And 2021-01-01T00:00:00Z, a Friday, gets
the key `2020-W53` and the bucket timestamp 2020-12-28T00:00:00Z. -/
theorem isoWeekKey_is_iso8601 :
    (∀ t : Int, 1970 ≤ getUTCFullYear t → getUTCFullYear t ≤ 9999 →
      ∃ mon Y ft w : Int,
        (WeekDay (mon * msPerDay) = 1 ∧ mon ≤ Day t ∧ Day t ≤ mon + 6) ∧
        (DayFromYear Y ≤ mon + 3 ∧ mon + 3 < DayFromYear (Y + 1)) ∧
        (WeekDay (ft * msPerDay) = 4 ∧ DayFromYear Y ≤ ft ∧ ft < DayFromYear Y + 7) ∧
        (mon + 3 - ft = 7 * (w - 1) ∧ 1 ≤ w ∧ w ≤ 53) ∧
        (1970 ≤ Y ∧ Y ≤ 9999) ∧
        isoWeekKey t =
          jsString Y ++ ['-', 'W', digitChar (w.toNat / 10), digitChar (w.toNat % 10)]) ∧
    (WeekDay 1609459200000 = 5 ∧
      isoWeekKey 1609459200000 = "2020-W53".toList ∧
      bucketTs "week".toList (isoWeekKey 1609459200000) = some 1609113600000 ∧
      toISOString 1609459200000 = "2021-01-01T00:00:00.000Z".toList ∧
      toISOString 1609113600000 = "2020-12-28T00:00:00.000Z".toList) := by
  refine ⟨?_, by decide, by decide, by decide, by decide, by decide⟩
  intro t h1 h2
  have hD := Day_of_range t h1 h2
  have hTh := YearFromDay_of_range (Day t - (Day t + 3) % 7 + 3) (by omega) (by omega)
  have hsp := YearFromDay_spec (Day t - (Day t + 3) % 7 + 3)
  have hk := isoWeekKey_eq t (by unfold getUTCFullYear at h1; omega) (by omega)
  generalize hY : YearFromDay (Day t - (Day t + 3) % 7 + 3) = Y at hTh hsp hk
  have hstep := DayFromYear_succ Y
  have hdc := DaysInYear_cases Y
  refine ⟨Day t - (Day t + 3) % 7, Y, DayFromYear Y + 6 - (DayFromYear Y + 6) % 7,
    1 + (Day t - (Day t + 3) % 7 + 3 - (DayFromYear Y + 6 - (DayFromYear Y + 6) % 7)) / 7,
    ⟨?_, ?_, ?_⟩, ⟨?_, ?_⟩, ⟨?_, ?_, ?_⟩, ⟨?_, ?_, ?_⟩, hTh, ?_⟩
  · rw [WeekDay_mul]; omega
  · omega
  · omega
  · omega
  · omega
  · rw [WeekDay_mul]; omega
  · omega
  · omega
  · omega
  · omega
  · omega
  · rw [hk]
    have hw : 0 ≤ 1 + (Day t - (Day t + 3) % 7 + 3 -
        (DayFromYear Y + 6 - (DayFromYear Y + 6) % 7)) / 7 := by omega
    rw [jsString_nonneg _ hw, padStart_two _ (by omega)]

theorem isoWeekKey_is_iso8601_witness :
    1970 ≤ getUTCFullYear 1609459200000 ∧ getUTCFullYear 1609459200000 ≤ 9999 ∧
      ∃ mon Y ft w : Int,
        (WeekDay (mon * msPerDay) = 1 ∧ mon ≤ Day 1609459200000 ∧ Day 1609459200000 ≤ mon + 6) ∧
        (DayFromYear Y ≤ mon + 3 ∧ mon + 3 < DayFromYear (Y + 1)) ∧
        (WeekDay (ft * msPerDay) = 4 ∧ DayFromYear Y ≤ ft ∧ ft < DayFromYear Y + 7) ∧
        (mon + 3 - ft = 7 * (w - 1) ∧ 1 ≤ w ∧ w ≤ 53) ∧
        (1970 ≤ Y ∧ Y ≤ 9999) ∧
        isoWeekKey 1609459200000 =
          jsString Y ++ ['-', 'W', digitChar (w.toNat / 10), digitChar (w.toNat % 10)] :=
  ⟨by decide, by decide, isoWeekKey_is_iso8601.1 1609459200000 (by decide) (by decide)⟩

/-- C10: for month granularity and a timestamp `t` of the UTC years 1970 to
9999, the bucket key is `YYYY-MM` (four digits, a dash, the month from 01 to 12
with two digits) of the UTC month of `t`, and the bucket `ts` is UTC midnight of
the first day of that month, so `ts ≤ t <` the start of the following month.
And 2024-02-29T12:00:00Z gets the key `2024-02` and the `ts`
2024-02-01T00:00:00Z. -/
theorem month_key_and_ts :
    (∀ t : Int, 1970 ≤ getUTCFullYear t → getUTCFullYear t ≤ 9999 →
      (bucketKey "month".toList t =
          jsString (getUTCFullYear t) ++ ['-', digitChar ((getUTCMonth t + 1).toNat / 10),
            digitChar ((getUTCMonth t + 1).toNat % 10)] ∧
        (jsString (getUTCFullYear t)).length = 4 ∧
        1 ≤ getUTCMonth t + 1 ∧ getUTCMonth t + 1 ≤ 12) ∧
      ∃ ts, bucketTs "month".toList (bucketKey "month".toList t) = some ts ∧
        TimeWithinDay ts = 0 ∧ getUTCFullYear ts = getUTCFullYear t ∧
        getUTCMonth ts = getUTCMonth t ∧ getUTCDate ts = 1 ∧
        ts ≤ t ∧ t < DateUTC (getUTCFullYear t) (getUTCMonth t + 1) 1) ∧
    (bucketKey "month".toList 1709208000000 = "2024-02".toList ∧
      bucketTs "month".toList (bucketKey "month".toList 1709208000000) = some 1706745600000 ∧
      toISOString 1709208000000 = "2024-02-29T12:00:00.000Z".toList ∧
      toISOString 1706745600000 = "2024-02-01T00:00:00.000Z".toList) := by
  refine ⟨?_, by decide, by decide, by decide, by decide⟩
  intro t h1 h2
  have hm := MonthFromTime_bounds t
  have hd := DateFromTime_bounds t
  have hk : bucketKey "month".toList t = monthKey t := by
    unfold bucketKey
    simp
  have hY : 0 ≤ YearFromTime t := by unfold getUTCFullYear at h1; omega
  unfold getUTCFullYear at h1 h2
  refine ⟨⟨?_, ?_, ?_, ?_⟩, (Day t - DateFromTime t + 1) * msPerDay, ?_, ?_, ?_, ?_, ?_, ?_, ?_⟩
  · rw [hk]
    unfold monthKey
    simp only
    rw [jsString_nonneg _ (by unfold getUTCMonth; omega : 0 ≤ getUTCMonth t + 1),
      padStart_two _ (by unfold getUTCMonth; omega)]
  · unfold getUTCFullYear
    rw [jsString_nonneg _ hY, natString_four _ (by omega) (by omega)]
    rfl
  · unfold getUTCMonth; omega
  · unfold getUTCMonth; omega
  · rw [hk]
    exact bucketTs_monthKey t h1 h2
  · unfold TimeWithinDay msPerDay; omega
  · exact (firstOfMonth_getters t).1
  · exact (firstOfMonth_getters t).2.1
  · exact (firstOfMonth_getters t).2.2
  · unfold Day msPerDay at *; omega
  · exact lt_nextMonth t (by omega)

theorem month_key_and_ts_witness :
    1970 ≤ getUTCFullYear 1709208000000 ∧ getUTCFullYear 1709208000000 ≤ 9999 ∧
      ∃ ts, bucketTs "month".toList (bucketKey "month".toList 1709208000000) = some ts ∧
        TimeWithinDay ts = 0 ∧ getUTCFullYear ts = getUTCFullYear 1709208000000 ∧
        getUTCMonth ts = getUTCMonth 1709208000000 ∧ getUTCDate ts = 1 ∧
        ts ≤ 1709208000000 ∧
        1709208000000 < DateUTC (getUTCFullYear 1709208000000) (getUTCMonth 1709208000000 + 1) 1 :=
  ⟨by decide, by decide, (month_key_and_ts.1 1709208000000 (by decide) (by decide)).2⟩


/-! ## Claims on `statsSummary` -/

theorem scenario_rows : selectRows scenarioStore 0 scenarioParams = scenarioStore := by decide

theorem scenario_byKey :
    byKey "day".toList scenarioStore
      = [("2023-11-15".toList, [-5, 5]), ("2023-11-16".toList, [0])] := by decide

theorem scenario_series :
    (statsSummary scenarioStore 0 scenarioParams).series =
      [ { key := "2023-11-15".toList, ts := some 1700006400000, avg := 0, min := -5, max := 5 },
        { key := "2023-11-16".toList, ts := some 1700092800000, avg := 0, min := 0, max := 0 } ] := by
  unfold statsSummary
  rw [summarize_series, scenario_rows]
  unfold series
  rw [show scenarioParams.granularity = "day".toList from rfl, scenario_byKey]
  have h1 : bucketTs "day".toList "2023-11-15".toList = some 1700006400000 := by decide
  have h2 : bucketTs "day".toList "2023-11-16".toList = some 1700092800000 := by decide
  have h3 : jsMin [-5, 5] = -5 := by decide
  have h4 : jsMax [-5, 5] = 5 := by decide
  have h5 : jsMin [0] = 0 := by decide
  have h6 : jsMax [0] = 0 := by decide
  simp only [List.map_cons, List.map_nil, mkBucket, h1, h2, h3, h4, h5, h6]
  norm_num [sortByTs, List.insertionSort, List.orderedInsert, tsLe]

/-- C3: for every granularity and selected rows (empty or not) whose timestamps have a UTC
year from 1970 to 9999, the `series` of `statsSummary` is strictly ascending by
`ts` (every entry has a smaller `ts` than every later one), no two entries
have the same key, and entries with distinct keys have distinct `ts`. -/
theorem series_strictly_ascending_no_duplicate_keys (store : List Record) (now : Int)
    (p : Params)
    (hr : ∀ r ∈ selectRows store now p,
      1970 ≤ getUTCFullYear r.created_ts ∧ getUTCFullYear r.created_ts ≤ 9999) :
    (statsSummary store now p).series.Pairwise
        (fun a b => ∃ x y, a.ts = some x ∧ b.ts = some y ∧ x < y) ∧
      ((statsSummary store now p).series.map (fun e => e.key)).Nodup ∧
      (∀ a ∈ (statsSummary store now p).series, ∀ b ∈ (statsSummary store now p).series,
        a.key ≠ b.key → a.ts ≠ b.ts) := by
  unfold statsSummary
  rw [summarize_series]
  refine ⟨series_strict _ _ hr, series_keys_nodup _ _, ?_⟩
  intro a ha b hb hk
  have hp : (series p.granularity (selectRows store now p)).Pairwise
      (fun a b => a.ts ≠ b.ts) := by
    refine List.Pairwise.imp ?_ (series_strict _ _ hr)
    rintro a b ⟨x, y, hx, hy, hlt⟩ e
    rw [hx, hy] at e
    have := Option.some.inj e
    omega
  exact hp.forall (fun _ _ h => Ne.symm h) ha hb (fun e => hk (e ▸ rfl))

theorem series_strictly_ascending_no_duplicate_keys_witness :
    (∀ r ∈ selectRows scenarioStore 0 scenarioParams,
        1970 ≤ getUTCFullYear r.created_ts ∧ getUTCFullYear r.created_ts ≤ 9999) ∧
      (statsSummary scenarioStore 0 scenarioParams).series.Pairwise
        (fun a b => ∃ x y, a.ts = some x ∧ b.ts = some y ∧ x < y) ∧
      ((statsSummary scenarioStore 0 scenarioParams).series.map (fun e => e.key)).Nodup :=
  ⟨by decide,
    (series_strictly_ascending_no_duplicate_keys scenarioStore 0 scenarioParams (by decide)).1,
    (series_strictly_ascending_no_duplicate_keys scenarioStore 0 scenarioParams (by decide)).2.1⟩

/-- C4: for all selected rows and every granularity, `count` is the sum
over the buckets of `byKey` of the length of the score list; the keys of the
buckets are distinct, the score list of a bucket holds exactly the scores of
the rows with its key, and the key of every row is the key of a bucket: every
score is in exactly one bucket, none dropped or duplicated. -/
theorem count_is_sum_of_bucket_sizes (store : List Record) (now : Int) (p : Params) :
    (statsSummary store now p).count
        = ((byKey p.granularity (selectRows store now p)).map (fun e => e.2.length)).sum ∧
      ((byKey p.granularity (selectRows store now p)).map (fun e => e.1)).Nodup ∧
      (∀ e ∈ byKey p.granularity (selectRows store now p),
        e.2 = scoresWithKey p.granularity (selectRows store now p) e.1) ∧
      (∀ r ∈ selectRows store now p, ∃ e ∈ byKey p.granularity (selectRows store now p),
        e.1 = bucketKey p.granularity r.created_ts) := by
  obtain ⟨ks, hnd, hmem, heq⟩ := byKey_eq p.granularity (selectRows store now p)
  refine ⟨?_, ?_, ?_, ?_⟩
  · unfold statsSummary
    rw [summarize_count, byKey_total]
  · rw [heq, List.map_map]
    have : List.map ((fun e : Str × List Int => e.1) ∘ fun k =>
        (k, ((selectRows store now p).filter
          (fun r => decide (bucketKey p.granularity r.created_ts = k))).map (fun r => r.score))) ks
        = ks := by
      conv_rhs => rw [← List.map_id ks]
      apply List.map_congr_left
      intro k _
      rfl
    rw [this]
    exact hnd
  · intro e he
    rw [heq] at he
    obtain ⟨k, -, rfl⟩ := List.mem_map.1 he
    rfl
  · intro r hr
    have hk := (hmem (bucketKey p.granularity r.created_ts)).2 ⟨r, hr, rfl⟩
    refine ⟨(bucketKey p.granularity r.created_ts,
      scoresWithKey p.granularity (selectRows store now p)
        (bucketKey p.granularity r.created_ts)), ?_, rfl⟩
    rw [heq]
    exact List.mem_map.2 ⟨_, hk, rfl⟩

theorem count_is_sum_of_bucket_sizes_witness :
    selectRows scenarioStore 0 scenarioParams ≠ [] ∧
      (statsSummary scenarioStore 0 scenarioParams).count
        = ((byKey scenarioParams.granularity (selectRows scenarioStore 0 scenarioParams)).map
            (fun e => e.2.length)).sum :=
  ⟨by decide, (count_is_sum_of_bucket_sizes scenarioStore 0 scenarioParams).1⟩

/-- C5: every entry of `series` has as `avg` the arithmetic mean, as `min` the
minimum and as `max` the maximum of the scores of the selected rows whose
bucket key is the key of the entry (a non-empty list).  In the scenario (-5 and
5 on one day, 0 on the next, granularity day) the series has two entries: the
first day with avg 0, min -5, max 5 and the second with avg 0, min 0, max 0. -/
theorem series_entries_aggregate_their_bucket :
    (∀ (store : List Record) (now : Int) (p : Params),
      ∀ e ∈ (statsSummary store now p).series,
        scoresWithKey p.granularity (selectRows store now p) e.key ≠ [] ∧
        e.avg = ((scoresWithKey p.granularity (selectRows store now p) e.key).sum : ℚ)
          / ((scoresWithKey p.granularity (selectRows store now p) e.key).length : ℚ) ∧
        (e.min ∈ scoresWithKey p.granularity (selectRows store now p) e.key ∧
          ∀ s ∈ scoresWithKey p.granularity (selectRows store now p) e.key, e.min ≤ s) ∧
        (e.max ∈ scoresWithKey p.granularity (selectRows store now p) e.key ∧
          ∀ s ∈ scoresWithKey p.granularity (selectRows store now p) e.key, s ≤ e.max)) ∧
    (statsSummary scenarioStore 0 scenarioParams).series =
      [ { key := "2023-11-15".toList, ts := some 1700006400000, avg := 0, min := -5, max := 5 },
        { key := "2023-11-16".toList, ts := some 1700092800000, avg := 0, min := 0, max := 0 } ] := by
  refine ⟨?_, scenario_series⟩
  intro store now p e he
  unfold statsSummary at he
  rw [summarize_series] at he
  obtain ⟨⟨r, hr, hk⟩, heq⟩ := mem_series _ _ e he
  have hne : scoresWithKey p.granularity (selectRows store now p) e.key ≠ [] := by
    intro hnil
    have : r.score ∈ scoresWithKey p.granularity (selectRows store now p) e.key :=
      List.mem_map.2 ⟨r, List.mem_filter.2 ⟨hr, by simpa using hk⟩, rfl⟩
    rw [hnil] at this
    exact absurd this (List.not_mem_nil _)
  have havg : e.avg = ((scoresWithKey p.granularity (selectRows store now p) e.key).sum : ℚ)
      / ((scoresWithKey p.granularity (selectRows store now p) e.key).length : ℚ) := by
    conv_lhs => rw [heq]
    unfold mkBucket
    simp only
    rw [foldl_add_eq_sum, zero_add]
    rfl
  have hmin : e.min = jsMin (scoresWithKey p.granularity (selectRows store now p) e.key) := by
    conv_lhs => rw [heq]
    rfl
  have hmax : e.max = jsMax (scoresWithKey p.granularity (selectRows store now p) e.key) := by
    conv_lhs => rw [heq]
    rfl
  refine ⟨hne, havg, ?_, ?_⟩
  · rw [hmin]; exact jsMin_spec _ hne
  · rw [hmax]; exact jsMax_spec _ hne

theorem series_entries_aggregate_their_bucket_witness :
    ({ key := "2023-11-15".toList, ts := some 1700006400000, avg := 0, min := -5, max := 5 }
        : Bucket) ∈ (statsSummary scenarioStore 0 scenarioParams).series ∧
      (-5 : Int) ∈ scoresWithKey scenarioParams.granularity
        (selectRows scenarioStore 0 scenarioParams) "2023-11-15".toList ∧
      ∀ s ∈ scoresWithKey scenarioParams.granularity
        (selectRows scenarioStore 0 scenarioParams) "2023-11-15".toList, (-5 : Int) ≤ s :=
  ⟨by rw [scenario_series]; exact List.mem_cons_self _ _,
    (series_entries_aggregate_their_bucket.1 scenarioStore 0 scenarioParams
      { key := "2023-11-15".toList, ts := some 1700006400000, avg := 0, min := -5, max := 5 }
      (by rw [scenario_series]; exact List.mem_cons_self _ _)).2.2.1⟩


theorem selectRows_perm (store : List Record) (now : Int) (p : Params) :
    (selectRows store now p).Perm (store.filter (whereClause now p)) :=
  List.perm_insertionSort _ _

theorem selectRows_granularity (store : List Record) (now : Int) (p : Params) (g : Str) :
    selectRows store now { p with granularity := g } = selectRows store now p := rfl

/-- C6: for non-empty selected rows, `count` is the number of selected rows,
`avg` the sum of their scores divided by `count`, `min` the smallest and `max`
the largest of their scores; the four values are the same for every
granularity. -/
theorem global_count_avg_min_max (store : List Record) (now : Int) (p : Params)
    (hne : selectRows store now p ≠ []) :
    ((statsSummary store now p).count = (selectRows store now p).length ∧
      (statsSummary store now p).avg
        = some (((((selectRows store now p).map (fun r => r.score)).sum : Int) : ℚ)
            / ((statsSummary store now p).count : ℚ)) ∧
      (∃ m, (statsSummary store now p).min = some m ∧
        m ∈ (selectRows store now p).map (fun r => r.score) ∧
        ∀ s ∈ (selectRows store now p).map (fun r => r.score), m ≤ s) ∧
      (∃ m, (statsSummary store now p).max = some m ∧
        m ∈ (selectRows store now p).map (fun r => r.score) ∧
        ∀ s ∈ (selectRows store now p).map (fun r => r.score), s ≤ m)) ∧
    ∀ g : Str,
      (statsSummary store now { p with granularity := g }).count = (statsSummary store now p).count ∧
      (statsSummary store now { p with granularity := g }).avg = (statsSummary store now p).avg ∧
      (statsSummary store now { p with granularity := g }).min = (statsSummary store now p).min ∧
      (statsSummary store now { p with granularity := g }).max = (statsSummary store now p).max := by
  constructor
  · unfold statsSummary
    generalize selectRows store now p = rows at hne
    cases rows with
    | nil => exact absurd rfl hne
    | cons r0 rs =>
      obtain ⟨a1, -, a3⟩ := loop_min_spec (r0 :: rs) r0.score
      obtain ⟨b1, -, b3⟩ := loop_max_spec (r0 :: rs) r0.score
      refine ⟨rfl, ?_, ⟨_, rfl, ?_, a3⟩, ⟨_, rfl, ?_, b3⟩⟩
      · simp only [summarize]
        rw [foldl_score_sum, zero_add]
      · rcases a1 with e | e
        · rw [e]; simp
        · exact e
      · rcases b1 with e | e
        · rw [e]; simp
        · exact e
  · intro g
    unfold statsSummary
    rw [selectRows_granularity]
    generalize selectRows store now p = rows
    cases rows with
    | nil => exact ⟨rfl, rfl, rfl, rfl⟩
    | cons r0 rs => exact ⟨rfl, rfl, rfl, rfl⟩

theorem global_count_avg_min_max_witness :
    selectRows scenarioStore 0 scenarioParams ≠ [] ∧
      (statsSummary scenarioStore 0 scenarioParams).count
        = (selectRows scenarioStore 0 scenarioParams).length ∧
      (statsSummary scenarioStore 0 scenarioParams).avg
        = some (((((selectRows scenarioStore 0 scenarioParams).map (fun r => r.score)).sum : Int) : ℚ)
            / ((statsSummary scenarioStore 0 scenarioParams).count : ℚ)) :=
  ⟨by decide,
    (global_count_avg_min_max scenarioStore 0 scenarioParams (by decide)).1.1,
    (global_count_avg_min_max scenarioStore 0 scenarioParams (by decide)).1.2.1⟩

/-- C7: when no stored row satisfies the `WHERE` clause of the request,
`statsSummary` returns `count` 0, `avg`, `min`, `max` and `last` null and an
empty `series`; so it does for an empty table, and for every table when
`fromTs > toTs`. -/
theorem empty_selection_gives_empty_result :
    (∀ (store : List Record) (now : Int) (p : Params),
      (∀ r ∈ store, whereClause now p r = false) →
      (statsSummary store now p).count = 0 ∧ (statsSummary store now p).avg = none ∧
      (statsSummary store now p).min = none ∧ (statsSummary store now p).max = none ∧
      (statsSummary store now p).last = none ∧ (statsSummary store now p).series = []) ∧
    (∀ (now : Int) (p : Params),
      (statsSummary [] now p).count = 0 ∧ (statsSummary [] now p).avg = none ∧
      (statsSummary [] now p).min = none ∧ (statsSummary [] now p).max = none ∧
      (statsSummary [] now p).last = none ∧ (statsSummary [] now p).series = []) ∧
    (∀ (store : List Record) (now : Int) (p : Params) (a b : Int),
      p.fromTs = some a → p.toTs = some b → a > b →
      (statsSummary store now p).count = 0 ∧ (statsSummary store now p).avg = none ∧
      (statsSummary store now p).min = none ∧ (statsSummary store now p).max = none ∧
      (statsSummary store now p).last = none ∧ (statsSummary store now p).series = []) := by
  have key : ∀ (store : List Record) (now : Int) (p : Params),
      (∀ r ∈ store, whereClause now p r = false) →
      (statsSummary store now p).count = 0 ∧ (statsSummary store now p).avg = none ∧
      (statsSummary store now p).min = none ∧ (statsSummary store now p).max = none ∧
      (statsSummary store now p).last = none ∧ (statsSummary store now p).series = [] := by
    intro store now p h
    have hf : store.filter (whereClause now p) = [] := by
      rw [List.filter_eq_nil_iff]
      intro r hr
      rw [h r hr]
      simp
    have hs : selectRows store now p = [] := by
      unfold selectRows
      rw [hf]
      rfl
    unfold statsSummary
    rw [hs]
    exact ⟨rfl, rfl, rfl, rfl, rfl, rfl⟩
  refine ⟨key, ?_, ?_⟩
  · intro now p
    exact key [] now p (fun r hr => absurd hr (List.not_mem_nil _))
  · intro store now p a b ha hb hab
    apply key
    intro r _
    unfold whereClause
    rw [ha, hb]
    simp only [Bool.and_eq_false_imp, decide_eq_true_eq, decide_eq_false_iff_not]
    intro h1
    omega

theorem empty_selection_gives_empty_result_witness :
    (1700092800000 : Int) > 1700006400000 ∧
      (statsSummary scenarioStore 0
        { scenarioParams with fromTs := some 1700092800000, toTs := some 1700006400000 }).count = 0 ∧
      (statsSummary scenarioStore 0
        { scenarioParams with fromTs := some 1700092800000, toTs := some 1700006400000 }).series
          = [] :=
  ⟨by decide,
    (empty_selection_gives_empty_result.2.2 scenarioStore 0
      { scenarioParams with fromTs := some 1700092800000, toTs := some 1700006400000 }
      1700092800000 1700006400000 rfl rfl (by decide)).1,
    (empty_selection_gives_empty_result.2.2 scenarioStore 0
      { scenarioParams with fromTs := some 1700092800000, toTs := some 1700006400000 }
      1700092800000 1700006400000 rfl rfl (by decide)).2.2.2.2.2⟩

/-- C8: with both `fromTs` and `toTs` given, `statsSummary` aggregates exactly
the stored rows with `fromTs ≤ created_ts ≤ toTs`: the selected rows are a
permutation of these rows (and `count` is their number); a stored row with
`created_ts = fromTs` or `created_ts = toTs` is selected, one with
`created_ts = toTs + 1` or `created_ts = fromTs - 1` is not. -/
theorem range_is_inclusive (store : List Record) (now : Int) (p : Params) (a b : Int)
    (ha : p.fromTs = some a) (hb : p.toTs = some b) :
    statsSummary store now p = summarize p.granularity (selectRows store now p) ∧
    (selectRows store now p).Perm
      (store.filter (fun r => decide (a ≤ r.created_ts) && decide (r.created_ts ≤ b))) ∧
    (statsSummary store now p).count
      = (store.filter (fun r => decide (a ≤ r.created_ts) && decide (r.created_ts ≤ b))).length ∧
    (∀ r, r ∈ selectRows store now p ↔ r ∈ store ∧ a ≤ r.created_ts ∧ r.created_ts ≤ b) ∧
    (∀ r ∈ store, a ≤ b → r.created_ts = a → r ∈ selectRows store now p) ∧
    (∀ r ∈ store, a ≤ b → r.created_ts = b → r ∈ selectRows store now p) ∧
    (∀ r, r.created_ts = b + 1 → r ∉ selectRows store now p) ∧
    (∀ r, r.created_ts = a - 1 → r ∉ selectRows store now p) := by
  have hw : whereClause now p
      = fun r => decide (a ≤ r.created_ts) && decide (r.created_ts ≤ b) := by
    funext r
    unfold whereClause
    rw [ha, hb]
  have hperm := selectRows_perm store now p
  rw [hw] at hperm
  have hmem : ∀ r, r ∈ selectRows store now p ↔
      r ∈ store ∧ a ≤ r.created_ts ∧ r.created_ts ≤ b := by
    intro r
    rw [hperm.mem_iff, List.mem_filter]
    simp
  refine ⟨rfl, hperm, ?_, hmem, ?_, ?_, ?_, ?_⟩
  · unfold statsSummary
    rw [summarize_count]
    exact hperm.length_eq
  · intro r hr hab e
    exact (hmem r).2 ⟨hr, by omega, by omega⟩
  · intro r hr hab e
    exact (hmem r).2 ⟨hr, by omega, by omega⟩
  · intro r e h
    have := (hmem r).1 h
    omega
  · intro r e h
    have := (hmem r).1 h
    omega

theorem range_is_inclusive_witness :
    scenarioParams.fromTs = some 1700006400000 ∧ scenarioParams.toTs = some 1700092800000 ∧
      (statsSummary scenarioStore 0 scenarioParams).count
        = (scenarioStore.filter (fun r => decide ((1700006400000 : Int) ≤ r.created_ts) &&
            decide (r.created_ts ≤ (1700092800000 : Int)))).length :=
  ⟨rfl, rfl,
    (range_is_inclusive scenarioStore 0 scenarioParams 1700006400000 1700092800000 rfl rfl).2.2.1⟩

/-- C9, the code at two timestamps of the year 10000: with day granularity,
10000-01-01 and the day after it, two different UTC days, get the same
bucket key `+010000-01`, because `toISOString` writes a year above 9999 with a
sign and six digits and `slice(0, 10)` cuts the day off; the `ts` parsed back
from that key is `NaN`.  `monthKey` and `isoWeekKey`, which print
`getUTCFullYear()`, keep the two apart where they should. -/
theorem day_key_merges_days_after_9999 :
    bucketKey "day".toList 253402300800000 = "+010000-01".toList ∧
      bucketKey "day".toList 253402387200000 = "+010000-01".toList ∧
      Day 253402300800000 ≠ Day 253402387200000 ∧
      toISOString 253402300800000 = "+010000-01-01T00:00:00.000Z".toList ∧
      toISOString 253402387200000 = "+010000-01-02T00:00:00.000Z".toList ∧
      bucketTs "day".toList (bucketKey "day".toList 253402300800000) = none ∧
      bucketKey "month".toList 253402300800000 = "10000-01".toList ∧
      bucketKey "week".toList 253402300800000 = "9999-W52".toList ∧
      bucketKey "week".toList 253402560000000 = "10000-W01".toList := by
  decide


/-- Within the years 1970 to 9999 the bucket keys behave as C9 says: two
timestamps get the same key exactly when they lie on the same UTC day, in the
same Monday-to-Sunday week, or in the same UTC month. -/
theorem same_key_iff_same_bucket_1970_9999 (t1 t2 : Int)
    (h1 : 1970 ≤ getUTCFullYear t1 ∧ getUTCFullYear t1 ≤ 9999)
    (h2 : 1970 ≤ getUTCFullYear t2 ∧ getUTCFullYear t2 ≤ 9999) :
    (bucketKey "day".toList t1 = bucketKey "day".toList t2 ↔ Day t1 = Day t2) ∧
    (bucketKey "week".toList t1 = bucketKey "week".toList t2 ↔
      ∃ mon, WeekDay (mon * msPerDay) = 1 ∧ mon ≤ Day t1 ∧ Day t1 ≤ mon + 6 ∧
        mon ≤ Day t2 ∧ Day t2 ≤ mon + 6) ∧
    (bucketKey "month".toList t1 = bucketKey "month".toList t2 ↔
      getUTCFullYear t1 = getUTCFullYear t2 ∧ getUTCMonth t1 = getUTCMonth t2) := by
  refine ⟨?_, ?_, ?_⟩
  · rw [bucketKey_eq_iff _ t1 t2 h1 h2]
    unfold bucketStart
    rw [if_neg (by decide), if_neg (by decide), if_neg (by decide), if_neg (by decide)]
    unfold msPerDay
    constructor <;> intro h <;> omega
  · rw [bucketKey_eq_iff _ t1 t2 h1 h2]
    unfold bucketStart
    rw [if_neg (by decide), if_pos rfl, if_neg (by decide), if_pos rfl]
    constructor
    · intro h
      have e := msPerDay_cancel _ _ h
      refine ⟨Day t1 - (Day t1 + 3) % 7, ?_, ?_, ?_, ?_, ?_⟩
      · rw [WeekDay_mul]; omega
      all_goals omega
    · rintro ⟨mon, hw, a1, a2, b1, b2⟩
      rw [WeekDay_mul] at hw
      congr 1
      omega
  · rw [bucketKey_eq_iff _ t1 t2 h1 h2]
    unfold bucketStart
    rw [if_pos rfl, if_pos rfl]
    unfold getUTCFullYear getUTCMonth
    constructor
    · intro h
      obtain ⟨a1, b1, -⟩ := firstOfMonth_getters t1
      obtain ⟨a2, b2, -⟩ := firstOfMonth_getters t2
      rw [h] at a1 b1
      exact ⟨a1.symm.trans a2, b1.symm.trans b2⟩
    · rintro ⟨hy, hm⟩
      obtain ⟨-, c1, -⟩ := firstOfMonth_facts t1
      obtain ⟨-, c2, -⟩ := firstOfMonth_facts t2
      have hl : InLeapYear t1 = InLeapYear t2 := by
        unfold InLeapYear
        rw [hy]
      rw [hl, hm, hy, ← c2] at c1
      congr 1
      omega

/-! ## Claims on the day bucket, `last` and the granularity argument -/

/-- The first ten characters of `toISOString` for a year from 1000 to 9999:
the date `YYYY-MM-DD`. -/
theorem toISOString_take_ten (t : Int) (h1 : 1000 ≤ YearFromTime t) (h2 : YearFromTime t ≤ 9999) :
    (toISOString t).take 10
      = natString (YearFromTime t).toNat ++ '-' ::
          (padStart 2 (natString (MonthFromTime t + 1).toNat) ++ '-' ::
            padStart 2 (natString (DateFromTime t).toNat)) := by
  have hm := MonthFromTime_bounds t
  have hd := DateFromTime_bounds t
  unfold toISOString
  simp only
  rw [if_pos (by omega), natAbs_eq_toNat _ (by omega : 0 ≤ YearFromTime t),
    natAbs_eq_toNat _ (by omega : 0 ≤ MonthFromTime t + 1),
    natAbs_eq_toNat _ (by omega : 0 ≤ DateFromTime t)]
  have hY4 : padStart 4 (natString (YearFromTime t).toNat) = natString (YearFromTime t).toNat := by
    have := natString_four (YearFromTime t).toNat (by omega) (by omega)
    rw [this]
    rfl
  rw [hY4]
  have hlen : (natString (YearFromTime t).toNat ++ '-' ::
          (padStart 2 (natString (MonthFromTime t + 1).toNat) ++ '-' ::
            padStart 2 (natString (DateFromTime t).toNat))).length = 10 := by
    rw [natString_four (YearFromTime t).toNat (by omega) (by omega),
      padStart_two _ (by omega : (MonthFromTime t + 1).toNat < 100),
      padStart_two _ (by omega : (DateFromTime t).toNat < 100)]
    rfl
  simp only [List.append_assoc, List.cons_append]
  conv_lhs =>
    rw [show ∀ (A B C Q : Str), A ++ '-' :: (B ++ '-' :: (C ++ Q))
      = (A ++ '-' :: (B ++ '-' :: C)) ++ Q from fun A B C Q => by simp]
  exact List.take_left' hlen

/-- C11: for day granularity and a timestamp `t` of the UTC years 1970 to
9999, the bucket key is the UTC date of `t` written `YYYY-MM-DD` (the first ten
characters of `toISOString` of `t`: four digits of the year, two of the month,
two of the day of the month), and the `ts` parsed back from the key is UTC
midnight of that day, `t - (t mod 86400000)`. -/
theorem day_key_and_ts (t : Int) (h1 : 1970 ≤ getUTCFullYear t) (h2 : getUTCFullYear t ≤ 9999) :
    bucketKey "day".toList t = (toISOString t).take 10 ∧
      bucketKey "day".toList t =
        jsString (getUTCFullYear t) ++
          ['-', digitChar ((getUTCMonth t + 1).toNat / 10), digitChar ((getUTCMonth t + 1).toNat % 10),
           '-', digitChar ((getUTCDate t).toNat / 10), digitChar ((getUTCDate t).toNat % 10)] ∧
      (jsString (getUTCFullYear t)).length = 4 ∧
      bucketTs "day".toList (bucketKey "day".toList t) = some (t - t % 86400000) ∧
      TimeWithinDay (t - t % 86400000) = 0 ∧ Day (t - t % 86400000) = Day t := by
  have hm := MonthFromTime_bounds t
  have hd := DateFromTime_bounds t
  have hk : bucketKey "day".toList t
      = (toISOString (DateUTC (getUTCFullYear t) (getUTCMonth t) (getUTCDate t))).take 10 := by
    unfold bucketKey
    simp only
    rw [if_neg (by decide), if_neg (by decide)]
  have hY : 1970 ≤ YearFromTime t ∧ YearFromTime t ≤ 9999 := ⟨h1, h2⟩
  refine ⟨?_, ?_, ?_, ?_, ?_, ?_⟩
  · rw [hk, dayKey_eq t h1 h2, toISOString_take_ten t (by omega) hY.2]
  · rw [hk, dayKey_eq t h1 h2]
    unfold getUTCFullYear getUTCMonth getUTCDate
    rw [jsString_nonneg _ (by omega), padStart_two _ (by omega), padStart_two _ (by omega)]
    simp
  · unfold getUTCFullYear
    rw [jsString_nonneg _ (by omega), natString_four _ (by omega) (by omega)]
    rfl
  · rw [bucketTs_dayKey _ (by decide) (by decide) t h1 h2]
    congr 1
    unfold Day msPerDay
    omega
  · unfold TimeWithinDay msPerDay; omega
  · unfold Day msPerDay; omega

theorem day_key_and_ts_witness :
    1970 ≤ getUTCFullYear 1709208000000 ∧ getUTCFullYear 1709208000000 ≤ 9999 ∧
      bucketKey "day".toList 1709208000000 = (toISOString 1709208000000).take 10 ∧
      bucketTs "day".toList (bucketKey "day".toList 1709208000000)
        = some (1709208000000 - 1709208000000 % 86400000) :=
  ⟨by decide, by decide,
    (day_key_and_ts 1709208000000 (by decide) (by decide)).1,
    (day_key_and_ts 1709208000000 (by decide) (by decide)).2.2.2.1⟩

theorem orderByCreatedTs_sorted (rows : List Record) :
    (orderByCreatedTs rows).Sorted (fun a b => a.created_ts ≤ b.created_ts) := by
  unfold orderByCreatedTs
  apply insertionSort_sorted_of
  · intro a _ b _
    omega
  · intro a _ b _ c _ h1 h2
    omega

theorem selectRows_sorted (store : List Record) (now : Int) (p : Params) :
    (selectRows store now p).Sorted (fun a b => a.created_ts ≤ b.created_ts) :=
  orderByCreatedTs_sorted _

theorem getLast_of_sorted (rows : List Record)
    (hs : rows.Sorted (fun a b => a.created_ts ≤ b.created_ts)) (hne : rows ≠ []) :
    ∃ r, rows.getLast? = some r ∧ r ∈ rows ∧ ∀ x ∈ rows, x.created_ts ≤ r.created_ts := by
  refine ⟨rows.getLast hne, List.getLast?_eq_getLast _ hne, List.getLast_mem hne, ?_⟩
  intro x hx
  have hsplit := List.dropLast_append_getLast hne
  rw [← hsplit] at hx hs
  rcases List.mem_append.1 hx with h | h
  · exact (List.pairwise_append.1 hs).2.2 x h _ (List.mem_singleton_self _)
  · rw [List.mem_singleton.1 h]

theorem summarize_last (g : Str) (rows : List Record) : (summarize g rows).last = rows.getLast? := by
  cases rows <;> rfl

/-- C12: for non-empty selected rows, `last` is one of the selected rows and
no selected row has a larger `created_ts`. -/
theorem last_is_latest_selected (store : List Record) (now : Int) (p : Params)
    (hne : selectRows store now p ≠ []) :
    ∃ r, (statsSummary store now p).last = some r ∧ r ∈ selectRows store now p ∧
      ∀ x ∈ selectRows store now p, x.created_ts ≤ r.created_ts := by
  unfold statsSummary
  rw [summarize_last]
  exact getLast_of_sorted _ (selectRows_sorted store now p) hne

theorem last_is_latest_selected_witness :
    selectRows scenarioStore 0 scenarioParams ≠ [] ∧
      ∃ r, (statsSummary scenarioStore 0 scenarioParams).last = some r ∧
        r ∈ selectRows scenarioStore 0 scenarioParams ∧
        ∀ x ∈ selectRows scenarioStore 0 scenarioParams, x.created_ts ≤ r.created_ts :=
  ⟨by decide, last_is_latest_selected scenarioStore 0 scenarioParams (by decide)⟩

theorem bucketKey_other (g : Str) (hg1 : g ≠ "month".toList) (hg2 : g ≠ "week".toList) (t : Int) :
    bucketKey g t = bucketKey "day".toList t := by
  unfold bucketKey
  simp only
  rw [if_neg hg1, if_neg hg2, if_neg (by decide), if_neg (by decide)]

theorem bucketTs_other (g : Str) (hg1 : g ≠ "month".toList) (hg2 : g ≠ "week".toList) (k : Str) :
    bucketTs g k = bucketTs "day".toList k := by
  unfold bucketTs
  simp only
  rw [if_neg hg1, if_neg hg2, if_neg (by decide), if_neg (by decide)]

theorem series_other (g : Str) (hg1 : g ≠ "month".toList) (hg2 : g ≠ "week".toList)
    (rows : List Record) : series g rows = series "day".toList rows := by
  have hk : (fun (m : List (Str × List Int)) (r : Record) =>
        mapPush m (bucketKey g r.created_ts) r.score)
      = fun m r => mapPush m (bucketKey "day".toList r.created_ts) r.score := by
    funext m r
    rw [bucketKey_other g hg1 hg2]
  have hm : mkBucket g = mkBucket "day".toList := by
    funext e
    unfold mkBucket
    rw [bucketTs_other g hg1 hg2]
  unfold series byKey
  rw [hk, hm]

/-- C13: for a granularity argument other than `'week'` and `'month'` (the
empty string and every unrecognized string; a missing argument is `'day'` by
default) `statsSummary` returns the same `count`, `avg`, `min`, `max`, `last`
and `series` as for `'day'`, for every table and range. -/
theorem other_granularity_is_day (g : Str) (hg1 : g ≠ "month".toList) (hg2 : g ≠ "week".toList)
    (store : List Record) (now : Int) (p : Params) :
    (statsSummary store now { p with granularity := g }).count
        = (statsSummary store now { p with granularity := "day".toList }).count ∧
      (statsSummary store now { p with granularity := g }).avg
        = (statsSummary store now { p with granularity := "day".toList }).avg ∧
      (statsSummary store now { p with granularity := g }).min
        = (statsSummary store now { p with granularity := "day".toList }).min ∧
      (statsSummary store now { p with granularity := g }).max
        = (statsSummary store now { p with granularity := "day".toList }).max ∧
      (statsSummary store now { p with granularity := g }).last
        = (statsSummary store now { p with granularity := "day".toList }).last ∧
      (statsSummary store now { p with granularity := g }).series
        = (statsSummary store now { p with granularity := "day".toList }).series := by
  unfold statsSummary
  rw [selectRows_granularity store now p g, selectRows_granularity store now p "day".toList]
  refine ⟨?_, ?_, ?_, ?_, ?_, ?_⟩
  · rw [summarize_count, summarize_count]
  · cases selectRows store now p <;> rfl
  · cases selectRows store now p <;> rfl
  · cases selectRows store now p <;> rfl
  · rw [summarize_last, summarize_last]
  · rw [summarize_series, summarize_series]
    exact series_other g hg1 hg2 _

theorem other_granularity_is_day_witness :
    "quarter".toList ≠ "month".toList ∧ "quarter".toList ≠ "week".toList ∧
      (statsSummary scenarioStore 0 { scenarioParams with granularity := "quarter".toList }).series
        = (statsSummary scenarioStore 0 { scenarioParams with granularity := "day".toList }).series :=
  ⟨by decide, by decide,
    (other_granularity_is_day "quarter".toList (by decide) (by decide) scenarioStore 0
      scenarioParams).2.2.2.2.2⟩

/-- C14 as stated fails: for the argument `'quarter'` the `granularity` field
of the result is `'quarter'`, which is none of `'day'`, `'week'`, `'month'`. -/
theorem granularity_field_not_enumerated :
    (statsSummary [] 0 { scenarioParams with granularity := "quarter".toList }).granularity
        = "quarter".toList ∧
      (statsSummary scenarioStore 0 { scenarioParams with granularity := "quarter".toList }).granularity
        = "quarter".toList ∧
      "quarter".toList ∉ ["day".toList, "week".toList, "month".toList] := by
  refine ⟨rfl, ?_, by decide⟩
  unfold statsSummary
  rw [selectRows_granularity, scenario_rows]
  rfl

/-- C14, amended: the `granularity` field of the result of `statsSummary` is
the `granularity` argument, unchanged, also for an empty selection; so it is
one of `'day'`, `'week'`, `'month'` exactly when the argument is.  The route
`GET /api/stats` passes `'day'` for a missing or empty query parameter and
every other value as it is. -/
theorem granularity_field_is_argument (store : List Record) (now : Int) (p : Params) :
    (statsSummary store now p).granularity = p.granularity ∧
      ((statsSummary store now p).granularity ∈ ["day".toList, "week".toList, "month".toList] ↔
        p.granularity ∈ ["day".toList, "week".toList, "month".toList]) ∧
      routeGranularity none = "day".toList ∧ routeGranularity (some []) = "day".toList ∧
      ∀ (c : Char) (s : Str), routeGranularity (some (c :: s)) = c :: s := by
  have h : (statsSummary store now p).granularity = p.granularity := by
    unfold statsSummary
    cases selectRows store now p <;> rfl
  refine ⟨h, by rw [h], rfl, rfl, fun c s => rfl⟩

theorem granularity_field_is_argument_witness :
    (statsSummary scenarioStore 0 scenarioParams).granularity = "day".toList ∧
      (statsSummary scenarioStore 0 scenarioParams).granularity
        ∈ ["day".toList, "week".toList, "month".toList] :=
  ⟨(granularity_field_is_argument scenarioStore 0 scenarioParams).1,
    (granularity_field_is_argument scenarioStore 0 scenarioParams).2.1.2 (by decide)⟩

/-! ## Claims on the client range and on `listEntries` -/

theorem foldl_max_some (l : List Record) (a : Int) :
    ∃ m, l.foldl (fun acc r =>
        match acc with
        | none => some r.created_ts
        | some m => some (max m r.created_ts)) (some a) = some m ∧
      a ≤ m ∧ ∀ r ∈ l, r.created_ts ≤ m := by
  induction l generalizing a with
  | nil => exact ⟨a, rfl, le_refl a, by simp⟩
  | cons x xs ih =>
    obtain ⟨m, hm, h1, h2⟩ := ih (max a x.created_ts)
    refine ⟨m, hm, le_trans (le_max_left _ _) h1, ?_⟩
    intro r hr
    rcases List.mem_cons.1 hr with rfl | hr
    · exact le_trans (le_max_right _ _) h1
    · exact h2 r hr

/-- The `last_ts` of `getBounds` is `NULL` for an empty table and otherwise
not below any `created_ts`. -/
theorem getBounds_last_ts (store : List Record) :
    (store = [] → (getBounds store).last_ts = none) ∧
      (store ≠ [] → ∃ l, (getBounds store).last_ts = some l ∧ ∀ r ∈ store, r.created_ts ≤ l) := by
  constructor
  · intro h
    subst h
    rfl
  · intro h
    cases store with
    | nil => exact absurd rfl h
    | cons x xs =>
      obtain ⟨m, hm, h1, h2⟩ := foldl_max_some xs x.created_ts
      refine ⟨m, hm, ?_⟩
      intro r hr
      rcases List.mem_cons.1 hr with rfl | hr
      · exact h1
      · exact h2 r hr

theorem refresh_default (view : Str) (nextRange : Option Range) (m : Bounds) (now : Int)
    (hr : rangeActive nextRange = false) :
    refresh view nextRange m now =
      ({ days := 30, from_ := none, to_ := none,
         fromTs := some (max now (latestOf m now) - defaultDaysFor view * 24 * 3600 * 1000),
         toTs := some (max now (latestOf m now)),
         granularity := routeGranularity (some view) },
       { limit := 5000, from_ := none, to_ := none,
         fromTs := some (max now (latestOf m now) - defaultDaysFor view * 24 * 3600 * 1000),
         toTs := some (max now (latestOf m now)) }) := by
  unfold refresh
  simp only [hr]

theorem max_latestOf (m : Bounds) (now : Int) (hnow : 0 < now) :
    (∀ l, m.last_ts = some l → max now (latestOf m now) = max now l) ∧
      (m.last_ts = none → max now (latestOf m now) = now) := by
  unfold latestOf
  constructor
  · intro l hl
    rw [hl]
    simp only
    split
    · rfl
    · rw [max_self]
      omega
  · intro hl
    rw [hl]
    simp

/-- C15: when no custom range is active, `refresh` of the desktop and of the
mobile client send the same `fromTs` and `toTs` to the stats and to the entries
endpoint; for `now > 0` and every answer of `getMeta`, `toTs` is
`max(now, last_ts)` and `now` when there is no `last_ts` (empty table), and
`fromTs = toTs - days * 86400000` with `days = defaultDaysFor(view)` on the
desktop and 30 on the mobile client.  With the bounds of the table itself no
stored row has a `created_ts` above `toTs`. -/
theorem refresh_default_range (view : Str) (nextRange : Option Range) (m : Bounds) (now : Int)
    (hnow : 0 < now) (hr : rangeActive nextRange = false) :
    ∃ toTs : Int,
      ((refresh view nextRange m now).1.toTs = some toTs ∧
        (refresh view nextRange m now).2.toTs = some toTs ∧
        (refresh view nextRange m now).1.fromTs = some (toTs - defaultDaysFor view * 86400000) ∧
        (refresh view nextRange m now).2.fromTs = some (toTs - defaultDaysFor view * 86400000)) ∧
      ((refreshMobile m now).1.toTs = some toTs ∧
        (refreshMobile m now).2.toTs = some toTs ∧
        (refreshMobile m now).1.fromTs = some (toTs - 30 * 86400000) ∧
        (refreshMobile m now).2.fromTs = some (toTs - 30 * 86400000)) ∧
      (∀ l, m.last_ts = some l → toTs = max now l) ∧
      (m.last_ts = none → toTs = now) ∧
      (∀ store : List Record, m = getBounds store →
        (store = [] → toTs = now) ∧ ∀ r ∈ store, r.created_ts ≤ toTs) := by
  obtain ⟨h1, h2⟩ := max_latestOf m now hnow
  refine ⟨max now (latestOf m now), ⟨?_, ?_, ?_, ?_⟩, ⟨rfl, rfl, ?_, ?_⟩, h1, h2, ?_⟩
  · rw [refresh_default view nextRange m now hr]
  · rw [refresh_default view nextRange m now hr]
  · rw [refresh_default view nextRange m now hr]
    simp only
    congr 1
    omega
  · rw [refresh_default view nextRange m now hr]
    simp only
    congr 1
    omega
  · unfold refreshMobile
    simp only
    congr 1
  · unfold refreshMobile
    simp only
    congr 1
  · intro store hm
    obtain ⟨g1, g2⟩ := getBounds_last_ts store
    constructor
    · intro he
      exact h2 (hm ▸ g1 he)
    · intro r hr'
      have hne : store ≠ [] := fun e => by rw [e] at hr'; exact absurd hr' (List.not_mem_nil _)
      obtain ⟨l, hl, hmax⟩ := g2 hne
      rw [h1 l (hm ▸ hl)]
      exact le_trans (hmax r hr') (le_max_right _ _)

theorem refresh_default_range_witness :
    (0 : Int) < 1700000000000 ∧ rangeActive none = false ∧
      ∃ toTs : Int,
        ((refresh "week".toList none (getBounds scenarioStore) 1700000000000).1.toTs = some toTs ∧
          (refresh "week".toList none (getBounds scenarioStore) 1700000000000).2.toTs = some toTs ∧
          (refresh "week".toList none (getBounds scenarioStore) 1700000000000).1.fromTs
            = some (toTs - defaultDaysFor "week".toList * 86400000) ∧
          (refresh "week".toList none (getBounds scenarioStore) 1700000000000).2.fromTs
            = some (toTs - defaultDaysFor "week".toList * 86400000)) ∧
        ∀ r ∈ scenarioStore, r.created_ts ≤ toTs := by
  obtain ⟨toTs, h1, -, -, -, h5⟩ :=
    refresh_default_range "week".toList none (getBounds scenarioStore) 1700000000000
      (by decide) rfl
  exact ⟨by decide, rfl, toTs, h1, (h5 scenarioStore rfl).2⟩

/-- C16 as stated fails: for the view `'month'` `defaultDaysFor` returns
`24 * 30 = 720`, not 730. -/
theorem defaultDaysFor_month_is_not_730 :
    defaultDaysFor "month".toList = 720 ∧ defaultDaysFor "month".toList ≠ 730 := by
  decide

/-- C16, amended: `defaultDaysFor` returns 60 for the view `'day'`, 182 for
`'week'`, 720 (`24 * 30`) for `'month'`, and 60 for every other view. -/
theorem defaultDaysFor_values :
    defaultDaysFor "day".toList = 60 ∧ defaultDaysFor "week".toList = 182 ∧
      defaultDaysFor "month".toList = 720 ∧
      ∀ view : Str, view ≠ "month".toList → view ≠ "week".toList → defaultDaysFor view = 60 := by
  refine ⟨by decide, by decide, by decide, ?_⟩
  intro view h1 h2
  unfold defaultDaysFor
  rw [if_neg h1, if_neg h2]

theorem defaultDaysFor_values_witness :
    "year".toList ≠ "month".toList ∧ "year".toList ≠ "week".toList ∧
      defaultDaysFor "year".toList = 60 :=
  ⟨by decide, by decide, defaultDaysFor_values.2.2.2 "year".toList (by decide) (by decide)⟩

/-- With both `fromTs` and `toTs` given, `listEntries` selects the rows of
`statsSummary` when no date string adds a condition: each of `from`, `to` is
absent or empty, or stands beside a bound other than 0. -/
theorem listEntries_eq_selectRows (store : List Record) (now : Int) (sp : Params)
    (lp : ListParams) (a b : Int)
    (hs1 : sp.fromTs = some a) (hs2 : sp.toTs = some b)
    (hl1 : lp.fromTs = some a) (hl2 : lp.toTs = some b)
    (hf : truthy lp.from_ = false ∨ a ≠ 0) (ht : truthy lp.to_ = false ∨ b ≠ 0)
    (hlim : lp.limit = 0 ∨ ((selectRows store now sp).length : Int) ≤ lp.limit) :
    listEntries store lp = selectRows store now sp := by
  have hw : listWhere lp = whereClause now sp := by
    funext r
    unfold listWhere whereClause
    rw [hs1, hs2, hl1, hl2]
    have e1 : (truthy lp.from_ && !truthyNum (some a)) = false := by
      rcases hf with h | h
      · rw [h]; rfl
      · simp [truthyNum, h]
    have e2 : (truthy lp.to_ && !truthyNum (some b)) = false := by
      rcases ht with h | h
      · rw [h]; rfl
      · simp [truthyNum, h]
    simp [e1, e2]
  have hrows : orderByCreatedTs (store.filter (listWhere lp)) = selectRows store now sp := by
    unfold selectRows
    rw [hw]
  unfold listEntries
  simp only
  rw [hrows]
  split
  · rename_i hne
    have hle := hlim.resolve_left hne
    unfold sqlLimit
    rw [if_neg (by omega)]
    exact List.take_of_length_le (by omega)
  · rfl

/-- C19, the code at a request with `fromTs = 0` and a date string `from`: on
the scenario table `listEntries` adds the condition `created_at >= from`,
because `!fromTs` holds for 0, and returns no row, while `statsSummary`, which
tests `fromTs != null`, aggregates all three rows. -/
theorem listEntries_differs_at_fromTs_zero :
    listEntries scenarioStore
        { limit := 500, from_ := some "2024-01-01".toList, to_ := none, fromTs := some 0,
          toTs := some 1700092800000 } = [] ∧
      selectRows scenarioStore 0
        { days := 30, from_ := some "2024-01-01".toList, to_ := none, fromTs := some 0,
          toTs := some 1700092800000, granularity := "day".toList } = scenarioStore ∧
      (statsSummary scenarioStore 0
        { days := 30, from_ := some "2024-01-01".toList, to_ := none, fromTs := some 0,
          toTs := some 1700092800000, granularity := "day".toList }).count = 3 ∧
      listEntries scenarioStore
        { limit := 500, from_ := none, to_ := none, fromTs := some 0,
          toTs := some 1700092800000 } = scenarioStore := by
  decide

/-! ## Claims on `POST /api/entries` -/

/-- The handler on a score that is a number: the guard on the score. -/
theorem postEntries_num (strNum : Str → Option ℚ) (trim : Str → Str) (nextId now : Int)
    (q : ℚ) (note c : JsVal) :
    postEntries strNum trim nextId now (JsVal.num (some q)) note c =
      if q.den = 1 ∧ -10 ≤ q ∧ q ≤ 10 then
        (if notNullish c then
          match toNumber strNum c with
          | none => Response.badRequest
          | some t =>
            match insertEntry strNum nextId now q
                (match note with
                  | JsVal.str s => some (trim s)
                  | _ => none) (JsVal.num (some t)) with
            | some row => Response.created row
            | none => Response.serverError
        else
          match insertEntry strNum nextId now q
              (match note with
                | JsVal.str s => some (trim s)
                | _ => none) JsVal.undefined with
          | some row => Response.created row
          | none => Response.serverError)
      else Response.badRequest := by
  unfold postEntries
  simp only [toNumber]
  by_cases hG : q.den = 1 ∧ -10 ≤ q ∧ q ≤ 10
  · have hb : (!isInteger (some q) || decide (q < -10) || decide (q > 10)) = false := by
      unfold isInteger
      simp [hG.1, not_lt.2 hG.2.1, not_lt.2 hG.2.2]
    rw [hb, if_pos hG]
    simp only [Bool.false_eq_true, if_false]
  · have hb : (!isInteger (some q) || decide (q < -10) || decide (q > 10)) = true := by
      unfold isInteger
      have : q.den ≠ 1 ∨ q < -10 ∨ q > 10 := by
        by_contra hc
        push_neg at hc
        exact hG ⟨hc.1, hc.2.1, hc.2.2⟩
      rcases this with h | h | h <;> simp [h]
    rw [hb, if_neg hG]
    simp only [if_true]

theorem insertEntry_some (strNum : Str → Option ℚ) (nextId now : Int) (q : ℚ) (note : Option Str)
    (c : JsVal) (ts : ℚ)
    (hts : (match notNullish c, toNumber strNum c with
      | true, some t => t
      | _, _ => (now : ℚ)) = ts)
    (hq : -10 ≤ q ∧ q ≤ 10) (hb : |ts| ≤ 8640000000000000) :
    ∃ row, insertEntry strNum nextId now q note c = some row ∧ row.id = nextId ∧
      row.created_ts = ts ∧ row.score = q ∧ row.note = note := by
  unfold insertEntry
  simp only [hts, TimeClip, if_neg (not_lt.2 hb), if_pos hq]
  exact ⟨_, rfl, rfl, rfl, rfl, rfl⟩

theorem insertEntry_none (strNum : Str → Option ℚ) (nextId now : Int) (q : ℚ) (note : Option Str)
    (c : JsVal) (ts : ℚ)
    (hts : (match notNullish c, toNumber strNum c with
      | true, some t => t
      | _, _ => (now : ℚ)) = ts)
    (hb : 8640000000000000 < |ts|) :
    insertEntry strNum nextId now q note c = none := by
  unfold insertEntry
  simp only [hts, TimeClip, if_pos hb]

/-- Every row that the handler inserts has an integer score from -10 to 10. -/
theorem postEntries_created_score (strNum : Str → Option ℚ) (trim : Str → Str) (nextId now : Int)
    (score note c : JsVal) (row : NewRow)
    (h : postEntries strNum trim nextId now score note c = Response.created row) :
    ∃ n : Int, row.score = (n : ℚ) ∧ -10 ≤ n ∧ n ≤ 10 ∧ toNumber strNum score = some (n : ℚ) := by
  unfold postEntries at h
  simp only at h
  cases hn : toNumber strNum score with
  | none => rw [hn] at h; simp at h
  | some q =>
    rw [hn] at h
    simp only [isInteger] at h
    by_cases hg : (!decide (q.den = 1) || decide (q < -10) || decide (q > 10)) = true
    · rw [if_pos hg] at h
      exact absurd h (by simp)
    · rw [if_neg hg] at h
      simp only [Bool.or_eq_true, Bool.not_eq_true', decide_eq_false_iff_not, decide_eq_true_eq,
        not_or, not_not, not_lt] at hg
      obtain ⟨⟨hden, hlo⟩, hhi⟩ := hg
      have hq : ((q.num : Int) : ℚ) = q := Rat.coe_int_num_of_den_eq_one hden
      have hscore : row.score = q := by
        have key : ∀ (note' : Option Str) (c' : JsVal) (r : NewRow),
            insertEntry strNum nextId now q note' c' = some r → r.score = q := by
          intro note' c' r hr
          unfold insertEntry at hr
          simp only at hr
          split at hr
          · exact absurd hr (by simp)
          · split at hr
            · have := Option.some.inj hr
              rw [← this]
            · exact absurd hr (by simp)
        split at h
        · split at h
          · exact absurd h (by simp)
          · split at h
            · rename_i r hr
              have e : r = row := by injection h
              rw [← e]
              exact key _ _ r hr
            · exact absurd h (by simp)
        · split at h
          · rename_i r hr
            have e : r = row := by injection h
            rw [← e]
            exact key _ _ r hr
          · exact absurd h (by simp)
      refine ⟨q.num, by rw [hscore, hq], ?_, ?_, by rw [hq]⟩
      · have : ((-10 : Int) : ℚ) ≤ ((q.num : Int) : ℚ) := by rw [hq]; exact_mod_cast hlo
        exact_mod_cast this
      · have : ((q.num : Int) : ℚ) ≤ ((10 : Int) : ℚ) := by rw [hq]; exact_mod_cast hhi
        exact_mod_cast this

/-- C17 as stated fails: a body with `score: 5` and `createdTs: 1.5` is
answered with 201 and the row stored has `created_ts = 1.5`, which is not an
integer (here with no string conversions, `trim` the identity, row id 1 and
`Date.now() = 1700000000000`). -/
theorem post_stores_fractional_createdTs :
    ∃ row, postEntries (fun _ => none) id 1 1700000000000 (JsVal.num (some 5)) JsVal.undefined
        (JsVal.num (some (3 / 2))) = Response.created row ∧
      row.created_ts = 3 / 2 ∧ row.score = 5 ∧ isInteger (some row.created_ts) = false := by
  obtain ⟨row, hrow, -, hts, hs, -⟩ := insertEntry_some (fun _ => none) 1 1700000000000 5 none
    (JsVal.num (some (3 / 2))) (3 / 2) rfl (by norm_num) (by rw [abs_of_nonneg] <;> norm_num)
  refine ⟨row, ?_, hts, hs, ?_⟩
  · rw [postEntries_num, if_pos (by norm_num)]
    simp only [notNullish, toNumber, if_true]
    rw [hrow]
  · rw [hts]
    unfold isInteger
    norm_num

/-- C17, amended: on a body whose `score` is a number or missing and whose
`createdTs` is a number, null or missing, the handler answers 400 and inserts
nothing when the score is missing, when it is not an integer from -10 to 10,
and when `createdTs` is a number that is not finite.  Otherwise it inserts a
row with exactly that score and with `created_ts` equal to `createdTs`, or to
`Date.now()` when `createdTs` is null or missing; `createdTs` may be any finite
number up to 8.64e15 in absolute value, integer or not, and beyond that the
answer is 500 and nothing is inserted.  Every row the handler inserts, for
every body, has an integer score from -10 to 10 (and a finite `created_ts`,
which the type of the row says). -/
theorem post_entries_validation (strNum : Str → Option ℚ) (trim : Str → Str)
    (nextId now : Int) (hnow : |(now : ℚ)| ≤ 8640000000000000) :
    (∀ note c, postEntries strNum trim nextId now JsVal.undefined note c = Response.badRequest) ∧
    (∀ (x : Option ℚ) note c, (∀ n : Int, -10 ≤ n → n ≤ 10 → x ≠ some (n : ℚ)) →
      postEntries strNum trim nextId now (JsVal.num x) note c = Response.badRequest) ∧
    (∀ (n : Int) note, -10 ≤ n → n ≤ 10 →
      postEntries strNum trim nextId now (JsVal.num (some (n : ℚ))) note (JsVal.num none)
        = Response.badRequest) ∧
    (∀ (n : Int) note c, -10 ≤ n → n ≤ 10 → c = JsVal.undefined ∨ c = JsVal.null →
      ∃ row, postEntries strNum trim nextId now (JsVal.num (some (n : ℚ))) note c
          = Response.created row ∧
        row.score = (n : ℚ) ∧ row.created_ts = (now : ℚ) ∧ row.id = nextId) ∧
    (∀ (n : Int) note (t : ℚ), -10 ≤ n → n ≤ 10 → |t| ≤ 8640000000000000 →
      ∃ row, postEntries strNum trim nextId now (JsVal.num (some (n : ℚ))) note
          (JsVal.num (some t)) = Response.created row ∧
        row.score = (n : ℚ) ∧ row.created_ts = t ∧ row.id = nextId) ∧
    (∀ (n : Int) note (t : ℚ), -10 ≤ n → n ≤ 10 → 8640000000000000 < |t| →
      postEntries strNum trim nextId now (JsVal.num (some (n : ℚ))) note (JsVal.num (some t))
        = Response.serverError) ∧
    (∀ score note c row,
      postEntries strNum trim nextId now score note c = Response.created row →
      ∃ n : Int, row.score = (n : ℚ) ∧ -10 ≤ n ∧ n ≤ 10) := by
  have hguard : ∀ n : Int, -10 ≤ n → n ≤ 10 →
      ((n : ℚ).den = 1 ∧ (-10 : ℚ) ≤ (n : ℚ) ∧ (n : ℚ) ≤ 10) := by
    intro n h1 h2
    refine ⟨Rat.den_intCast n, ?_, ?_⟩
    · exact_mod_cast h1
    · exact_mod_cast h2
  refine ⟨?_, ?_, ?_, ?_, ?_, ?_, ?_⟩
  · intro note c
    rfl
  · intro x note c hx
    cases x with
    | none => rfl
    | some q =>
      rw [postEntries_num, if_neg]
      rintro ⟨hden, hlo, hhi⟩
      have hq : ((q.num : Int) : ℚ) = q := Rat.coe_int_num_of_den_eq_one hden
      apply hx q.num
      · have : ((-10 : Int) : ℚ) ≤ ((q.num : Int) : ℚ) := by rw [hq]; exact_mod_cast hlo
        exact_mod_cast this
      · have : ((q.num : Int) : ℚ) ≤ ((10 : Int) : ℚ) := by rw [hq]; exact_mod_cast hhi
        exact_mod_cast this
      · rw [hq]
  · intro n note h1 h2
    rw [postEntries_num, if_pos (hguard n h1 h2)]
    rfl
  · intro n note c h1 h2 hc
    have hg := hguard n h1 h2
    rw [postEntries_num, if_pos hg]
    have hnn : notNullish c = false := by
      rcases hc with rfl | rfl <;> rfl
    rw [hnn]
    simp only [Bool.false_eq_true, if_false]
    obtain ⟨row, hrow, hid, hts, hs, -⟩ := insertEntry_some strNum nextId now (n : ℚ)
      (match note with
        | JsVal.str s => some (trim s)
        | _ => none) JsVal.undefined (now : ℚ) rfl hg.2 hnow
    rw [hrow]
    exact ⟨row, rfl, hs, hts, hid⟩
  · intro n note t h1 h2 ht
    have hg := hguard n h1 h2
    rw [postEntries_num, if_pos hg]
    simp only [notNullish, toNumber, if_true]
    obtain ⟨row, hrow, hid, hts, hs, -⟩ := insertEntry_some strNum nextId now (n : ℚ)
      (match note with
        | JsVal.str s => some (trim s)
        | _ => none) (JsVal.num (some t)) t rfl hg.2 ht
    rw [hrow]
    exact ⟨row, rfl, hs, hts, hid⟩
  · intro n note t h1 h2 ht
    have hg := hguard n h1 h2
    rw [postEntries_num, if_pos hg]
    simp only [notNullish, toNumber, if_true]
    rw [insertEntry_none strNum nextId now (n : ℚ) _ (JsVal.num (some t)) t rfl ht]
  · intro score note c row h
    obtain ⟨n, h1, h2, h3, -⟩ := postEntries_created_score strNum trim nextId now score note c row h
    exact ⟨n, h1, h2, h3⟩

theorem post_entries_validation_witness :
    |((1700000000000 : Int) : ℚ)| ≤ 8640000000000000 ∧ (-10 : Int) ≤ 5 ∧ (5 : Int) ≤ 10 ∧
      |(1700006400000 : ℚ)| ≤ 8640000000000000 ∧
      ∃ row, postEntries (fun _ => none) id 1 1700000000000 (JsVal.num (some ((5 : Int) : ℚ)))
          JsVal.undefined (JsVal.num (some 1700006400000)) = Response.created row ∧
        row.score = ((5 : Int) : ℚ) ∧ row.created_ts = 1700006400000 ∧ row.id = 1 :=
  ⟨by rw [abs_of_nonneg] <;> norm_num, by decide, by decide,
    by rw [abs_of_nonneg] <;> norm_num,
    (post_entries_validation (fun _ => none) id 1 1700000000000
      (by rw [abs_of_nonneg] <;> norm_num)).2.2.2.2.1 5 JsVal.undefined 1700006400000
      (by decide) (by decide) (by rw [abs_of_nonneg] <;> norm_num)⟩

theorem postEntries_congr (strNum : Str → Option ℚ) (trim : Str → Str) (nextId now : Int)
    (s1 s2 note c : JsVal) (h : toNumber strNum s1 = toNumber strNum s2) :
    postEntries strNum trim nextId now s1 note c = postEntries strNum trim nextId now s2 note c := by
  unfold postEntries
  simp only
  rw [h]

/-- A body with `score: null` is not answered with 400: `Number(null)` is 0,
and the handler inserts a row with score 0. -/
theorem post_accepts_null_score :
    ∃ row, postEntries (fun _ => none) id 1 1700000000000 JsVal.null JsVal.undefined
        JsVal.undefined = Response.created row ∧ row.score = 0 := by
  obtain ⟨row, hrow, -, -, hs, -⟩ := insertEntry_some (fun _ => none) 1 1700000000000 0 none
    JsVal.undefined ((1700000000000 : Int) : ℚ) rfl (by norm_num)
    (by rw [abs_of_nonneg] <;> norm_num)
  refine ⟨row, ?_, hs⟩
  rw [postEntries_congr _ _ _ _ JsVal.null (JsVal.num (some 0)) _ _ rfl, postEntries_num,
    if_pos (by norm_num)]
  simp only [notNullish, Bool.false_eq_true, if_false]
  rw [hrow]

/-! ## Order of bucket starts and of bucket keys -/

theorem YearFromDay_mono (d1 d2 : Int) (h : d1 ≤ d2) : YearFromDay d1 ≤ YearFromDay d2 := by
  by_contra hc
  have s1 := YearFromDay_spec d1
  have s2 := YearFromDay_spec d2
  have : DayFromYear (YearFromDay d2 + 1) ≤ DayFromYear (YearFromDay d1) := by
    rcases eq_or_lt_of_le (show YearFromDay d2 + 1 ≤ YearFromDay d1 by omega) with e | e
    · rw [e]
    · have := DayFromYear_lt _ _ e; omega
  omega

theorem monthOfDay_mono (l d1 d2 : Int) (hl : l = 0 ∨ l = 1) (h : d1 ≤ d2) :
    monthOfDay l d1 ≤ monthOfDay l d2 := by
  refine monthOfDay_cases l d1 (fun m => m ≤ monthOfDay l d2) ?_ ?_ ?_ ?_ ?_ ?_ ?_ ?_ ?_ ?_ ?_ ?_
  · intros
    refine monthOfDay_cases l d2 (fun m => 0 ≤ m) ?_ ?_ ?_ ?_ ?_ ?_ ?_ ?_ ?_ ?_ ?_ ?_ <;>
      intros <;> omega
  · intros
    refine monthOfDay_cases l d2 (fun m => 1 ≤ m) ?_ ?_ ?_ ?_ ?_ ?_ ?_ ?_ ?_ ?_ ?_ ?_ <;>
      intros <;> omega
  · intros
    refine monthOfDay_cases l d2 (fun m => 2 ≤ m) ?_ ?_ ?_ ?_ ?_ ?_ ?_ ?_ ?_ ?_ ?_ ?_ <;>
      intros <;> omega
  · intros
    refine monthOfDay_cases l d2 (fun m => 3 ≤ m) ?_ ?_ ?_ ?_ ?_ ?_ ?_ ?_ ?_ ?_ ?_ ?_ <;>
      intros <;> omega
  · intros
    refine monthOfDay_cases l d2 (fun m => 4 ≤ m) ?_ ?_ ?_ ?_ ?_ ?_ ?_ ?_ ?_ ?_ ?_ ?_ <;>
      intros <;> omega
  · intros
    refine monthOfDay_cases l d2 (fun m => 5 ≤ m) ?_ ?_ ?_ ?_ ?_ ?_ ?_ ?_ ?_ ?_ ?_ ?_ <;>
      intros <;> omega
  · intros
    refine monthOfDay_cases l d2 (fun m => 6 ≤ m) ?_ ?_ ?_ ?_ ?_ ?_ ?_ ?_ ?_ ?_ ?_ ?_ <;>
      intros <;> omega
  · intros
    refine monthOfDay_cases l d2 (fun m => 7 ≤ m) ?_ ?_ ?_ ?_ ?_ ?_ ?_ ?_ ?_ ?_ ?_ ?_ <;>
      intros <;> omega
  · intros
    refine monthOfDay_cases l d2 (fun m => 8 ≤ m) ?_ ?_ ?_ ?_ ?_ ?_ ?_ ?_ ?_ ?_ ?_ ?_ <;>
      intros <;> omega
  · intros
    refine monthOfDay_cases l d2 (fun m => 9 ≤ m) ?_ ?_ ?_ ?_ ?_ ?_ ?_ ?_ ?_ ?_ ?_ ?_ <;>
      intros <;> omega
  · intros
    refine monthOfDay_cases l d2 (fun m => 10 ≤ m) ?_ ?_ ?_ ?_ ?_ ?_ ?_ ?_ ?_ ?_ ?_ ?_ <;>
      intros <;> omega
  · intros
    refine monthOfDay_cases l d2 (fun m => 11 ≤ m) ?_ ?_ ?_ ?_ ?_ ?_ ?_ ?_ ?_ ?_ ?_ ?_ <;>
      intros <;> omega

/-- Year, month and date of two timestamps with `Day t1 ≤ Day t2` are in
lexicographic order, and so are the first days of their months. -/
theorem calendar_mono (t1 t2 : Int) (h : Day t1 ≤ Day t2) :
    (YearFromTime t1 < YearFromTime t2 ∨
      (YearFromTime t1 = YearFromTime t2 ∧
        (MonthFromTime t1 < MonthFromTime t2 ∨
          (MonthFromTime t1 = MonthFromTime t2 ∧ DateFromTime t1 ≤ DateFromTime t2)))) ∧
      Day t1 - DateFromTime t1 + 1 ≤ Day t2 - DateFromTime t2 + 1 := by
  have hy := YearFromDay_mono _ _ h
  obtain ⟨a1, b1, c1⟩ := firstOfMonth_facts t1
  obtain ⟨a2, b2, c2⟩ := firstOfMonth_facts t2
  have s1 := YearFromDay_spec (Day t1)
  have s2 := YearFromDay_spec (Day t2)
  have f2 := YearFromDay_spec (Day t2 - DateFromTime t2 + 1)
  rw [a2] at f2
  rcases lt_or_eq_of_le hy with hlt | heq
  · refine ⟨Or.inl hlt, ?_⟩
    have : DayFromYear (YearFromDay (Day t1) + 1) ≤ DayFromYear (YearFromDay (Day t2)) := by
      rcases eq_or_lt_of_le (show YearFromDay (Day t1) + 1 ≤ YearFromDay (Day t2) by omega)
        with e | e
      · rw [e]
      · have := DayFromYear_lt _ _ e; omega
    unfold YearFromTime at f2
    omega
  · have hY : YearFromTime t1 = YearFromTime t2 := heq
    have hL : InLeapYear t1 = InLeapYear t2 := by
      unfold InLeapYear
      rw [hY]
    have hW : DayWithinYear t1 ≤ DayWithinYear t2 := by
      unfold DayWithinYear
      rw [hY]
      omega
    have hM : MonthFromTime t1 ≤ MonthFromTime t2 := by
      unfold MonthFromTime
      rw [hL]
      exact monthOfDay_mono _ _ _ (InLeapYear_cases t2) hW
    rcases lt_or_eq_of_le hM with mlt | meq
    · refine ⟨Or.inr ⟨hY, Or.inl mlt⟩, ?_⟩
      have hm2 := MonthFromTime_bounds t2
      have hlt : DayWithinYear t1 < monthStart (InLeapYear t2) (MonthFromTime t2) := by
        by_contra hc
        have hmono := monthOfDay_mono (InLeapYear t2) _ _ (InLeapYear_cases t2) (not_lt.1 hc)
        rw [monthOfDay_monthStart _ _ (InLeapYear_cases t2) hm2.1 hm2.2] at hmono
        have : monthOfDay (InLeapYear t2) (DayWithinYear t1) = MonthFromTime t1 := by
          unfold MonthFromTime
          rw [hL]
        omega
      unfold DayWithinYear at hlt
      rw [hY] at hlt
      omega
    · have hD : DateFromTime t1 ≤ DateFromTime t2 := by
        unfold DateFromTime
        rw [hL, meq]
        omega
      refine ⟨Or.inr ⟨hY, Or.inr ⟨meq, hD⟩⟩, ?_⟩
      rw [hL, meq, hY] at b1
      omega

/-- The start of the calendar bucket does not decrease with the timestamp. -/
theorem bucketStart_mono (g : Str) (t1 t2 : Int) (h : t1 ≤ t2) :
    bucketStart g t1 ≤ bucketStart g t2 := by
  have hD : Day t1 ≤ Day t2 := by
    unfold Day msPerDay
    omega
  unfold bucketStart
  by_cases hm : g = "month".toList
  · simp only [if_pos hm]
    have := (calendar_mono t1 t2 hD).2
    unfold msPerDay
    omega
  · simp only [if_neg hm]
    by_cases hw : g = "week".toList
    · simp only [if_pos hw]
      unfold msPerDay
      omega
    · simp only [if_neg hw]
      unfold msPerDay
      omega

theorem digitChar_lt : ∀ j < 10, ∀ k < 10, j < k → digitChar j < digitChar k := by decide

theorem lex_two (a b : Nat) (hab : a < b) (hb : b < 100) (x y : Str) :
    padStart 2 (natString a) ++ x < padStart 2 (natString b) ++ y := by
  rw [padStart_two a (by omega), padStart_two b hb]
  show List.Lex (· < ·) _ _
  simp only [List.cons_append, List.nil_append]
  by_cases h1 : a / 10 < b / 10
  · exact List.Lex.rel (digitChar_lt _ (by omega) _ (by omega) h1)
  · have e : a / 10 = b / 10 := by omega
    rw [e]
    exact List.Lex.cons (List.Lex.rel (digitChar_lt _ (by omega) _ (by omega) (by omega)))

theorem lex_four (a b : Nat) (ha : 1000 ≤ a) (hab : a < b) (hb : b < 10000) (x y : Str) :
    natString a ++ x < natString b ++ y := by
  rw [natString_four a ha (by omega), natString_four b (by omega) hb]
  show List.Lex (· < ·) _ _
  simp only [List.cons_append, List.nil_append]
  by_cases h1 : a / 1000 < b / 1000
  · exact List.Lex.rel (digitChar_lt _ (by omega) _ (by omega) h1)
  · have e1 : a / 1000 = b / 1000 := by omega
    rw [e1]
    refine List.Lex.cons ?_
    by_cases h2 : a / 100 % 10 < b / 100 % 10
    · exact List.Lex.rel (digitChar_lt _ (by omega) _ (by omega) h2)
    · have e2 : a / 100 % 10 = b / 100 % 10 := by omega
      rw [e2]
      refine List.Lex.cons ?_
      by_cases h3 : a / 10 % 10 < b / 10 % 10
      · exact List.Lex.rel (digitChar_lt _ (by omega) _ (by omega) h3)
      · have e3 : a / 10 % 10 = b / 10 % 10 := by omega
        rw [e3]
        exact List.Lex.cons (List.Lex.rel (digitChar_lt _ (by omega) _ (by omega) (by omega)))

theorem lex_append_left (s x y : Str) (h : x < y) : s ++ x < s ++ y :=
  List.Lex.append_left _ h s

theorem lex_cons (c : Char) (x y : Str) (h : x < y) : c :: x < c :: y :=
  List.Lex.cons h

theorem lex_two_nil (a b : Nat) (hab : a < b) (hb : b < 100) :
    padStart 2 (natString a) < padStart 2 (natString b) := by
  have := lex_two a b hab hb [] []
  simpa using this

/-- The day key does not decrease, in the order of strings, with the
timestamp (years 1970 to 9999). -/
theorem dayKey_mono (t1 t2 : Int)
    (h1 : 1970 ≤ getUTCFullYear t1 ∧ getUTCFullYear t1 ≤ 9999)
    (h2 : 1970 ≤ getUTCFullYear t2 ∧ getUTCFullYear t2 ≤ 9999) (h : Day t1 ≤ Day t2) :
    (toISOString (DateUTC (getUTCFullYear t1) (getUTCMonth t1) (getUTCDate t1))).take 10
        = (toISOString (DateUTC (getUTCFullYear t2) (getUTCMonth t2) (getUTCDate t2))).take 10 ∨
      (toISOString (DateUTC (getUTCFullYear t1) (getUTCMonth t1) (getUTCDate t1))).take 10
        < (toISOString (DateUTC (getUTCFullYear t2) (getUTCMonth t2) (getUTCDate t2))).take 10 := by
  rw [dayKey_eq t1 h1.1 h1.2, dayKey_eq t2 h2.1 h2.2]
  have hm1 := MonthFromTime_bounds t1
  have hm2 := MonthFromTime_bounds t2
  have hd1 := DateFromTime_bounds t1
  have hd2 := DateFromTime_bounds t2
  unfold getUTCFullYear at h1 h2
  rcases (calendar_mono t1 t2 h).1 with hy | ⟨hy, hm | ⟨hm, hd⟩⟩
  · exact Or.inr (lex_four _ _ (by omega) (by omega) (by omega) _ _)
  · rw [hy]
    refine Or.inr (lex_append_left _ _ _ (lex_cons _ _ _ ?_))
    exact lex_two _ _ (by omega) (by omega) _ _
  · rw [hy, hm]
    rcases lt_or_eq_of_le hd with hlt | heq
    · refine Or.inr (lex_append_left _ _ _ (lex_cons _ _ _ (lex_append_left _ _ _
        (lex_cons _ _ _ ?_))))
      exact lex_two_nil _ _ (by omega) (by omega)
    · rw [heq]
      exact Or.inl rfl

/-- The month key does not decrease with the timestamp (years 1970 to
9999). -/
theorem monthKey_mono (t1 t2 : Int)
    (h1 : 1970 ≤ getUTCFullYear t1 ∧ getUTCFullYear t1 ≤ 9999)
    (h2 : 1970 ≤ getUTCFullYear t2 ∧ getUTCFullYear t2 ≤ 9999) (h : Day t1 ≤ Day t2) :
    monthKey t1 = monthKey t2 ∨ monthKey t1 < monthKey t2 := by
  have hm1 := MonthFromTime_bounds t1
  have hm2 := MonthFromTime_bounds t2
  unfold monthKey
  simp only
  unfold getUTCFullYear getUTCMonth at *
  rw [jsString_nonneg _ (by omega : 0 ≤ YearFromTime t1),
    jsString_nonneg _ (by omega : 0 ≤ YearFromTime t2),
    jsString_nonneg _ (by omega : 0 ≤ MonthFromTime t1 + 1),
    jsString_nonneg _ (by omega : 0 ≤ MonthFromTime t2 + 1)]
  rcases (calendar_mono t1 t2 h).1 with hy | ⟨hy, hm | ⟨hm, -⟩⟩
  · exact Or.inr (lex_four _ _ (by omega) (by omega) (by omega) _ _)
  · rw [hy]
    exact Or.inr (lex_append_left _ _ _ (lex_cons _ _ _ (lex_two_nil _ _ (by omega) (by omega))))
  · rw [hy, hm]
    exact Or.inl rfl

/-- The week key does not decrease with the timestamp (years 1970 to 9999),
also from week 52 or 53 of one ISO week-year to week 1 of the next. -/
theorem isoWeekKey_mono (t1 t2 : Int)
    (h1 : 1970 ≤ getUTCFullYear t1 ∧ getUTCFullYear t1 ≤ 9999)
    (h2 : 1970 ≤ getUTCFullYear t2 ∧ getUTCFullYear t2 ≤ 9999) (h : Day t1 ≤ Day t2) :
    isoWeekKey t1 = isoWeekKey t2 ∨ isoWeekKey t1 < isoWeekKey t2 := by
  have hD1 := Day_of_range t1 h1.1 h1.2
  have hD2 := Day_of_range t2 h2.1 h2.2
  have hT1 := YearFromDay_of_range (Day t1 - (Day t1 + 3) % 7 + 3) (by omega) (by omega)
  have hT2 := YearFromDay_of_range (Day t2 - (Day t2 + 3) % 7 + 3) (by omega) (by omega)
  have s1 := YearFromDay_spec (Day t1 - (Day t1 + 3) % 7 + 3)
  have s2 := YearFromDay_spec (Day t2 - (Day t2 + 3) % 7 + 3)
  have hTh : Day t1 - (Day t1 + 3) % 7 + 3 ≤ Day t2 - (Day t2 + 3) % 7 + 3 := by omega
  have hy := YearFromDay_mono _ _ hTh
  rw [isoWeekKey_eq t1 (by unfold getUTCFullYear at h1; omega) (by omega),
    isoWeekKey_eq t2 (by unfold getUTCFullYear at h2; omega) (by omega)]
  generalize Day t1 - (Day t1 + 3) % 7 + 3 = A at hT1 s1 hTh hy ⊢
  generalize Day t2 - (Day t2 + 3) % 7 + 3 = B at hT2 s2 hTh hy ⊢
  generalize hY1 : YearFromDay A = Y1 at hT1 s1 hy ⊢
  generalize hY2 : YearFromDay B = Y2 at hT2 s2 hy ⊢
  have c1 := DayFromYear_succ Y1
  have c2 := DayFromYear_succ Y2
  have e1 := DaysInYear_cases Y1
  have e2 := DaysInYear_cases Y2
  have w1 : 0 ≤ 1 + (A - (DayFromYear Y1 + 6 - (DayFromYear Y1 + 6) % 7)) / 7 := by omega
  have w2 : 0 ≤ 1 + (B - (DayFromYear Y2 + 6 - (DayFromYear Y2 + 6) % 7)) / 7 := by omega
  rw [jsString_nonneg Y1 (by omega), jsString_nonneg Y2 (by omega), jsString_nonneg _ w1,
    jsString_nonneg _ w2]
  rcases lt_or_eq_of_le hy with hlt | heq
  · exact Or.inr (lex_four _ _ (by omega) (by omega) (by omega) _ _)
  · subst heq
    rcases lt_or_eq_of_le (show (1 + (A - (DayFromYear Y1 + 6 - (DayFromYear Y1 + 6) % 7)) / 7).toNat
        ≤ (1 + (B - (DayFromYear Y1 + 6 - (DayFromYear Y1 + 6) % 7)) / 7).toNat by omega)
      with hw | hw
    · exact Or.inr (lex_append_left _ _ _ (lex_cons _ _ _ (lex_cons _ _ _
        (lex_two_nil _ _ hw (by omega)))))
    · rw [hw]
      exact Or.inl rfl

/-- The bucket key does not decrease, in the order of strings, with the
timestamp, for every granularity (years 1970 to 9999). -/
theorem bucketKey_mono (g : Str) (t1 t2 : Int)
    (h1 : 1970 ≤ getUTCFullYear t1 ∧ getUTCFullYear t1 ≤ 9999)
    (h2 : 1970 ≤ getUTCFullYear t2 ∧ getUTCFullYear t2 ≤ 9999) (h : t1 ≤ t2) :
    bucketKey g t1 ≤ bucketKey g t2 := by
  have hD : Day t1 ≤ Day t2 := by
    unfold Day msPerDay
    omega
  have key : bucketKey g t1 = bucketKey g t2 ∨ bucketKey g t1 < bucketKey g t2 := by
    unfold bucketKey
    simp only
    by_cases hm : g = "month".toList
    · simp only [if_pos hm]
      exact monthKey_mono t1 t2 h1 h2 hD
    · simp only [if_neg hm]
      by_cases hw : g = "week".toList
      · simp only [if_pos hw]
        exact isoWeekKey_mono t1 t2 h1 h2 hD
      · simp only [if_neg hw]
        exact dayKey_mono t1 t2 h1 h2 hD
  rcases key with e | e
  · exact le_of_eq e
  · exact le_of_lt e

theorem series_entry_ts (g : Str) (rows : List Record)
    (hr : ∀ r ∈ rows, 1970 ≤ getUTCFullYear r.created_ts ∧ getUTCFullYear r.created_ts ≤ 9999)
    (e : Bucket) (he : e ∈ series g rows) (r : Record) (hrow : r ∈ rows)
    (hk : bucketKey g r.created_ts = e.key) : e.ts = some (bucketStart g r.created_ts) := by
  obtain ⟨-, heq⟩ := mem_series g rows e he
  have : e.ts = bucketTs g e.key := by
    conv_lhs => rw [heq]
    rfl
  rw [this, ← hk]
  exact bucketTs_bucketKey g _ (hr r hrow).1 (hr r hrow).2

/-- For rows of the years 1970 to 9999 the series, sorted by `ts`, is also in
the order of its keys and in the order of the rows in time. -/
theorem series_order (g : Str) (rows : List Record)
    (hr : ∀ r ∈ rows, 1970 ≤ getUTCFullYear r.created_ts ∧ getUTCFullYear r.created_ts ≤ 9999) :
    (series g rows).Pairwise (fun a b => a.key < b.key ∧
      ∀ r1 ∈ rows, ∀ r2 ∈ rows, bucketKey g r1.created_ts = a.key →
        bucketKey g r2.created_ts = b.key → r1.created_ts < r2.created_ts) := by
  refine List.Pairwise.imp_of_mem ?_ (series_strict g rows hr)
  intro a b ha hb ⟨x, y, hx, hy, hlt⟩
  have hrows : ∀ r1 ∈ rows, ∀ r2 ∈ rows, bucketKey g r1.created_ts = a.key →
      bucketKey g r2.created_ts = b.key → r1.created_ts < r2.created_ts := by
    intro r1 hr1 r2 hr2 k1 k2
    have e1 := series_entry_ts g rows hr a ha r1 hr1 k1
    have e2 := series_entry_ts g rows hr b hb r2 hr2 k2
    rw [hx] at e1
    rw [hy] at e2
    have e1' := Option.some.inj e1
    have e2' := Option.some.inj e2
    by_contra hc
    have := bucketStart_mono g _ _ (not_lt.1 hc)
    omega
  refine ⟨?_, hrows⟩
  obtain ⟨⟨r1, hr1, k1⟩, -⟩ := mem_series g rows a ha
  obtain ⟨⟨r2, hr2, k2⟩, -⟩ := mem_series g rows b hb
  have hts := hrows r1 hr1 r2 hr2 k1 k2
  have hle := bucketKey_mono g _ _ (hr r1 hr1) (hr r2 hr2) (le_of_lt hts)
  rw [k1, k2] at hle
  refine lt_of_le_of_ne hle ?_
  intro e
  rw [e] at k1
  have e1 := series_entry_ts g rows hr a ha r1 hr1 (k1.trans e.symm)
  have e2 := series_entry_ts g rows hr b hb r1 hr1 k1
  rw [hx] at e1
  rw [hy] at e2
  have := Option.some.inj e1
  have := Option.some.inj e2
  omega

/-- C18: for each granularity and timestamps `t1 ≤ t2` of the UTC years 1970
to 9999, the bucket `ts` of `t1` is at most that of `t2` and the bucket key of
`t1` is at most that of `t2` in the order of strings.  So the series, sorted by
`ts`, is in the alphabetical order of its keys and in the order of the rows in
time: of two entries the earlier one has the smaller key, and every row of its
bucket is older than every row of the later bucket.  Across an ISO week-year
boundary: 2019-12-29 has key `2019-W52`, 2019-12-30 and 2020-01-01 have
`2020-W01`; 2021-01-03 has `2020-W53` and 2021-01-04 has `2021-W01`. -/
theorem bucket_order_follows_time :
    (∀ (g : Str) (t1 t2 : Int),
      1970 ≤ getUTCFullYear t1 ∧ getUTCFullYear t1 ≤ 9999 →
      1970 ≤ getUTCFullYear t2 ∧ getUTCFullYear t2 ≤ 9999 → t1 ≤ t2 →
      (∃ x y, bucketTs g (bucketKey g t1) = some x ∧ bucketTs g (bucketKey g t2) = some y ∧
        x ≤ y) ∧
      bucketKey g t1 ≤ bucketKey g t2) ∧
    (∀ (store : List Record) (now : Int) (p : Params),
      (∀ r ∈ selectRows store now p,
        1970 ≤ getUTCFullYear r.created_ts ∧ getUTCFullYear r.created_ts ≤ 9999) →
      (statsSummary store now p).series.Pairwise (fun a b => a.key < b.key ∧
        ∀ r1 ∈ selectRows store now p, ∀ r2 ∈ selectRows store now p,
          bucketKey p.granularity r1.created_ts = a.key →
          bucketKey p.granularity r2.created_ts = b.key → r1.created_ts < r2.created_ts)) ∧
    (bucketKey "week".toList 1577577600000 = "2019-W52".toList ∧
      bucketKey "week".toList 1577664000000 = "2020-W01".toList ∧
      bucketKey "week".toList 1577836800000 = "2020-W01".toList ∧
      bucketKey "week".toList 1609632000000 = "2020-W53".toList ∧
      bucketKey "week".toList 1609718400000 = "2021-W01".toList ∧
      ("2019-W52".toList : Str) < "2020-W01".toList ∧
      ("2020-W53".toList : Str) < "2021-W01".toList ∧
      toISOString 1577577600000 = "2019-12-29T00:00:00.000Z".toList ∧
      toISOString 1609718400000 = "2021-01-04T00:00:00.000Z".toList) := by
  refine ⟨?_, ?_, by decide⟩
  · intro g t1 t2 h1 h2 h
    refine ⟨⟨bucketStart g t1, bucketStart g t2, bucketTs_bucketKey g t1 h1.1 h1.2,
      bucketTs_bucketKey g t2 h2.1 h2.2, bucketStart_mono g t1 t2 h⟩, ?_⟩
    exact bucketKey_mono g t1 t2 h1 h2 h
  · intro store now p hr
    unfold statsSummary
    rw [summarize_series]
    exact series_order _ _ hr

theorem bucket_order_follows_time_witness :
    (1970 ≤ getUTCFullYear 1609632000000 ∧ getUTCFullYear 1609632000000 ≤ 9999) ∧
      (1970 ≤ getUTCFullYear 1609718400000 ∧ getUTCFullYear 1609718400000 ≤ 9999) ∧
      (1609632000000 : Int) ≤ 1609718400000 ∧
      (∃ x y, bucketTs "week".toList (bucketKey "week".toList 1609632000000) = some x ∧
        bucketTs "week".toList (bucketKey "week".toList 1609718400000) = some y ∧ x ≤ y) ∧
      bucketKey "week".toList 1609632000000 ≤ bucketKey "week".toList 1609718400000 :=
  ⟨by decide, by decide, by decide,
    bucket_order_follows_time.1 "week".toList 1609632000000 1609718400000 (by decide) (by decide)
      (by decide)⟩

end MoodStats
